import Mathlib

/-!
Verification development for the JSync synchronization engine.

The TypeScript sources are embedded shallowly: maps keyed by path
(JS objects and Map values) become association lists with
first-position, last-value update semantics; the MD5 digest is an
abstract function parameter; clock reads (Date.now) are a per-cycle
constant; asynchronous cancellation is a schedule saying before which
cancellation check the cancel flag becomes visible; I/O failures are
injected through a table of fault flags (an empty table models a
fault-free environment).
-/

namespace JSync

/-! ### Association lists (JS object / Map embedding) -/

/-- Lookup of the first binding of a key, as a JS object read. -/
def lookupA {α : Type} : List (String × α) → String → Option α
  | [], _ => none
  | (k, v) :: rest, key => if k = key then some v else lookupA rest key

/-- Update in place when present, append when absent: JS assignment to
an object field and Map.set keep the first insertion position and the
last value. -/
def asetA {α : Type} : List (String × α) → String → α → List (String × α)
  | [], k, v => [(k, v)]
  | (k', v') :: rest, k, v =>
      if k' = k then (k, v) :: rest else (k', v') :: asetA rest k v

/-- Removal of every binding of a key, as the JS delete operator. -/
def aeraseA {α : Type} (m : List (String × α)) (k : String) : List (String × α) :=
  m.filter (fun kv => kv.1 ≠ k)

/-- The key list, in iteration order. -/
def keysA {α : Type} (m : List (String × α)) : List String :=
  m.map Prod.fst

/-- Well-formedness: no key bound twice (always true of a JS object). -/
def WFA {α : Type} (m : List (String × α)) : Prop :=
  (keysA m).Nodup

/-! ### utils.ts -/

/-- Replace every backslash by a forward slash (the first regex of
normalizePath in utils.ts). -/
def slashify (l : List Char) : List Char :=
  l.map (fun c => if c = '\\' then '/' else c)

/-- Collapse runs of slashes to a single slash (the second regex of
normalizePath). -/
def collapseSlashes : List Char → List Char
  | [] => []
  | [c] => [c]
  | a :: b :: rest =>
      if a = '/' ∧ b = '/' then collapseSlashes (b :: rest)
      else a :: collapseSlashes (b :: rest)

/-- Drop one trailing slash (the third regex of normalizePath). -/
def dropTrailingSlash (l : List Char) : List Char :=
  if l.getLast? = some '/' then l.dropLast else l

/-- normalizePath from utils.ts: forward slashes only, no duplicate
slashes, no trailing slash. -/
def normalizePath (s : String) : String :=
  ⟨dropTrailingSlash (collapseSlashes (slashify s.data))⟩

/-- Split a character list at every occurrence of a separator, as the
JS String.split: splitting an empty list yields one empty segment. -/
def splitOnChar (sep : Char) : List Char → List (List Char)
  | [] => [[]]
  | c :: rest =>
      match splitOnChar sep rest with
      | [] => [[]]
      | s :: ss => if c = sep then [] :: s :: ss else (c :: s) :: ss

/-- JS String.split at dots. -/
def splitDot (l : List Char) : List (List Char) := splitOnChar '.' l

/-- Prefix test on character lists (JS String.startsWith). -/
def listStartsWith : List Char → List Char → Bool
  | _, [] => true
  | [], _ :: _ => false
  | a :: l, b :: p => a = b && listStartsWith l p

/-- JS String.startsWith. -/
def strStartsWith (s p : String) : Bool := listStartsWith s.data p.data

/-- The text-extension whitelist of utils.ts. -/
def textExtensions : List String :=
  ["md", "txt", "json", "yaml", "yml", "css", "js", "ts", "html", "xml",
   "csv", "svg", "ini", "cfg", "conf", "toml", "log", "env", "sh", "bat",
   "ps1", "py", "rb", "java", "c", "cpp", "h", "hpp", "rs", "go",
   "canvas", "excalidraw"]

/-- isBinaryFile from utils.ts: take the final dot-separated segment of
the path (JS split followed by pop), lower-case it, and test membership
in the text-extension whitelist. -/
def isBinaryFile (filePath : String) : Bool :=
  let ext : List Char := ((splitDot filePath.data).getLast?.getD []).map Char.toLower
  !(textExtensions.contains ⟨ext⟩)

/-- Split at the last dot: some (base, ext) with l = base ++ dot ++ ext
and ext dot-free, none when no dot occurs (the lastIndexOf logic of
generateConflictName). -/
def splitLastDot : List Char → Option (List Char × List Char)
  | [] => none
  | c :: rest =>
      match splitLastDot rest with
      | some (b, e) => some (c :: b, e)
      | none => if c = '.' then some ([], rest) else none

/-- The inserted conflict marker; the source formats the date, the model
keeps the numeric clock value. -/
def conflictTag (now : Nat) : List Char :=
  (" (conflict " ++ toString now ++ ")").data

/-- generateConflictName from utils.ts. -/
def generateConflictName (filePath : String) (now : Nat) : String :=
  match splitLastDot filePath.data with
  | some (b, e) => ⟨b ++ conflictTag now ++ '.' :: e⟩
  | none => ⟨filePath.data ++ conflictTag now⟩

/-! Normalized-path characterisation: a string is a fixed point of
normalizePath exactly when it has no backslash, no two adjacent slashes
and no trailing slash. -/

/-- No two adjacent forward slashes. -/
def NoDS (l : List Char) : Prop :=
  List.Chain' (fun a b => ¬(a = '/' ∧ b = '/')) l

/-- Fixed-point characterisation of normalizePath input. -/
def NormP (l : List Char) : Prop :=
  '\\' ∉ l ∧ NoDS l ∧ l.getLast? ≠ some '/'

/-! ### sync-state.ts -/

/-- Per-file ledger record (SyncItemState in sync-state.ts). -/
structure SyncItemState where
  localMtime : Nat
  remoteMtime : Nat
  contentHash : String
  syncedAt : Nat
  size : Nat
deriving Repr, DecidableEq

/-- The persisted sync-state payload (SyncStateData in sync-state.ts). -/
structure SyncStateData where
  version : Nat
  items : List (String × SyncItemState)
  lastSyncTime : Nat
  deviceId : String
deriving Repr, DecidableEq

/-- Current on-disk format version (CURRENT_VERSION in sync-state.ts). -/
def CURRENT_VERSION : Nat := 1

/-- The SyncState constructor: fresh empty state around a newly generated
random device id (generateDeviceId is a random source, so the generated
id is a parameter of the embedding). -/
def mkSyncStateData (freshDeviceId : String) : SyncStateData :=
  ⟨CURRENT_VERSION, [], 0, freshDeviceId⟩

/-- SyncState.load: keep the persisted state when it parses and its
version matches; on version mismatch reset items and lastSyncTime while
keeping the in-memory (constructor-generated) device id; on absence or
read/parse failure keep the in-memory state unchanged.  The legacy-path
migration copies the same payload before reading and so is invisible
here. -/
def loadSyncState (cur : SyncStateData) (persisted : Option (Except Unit SyncStateData)) :
    SyncStateData :=
  match persisted with
  | none => cur
  | some (Except.error _) => cur
  | some (Except.ok parsed) =>
      if parsed.version = CURRENT_VERSION then parsed
      else { cur with items := [], lastSyncTime := 0 }

/-- SyncState.getItem: lookup under the normalized path. -/
def getItem (st : SyncStateData) (path : String) : Option SyncItemState :=
  JSync.lookupA st.items (normalizePath path)

/-- SyncState.setItem: store under the normalized path. -/
def setItem (st : SyncStateData) (path : String) (it : SyncItemState) : SyncStateData :=
  { st with items := JSync.asetA st.items (normalizePath path) it }

/-- SyncState.removeItem. -/
def removeItem (st : SyncStateData) (path : String) : SyncStateData :=
  { st with items := JSync.aeraseA st.items (normalizePath path) }

/-! ### sync-engine.ts: data model -/

/-- A local vault file: stat .mtime plus content; stat .size is the
content length. -/
structure VFile where
  mtime : Nat
  content : String
deriving Repr, DecidableEq

/-- A remote blob with its listing timestamp (RemoteItem lastModified). -/
structure RFile where
  content : String
  lastModified : Nat
deriving Repr, DecidableEq

/-- Lock file payload (SyncLock in sync-engine.ts). -/
structure SyncLock where
  deviceId : String
  clientType : String
  timestamp : Nat
  updatedAt : Nat
  expiresAt : Nat
deriving Repr, DecidableEq

/-- Lock time-to-live (LOCK_TTL_MS). -/
def LOCK_TTL_MS : Nat := 3 * 60 * 1000

/-- Name of the remote hash manifest file (HASH_MANIFEST). -/
def HASH_MANIFEST : String := ".jsync-hashes.json"

/-- Lock directory name (LOCK_DIR). -/
def LOCK_DIR : String := ".locks"

/-- The remote MEGA store, keyed by vault-relative path: the engine
always prefixes settings.remoteFolder on writes and strips the same
prefix when listing, so the prefix cancels and is elided.  The control
files (hash manifest, lock files) live in dedicated fields; data files
with internal-looking names still go through the files map and are
filtered by isInternalFile when listed, as in the source. -/
structure Remote where
  files : List (String × RFile)
  manifestFile : Option (List (String × String))
  exclusiveLock : Option (Except Unit SyncLock)
  syncLocks : List (String × SyncLock)

/-- Conflict strategies (settings.conflictStrategy). -/
inductive ConflictStrategy where
  | copy
  | localWins
  | remoteWins
deriving Repr, DecidableEq

/-- The settings surface consumed by the engine. -/
structure JSyncSettings where
  remoteFolder : String
  syncAttachments : Bool
  maxFileSizeMB : Nat
  conflictStrategy : ConflictStrategy
  excludedFolders : List String
deriving Repr, DecidableEq

/-- Injected I/O failures.  Every flag set models the corresponding
operation throwing; the empty table is a fault-free environment. -/
structure Faults where
  readLocalFail : String → Bool
  createLocalFail : String → Bool
  modifyLocalFail : String → Bool
  deleteLocalFail : String → Bool
  putFail : String → Bool
  getFail : String → Bool
  deleteFail : String → Bool
  mkdirFail : Bool
  reloadFail : Bool
  listFail : Bool
  manifestGetFail : Bool
  manifestPutFail : Bool
  lockGetFail : Bool
  lockMkdirFail : Bool
  lockPutFail : Bool
  lockDeleteFail : Bool
  saveStateFail : Bool

/-- The fault-free environment. -/
def noFaults : Faults :=
  ⟨fun _ => false, fun _ => false, fun _ => false, fun _ => false,
   fun _ => false, fun _ => false, fun _ => false,
   false, false, false, false, false, false, false, false, false, false⟩

/-- Per-cycle environment: settings, faults, the digest function
(computeHash is MD5 in utils.ts, abstracted to a function parameter),
the clock value Date.now returns during the cycle, and the cancellation
schedule: cancelAt = some k means the user cancel request becomes
visible at the k-th cancellation check of the cycle (the source resets
cancelRequested at cycle start, so cancellation always arrives during
the cycle through the concurrent cancel method). -/
structure Env where
  settings : JSyncSettings
  faults : Faults
  hash : String → String
  now : Nat
  cancelAt : Option Nat
  connected : Bool

/-- Result summary (SyncResult in sync-engine.ts). -/
structure SyncResult where
  success : Bool
  uploaded : Nat
  downloaded : Nat
  deletedLocal : Nat
  deletedRemote : Nat
  conflicts : Nat
  renames : Nat
  errors : List String
  duration : Nat
deriving Repr, DecidableEq

/-- Sync action records (the SyncAction type of sync-engine.ts); the
model appends one whenever the corresponding executor runs, as
observation-only instrumentation. -/
inductive SyncAction where
  | upload (path : String)
  | download (path : String)
  | deleteRemote (path : String)
  | deleteLocal (path : String)
  | conflict (path : String)
deriving Repr, DecidableEq

/-- Scanner output entry for one local file. -/
structure LocalEntry where
  mtime : Nat
  size : Nat
  hash : String
deriving Repr, DecidableEq

/-- Mutable cycle state threaded through the phases: the vault, the
remote store, the in-memory ledger (this.syncState.data), the in-memory
remote hash map (this.remoteHashMap), the result being accumulated, the
instrumentation trace, and the number of cancellation checks performed
so far. -/
structure Ctx where
  vault : List (String × VFile)
  remote : Remote
  ledger : SyncStateData
  manifest : List (String × String)
  result : SyncResult
  trace : List SyncAction
  checks : Nat

/-- One cancellation check: reports whether the scheduled cancel request
has become visible, and counts the check. -/
def checkCancel (env : Env) (c : Ctx) : Bool × Ctx :=
  (match env.cancelAt with
   | none => false
   | some k => decide (k ≤ c.checks),
   { c with checks := c.checks + 1 })

/-- Append an error message to the result list. -/
def pushErr (c : Ctx) (msg : String) : Ctx :=
  { c with result := { c.result with errors := c.result.errors ++ [msg] } }

/-- Read of the remote hash map with JS truthiness: an empty-string
digest is falsy and behaves like an absent entry, exactly as the
source conditionals treat it. -/
def manifestGet (m : List (String × String)) (path : String) : Option String :=
  match JSync.lookupA m path with
  | none => none
  | some h => if h = "" then none else some h

/-! ### sync-engine.ts: scanning -/

/-- isExcluded: the normalized path equals or sits under a configured
excluded folder. -/
def isExcluded (settings : JSyncSettings) (path : String) : Bool :=
  let normalPath := normalizePath path
  settings.excludedFolders.any (fun excluded =>
    let normalExcl := normalizePath excluded
    normalPath = normalExcl || strStartsWith normalPath (normalExcl ++ "/"))

/-- One scanLocalFiles iteration: apply the exclusion, size-ceiling and
attachment filters (a filtered or unreadable file leaves the map
untouched), reuse the ledger digest when mtime and size both match the
recorded ones (the mtime-first optimization), otherwise hash the
content. -/
def scanStep (env : Env) (ledger : SyncStateData)
    (acc : List (String × LocalEntry)) (path : String) (f : VFile) :
    List (String × LocalEntry) :=
  if isExcluded env.settings path then acc
  else if env.settings.maxFileSizeMB * 1024 * 1024 < f.content.length then acc
  else if !env.settings.syncAttachments && isBinaryFile path then acc
  else
    let normalPath := normalizePath path
    let reused : Option String :=
      match getItem ledger normalPath with
      | some it =>
          if f.mtime = it.localMtime ∧ f.content.length = it.size then
            some it.contentHash
          else none
      | none => none
    match reused with
    | some h => JSync.asetA acc normalPath ⟨f.mtime, f.content.length, h⟩
    | none =>
        if env.faults.readLocalFail path then acc
        else
          JSync.asetA acc normalPath ⟨f.mtime, f.content.length, env.hash f.content⟩

/-- scanLocalFiles body: fold the per-file step over the vault listing. -/
def scanLocalGo (env : Env) (ledger : SyncStateData)
    (acc : List (String × LocalEntry)) :
    List (String × VFile) → List (String × LocalEntry)
  | [] => acc
  | (path, f) :: rest => scanLocalGo env ledger (scanStep env ledger acc path f) rest

/-- scanLocalFiles from sync-engine.ts. -/
def scanLocalFiles (env : Env) (ledger : SyncStateData)
    (vault : List (String × VFile)) : List (String × LocalEntry) :=
  scanLocalGo env ledger [] vault

/-- isInternalFile: the hash manifest, the lock directory, and any
path starting with .jsync are control files. -/
def isInternalFile (path : String) : Bool :=
  let last : List Char := (splitOnChar '/' path.data).getLast?.getD []
  let name : String := if last = [] then path else ⟨last⟩
  name = HASH_MANIFEST || strStartsWith path (LOCK_DIR ++ "/") || strStartsWith path ".jsync"

/-- scanRemoteFiles body: keep non-internal files with a nonempty
relative path (the remote-folder prefix cancels against the prefix
stripping of the source and is elided). -/
def scanRemoteGo (acc : List (String × RFile)) :
    List (String × RFile) → List (String × RFile)
  | [] => acc
  | (p, rf) :: rest =>
      if p = "" then scanRemoteGo acc rest
      else if isInternalFile p then scanRemoteGo acc rest
      else scanRemoteGo (JSync.asetA acc p rf) rest

/-- scanRemoteFiles from sync-engine.ts. -/
def scanRemoteFiles (files : List (String × RFile)) : List (String × RFile) :=
  scanRemoteGo [] files

/-! ### sync-engine.ts: action executors -/

/-- doUpload: read the local file, put it to the remote path, record the
new digest in the remote hash map and the ledger.  An error return
carries the context reached so far (mutations before the throwing call
persist, as in the source). -/
def doUpload (env : Env) (c : Ctx) (path : String) : Ctx × Option String :=
  match JSync.lookupA c.vault path with
  | none => (c, some ("Local file not found: " ++ path))
  | some f =>
      if env.faults.readLocalFail path then (c, some "read failed")
      else if env.faults.putFail path then (c, some "put failed")
      else
        let h := env.hash f.content
        ({ c with
            remote := { c.remote with
              files := JSync.asetA c.remote.files path ⟨f.content, env.now⟩ }
            manifest := JSync.asetA c.manifest path h
            ledger := setItem c.ledger path ⟨f.mtime, env.now, h, env.now, f.content.length⟩
            trace := SyncAction.upload path :: c.trace }, none)

/-- doDownload: get the remote content, write it locally (modify when
present, create when absent; the write stamps the current clock as the
new local mtime), record the digest in the remote hash map and the
ledger. -/
def doDownload (env : Env) (c : Ctx) (path : String) : Ctx × Option String :=
  if env.faults.getFail path then (c, some "get failed")
  else
    match JSync.lookupA c.remote.files path with
    | none => (c, some "NotFound")
    | some rf =>
        let writeFail :=
          match JSync.lookupA c.vault path with
          | some _ => env.faults.modifyLocalFail path
          | none => env.faults.createLocalFail path
        if writeFail then (c, some "local write failed")
        else
          let h := env.hash rf.content
          ({ c with
              vault := JSync.asetA c.vault path ⟨env.now, rf.content⟩
              manifest := JSync.asetA c.manifest path h
              ledger := setItem c.ledger path ⟨env.now, env.now, h, env.now, rf.content.length⟩
              trace := SyncAction.download path :: c.trace }, none)

/-- handleConflict: apply the configured strategy.  local-wins uploads,
remote-wins downloads; copy reads the local content, creates a sibling
conflict copy locally (vault.create throws when the target exists),
uploads the copy, records it in the ledger, then downloads the remote
version into the original path. -/
def handleConflict (env : Env) (c0 : Ctx) (path : String) : Ctx × Option String :=
  let c := { c0 with trace := SyncAction.conflict path :: c0.trace }
  match env.settings.conflictStrategy with
  | ConflictStrategy.localWins => doUpload env c path
  | ConflictStrategy.remoteWins => doDownload env c path
  | ConflictStrategy.copy =>
      match JSync.lookupA c.vault path with
      | none => doDownload env c path
      | some f =>
          if env.faults.readLocalFail path then (c, some "read failed")
          else
            let conflictPath := generateConflictName path env.now
            if (JSync.lookupA c.vault conflictPath).isSome then
              (c, some "create failed: destination exists")
            else if env.faults.createLocalFail conflictPath then
              (c, some "create failed")
            else
              let c1 := { c with
                vault := JSync.asetA c.vault conflictPath ⟨env.now, f.content⟩ }
              if env.faults.putFail conflictPath then (c1, some "put failed")
              else
                let ch := env.hash f.content
                let c2 := { c1 with
                  remote := { c1.remote with
                    files := JSync.asetA c1.remote.files conflictPath ⟨f.content, env.now⟩ }
                  manifest := JSync.asetA c1.manifest conflictPath ch
                  ledger := (setItem c1.ledger conflictPath
                    ⟨env.now, env.now, ch, env.now, f.content.length⟩) }
                doDownload env c2 path

/-! ### sync-engine.ts: step 1, upload -/

/-- The body of one stepUpload iteration (after the cancellation
check): skip unchanged files; for never-synced paths compare against
the remote hash map (register on agreement, conflict on disagreement,
plain upload when absent); for previously synced paths conflict when
the remote digest moved away from the ledger digest, upload otherwise.
Per-item failures append to the error list. -/
def uploadItem (env : Env) (snapshot : List (String × SyncItemState))
    (c : Ctx) (path : String) (lf : LocalEntry) : Ctx :=
  match JSync.lookupA snapshot path with
  | none =>
      match manifestGet c.manifest path with
      | some remoteHash =>
          if remoteHash = lf.hash then
            { c with ledger := (setItem c.ledger path
                ⟨lf.mtime, env.now, lf.hash, env.now, lf.size⟩) }
          else
            match handleConflict env c path with
            | (c', none) =>
                { c' with result := { c'.result with conflicts := c'.result.conflicts + 1 } }
            | (c', some m) => pushErr c' ("Upload error " ++ path ++ ": " ++ m)
      | none =>
          match doUpload env c path with
          | (c', none) =>
              { c' with result := { c'.result with uploaded := c'.result.uploaded + 1 } }
          | (c', some m) => pushErr c' ("Upload error " ++ path ++ ": " ++ m)
  | some syncItem =>
      if lf.hash = syncItem.contentHash then c
      else
        let remoteChanged : Bool :=
          match manifestGet c.manifest path with
          | some h => h != syncItem.contentHash
          | none => false
        if remoteChanged then
          match handleConflict env c path with
          | (c', none) =>
              { c' with result := { c'.result with conflicts := c'.result.conflicts + 1 } }
          | (c', some m) => pushErr c' ("Upload error " ++ path ++ ": " ++ m)
        else
          match doUpload env c path with
          | (c', none) =>
              { c' with result := { c'.result with uploaded := c'.result.uploaded + 1 } }
          | (c', some m) => pushErr c' ("Upload error " ++ path ++ ": " ++ m)

/-- The stepUpload loop with its per-iteration cancellation check. -/
def stepUploadGo (env : Env) (snapshot : List (String × SyncItemState)) :
    Ctx → List (String × LocalEntry) → Ctx
  | c, [] => c
  | c, (path, lf) :: rest =>
      let (stop, c1) := checkCancel env c
      if stop then c1
      else stepUploadGo env snapshot (uploadItem env snapshot c1 path lf) rest

/-- stepUpload: iterate the local snapshot against a copy of the ledger
items taken at phase entry. -/
def stepUpload (env : Env) (c : Ctx) (localFiles : List (String × LocalEntry)) : Ctx :=
  stepUploadGo env c.ledger.items c localFiles

/-! ### sync-engine.ts: step 1.5, rename detection -/

/-- Read of the hash-to-deleted-path index with JS truthiness: an empty
string path is falsy and counts as no match. -/
def pathGet (m : List (String × String)) (h : String) : Option String :=
  match JSync.lookupA m h with
  | none => none
  | some p => if p = "" then none else some p

/-- The rename-matching loop: for each new local file look its digest up
in the deleted-path index; on a hit upload the content to the new
remote path, delete the old remote path, move the ledger entry and the
hash-map entry, and count a rename.  Any throw inside an iteration is
only logged and the loop continues with the next candidate, leaving the
mutations already performed in place. -/
def renameGo (env : Env) :
    Ctx → List (String × String) → List (String × LocalEntry) → Ctx
  | c, _, [] => c
  | c, h2d, (newPath, newLocal) :: rest =>
      let (stop, c1) := checkCancel env c
      if stop then c1
      else
        match pathGet h2d newLocal.hash with
        | none => renameGo env c1 h2d rest
        | some oldPath =>
            match JSync.lookupA c1.vault newPath with
            | none => renameGo env c1 h2d rest
            | some f =>
                if env.faults.readLocalFail newPath then renameGo env c1 h2d rest
                else if env.faults.putFail newPath then renameGo env c1 h2d rest
                else
                  let c2 := { c1 with
                    remote := { c1.remote with
                      files := JSync.asetA c1.remote.files newPath ⟨f.content, env.now⟩ } }
                  if env.faults.deleteFail oldPath then renameGo env c2 h2d rest
                  else
                    let h := env.hash f.content
                    let c3 := { c2 with
                      remote := { c2.remote with
                        files := JSync.aeraseA c2.remote.files oldPath }
                      ledger := (setItem (removeItem c2.ledger oldPath) newPath
                        ⟨f.mtime, env.now, h, env.now, f.content.length⟩)
                      manifest := JSync.aeraseA (JSync.asetA c2.manifest newPath h) oldPath
                      result := { c2.result with renames := c2.result.renames + 1 } }
                    renameGo env c3 (JSync.aeraseA h2d newLocal.hash) rest

/-- stepRenameDetect: runs only when a fresh copy of the ledger items
shows at least one candidate deletion (tracked but not local) and at
least one candidate new file (local but not tracked); builds the
digest-to-old-path index over the candidate deletions and runs the
matching loop. -/
def stepRenameDetect (env : Env) (c : Ctx) (localFiles : List (String × LocalEntry)) : Ctx :=
  let syncItems := c.ledger.items
  let deletedLocally := syncItems.filter
    (fun kv => !(JSync.keysA localFiles).contains kv.1)
  if deletedLocally.isEmpty then c
  else
    let newLocally := localFiles.filter
      (fun kv => (JSync.lookupA syncItems kv.1).isNone)
    if newLocally.isEmpty then c
    else
      let hashToDeleted := deletedLocally.foldl
        (fun m kv => JSync.asetA m kv.2.contentHash kv.1) []
      renameGo env c hashToDeleted newLocally

/-! ### sync-engine.ts: step 2, delete remote -/

/-- The stepDeleteRemote loop over a copy of the ledger items: a path
tracked but no longer local is a local deletion; when the remote hash
map still agrees with the ledger digest (or has no entry) the remote
object, the ledger entry and the hash-map entry are removed, otherwise
the path is skipped for the delta step to handle. -/
def deleteRemoteItem (env : Env) (localKeys : List String) (c : Ctx)
    (path : String) (syncItem : SyncItemState) : Ctx :=
  if localKeys.contains path then c
  else
    let remoteChanged : Bool :=
      match manifestGet c.manifest path with
      | some h => h != syncItem.contentHash
      | none => false
    if remoteChanged then c
    else if env.faults.deleteFail path then
      pushErr c ("Delete remote error " ++ path ++ ": delete failed")
    else
      { c with
        remote := { c.remote with
          files := JSync.aeraseA c.remote.files path }
        ledger := removeItem c.ledger path
        manifest := JSync.aeraseA c.manifest path
        result := { c.result with deletedRemote := c.result.deletedRemote + 1 }
        trace := SyncAction.deleteRemote path :: c.trace }

/-- The stepDeleteRemote loop with its per-iteration cancellation check. -/
def deleteRemoteGo (env : Env) (localKeys : List String) :
    Ctx → List (String × SyncItemState) → Ctx
  | c, [] => c
  | c, (path, syncItem) :: rest =>
      let (stop, c1) := checkCancel env c
      if stop then c1
      else deleteRemoteGo env localKeys (deleteRemoteItem env localKeys c1 path syncItem) rest

/-- stepDeleteRemote from sync-engine.ts. -/
def stepDeleteRemote (env : Env) (c : Ctx) (localFiles : List (String × LocalEntry)) : Ctx :=
  deleteRemoteGo env (JSync.keysA localFiles) c c.ledger.items

/-! ### sync-engine.ts: step 3, delta -/

/-- First delta loop, over the remote listing: download brand-new remote
files; for tracked remote files absent locally download only when the
remote digest moved since the ledger digest (hash-map entry when
present, otherwise the listing timestamp against the recorded remote
mtime with a one-second slack); for files present on both sides
download only when the remote changed and the local side did not; all
other combinations are no-ops here. -/
def deltaItem1 (env : Env) (snapshot : List (String × SyncItemState))
    (localFiles : List (String × LocalEntry)) (c : Ctx)
    (path : String) (remote : RFile) : Ctx :=
  let localE := JSync.lookupA localFiles path
  let syncItem := JSync.lookupA snapshot path
  let remoteHash := manifestGet c.manifest path
  match localE, syncItem with
  | none, none =>
      match doDownload env c path with
      | (c', none) =>
          { c' with result :=
            { c'.result with downloaded := c'.result.downloaded + 1 } }
      | (c', some m) => pushErr c' ("Download error " ++ path ++ ": " ++ m)
  | none, some it =>
      let remoteChanged : Bool :=
        match remoteHash with
        | some h => h != it.contentHash
        | none => decide (it.remoteMtime + 1000 < remote.lastModified)
      if remoteChanged then
        match doDownload env c path with
        | (c', none) =>
            { c' with result :=
              { c'.result with downloaded := c'.result.downloaded + 1 } }
        | (c', some m) => pushErr c' ("Download error " ++ path ++ ": " ++ m)
      else c
  | some lf, some it =>
      let remoteChanged : Bool :=
        match remoteHash with
        | some h => h != it.contentHash
        | none => decide (it.remoteMtime + 1000 < remote.lastModified)
      let localChanged : Bool := lf.hash != it.contentHash
      if remoteChanged && !localChanged then
        match doDownload env c path with
        | (c', none) =>
            { c' with result :=
              { c'.result with downloaded := c'.result.downloaded + 1 } }
        | (c', some m) => pushErr c' ("Download error " ++ path ++ ": " ++ m)
      else c
  | some _, none => c

/-- The first delta loop with its per-iteration cancellation check. -/
def deltaGo1 (env : Env) (snapshot : List (String × SyncItemState))
    (localFiles : List (String × LocalEntry)) :
    Ctx → List (String × RFile) → Ctx
  | c, [] => c
  | c, (path, remote) :: rest =>
      let (stop, c1) := checkCancel env c
      if stop then c1
      else deltaGo1 env snapshot localFiles (deltaItem1 env snapshot localFiles c1 path remote) rest

/-- Second delta loop, over the ledger copy: entries gone from the
remote are ghost-cleaned when also gone locally; deleted locally when
the local copy is unchanged (removing the local file, the entry and the
hash-map entry); re-uploaded when the local copy changed since the
ledger digest. -/
def deltaItem2 (env : Env) (localFiles : List (String × LocalEntry))
    (remoteKeys : List String) (c : Ctx)
    (path : String) (syncItem : SyncItemState) : Ctx :=
  if remoteKeys.contains path then c
  else
    match JSync.lookupA localFiles path with
    | none =>
        { c with
          ledger := removeItem c.ledger path
          manifest := JSync.aeraseA c.manifest path }
    | some lf =>
        if lf.hash != syncItem.contentHash then
          match doUpload env c path with
          | (c', none) =>
              { c' with result :=
                { c'.result with uploaded := c'.result.uploaded + 1 } }
          | (c', some m) => pushErr c' ("Re-upload error " ++ path ++ ": " ++ m)
        else
          match JSync.lookupA c.vault path with
          | some _ =>
              if env.faults.deleteLocalFail path then
                pushErr c ("Delete local error " ++ path ++ ": delete failed")
              else
                { c with
                  vault := JSync.aeraseA c.vault path
                  ledger := removeItem c.ledger path
                  manifest := JSync.aeraseA c.manifest path
                  result := { c.result with
                    deletedLocal := c.result.deletedLocal + 1 }
                  trace := SyncAction.deleteLocal path :: c.trace }
          | none =>
              { c with
                ledger := removeItem c.ledger path
                manifest := JSync.aeraseA c.manifest path
                result := { c.result with
                  deletedLocal := c.result.deletedLocal + 1 }
                trace := SyncAction.deleteLocal path :: c.trace }

/-- The second delta loop with its per-iteration cancellation check. -/
def deltaGo2 (env : Env) (localFiles : List (String × LocalEntry))
    (remoteKeys : List String) :
    Ctx → List (String × SyncItemState) → Ctx
  | c, [] => c
  | c, (path, syncItem) :: rest =>
      let (stop, c1) := checkCancel env c
      if stop then c1
      else deltaGo2 env localFiles remoteKeys (deltaItem2 env localFiles remoteKeys c1 path syncItem) rest

/-- stepDelta: both loops read the same copy of the ledger items taken
at phase entry. -/
def stepDelta (env : Env) (c : Ctx) (localFiles : List (String × LocalEntry))
    (remoteFiles : List (String × RFile)) : Ctx :=
  let snapshot := c.ledger.items
  let c1 := deltaGo1 env snapshot localFiles c remoteFiles
  deltaGo2 env localFiles (JSync.keysA remoteFiles) c1 snapshot

/-! ### sync-engine.ts: lock coordination and the cycle orchestrator -/

/-- The per-device lock file name, derived deterministically from the
device id (lockFileName in sync-engine.ts; the remote-folder prefix is
elided as everywhere). -/
def lockFileName (deviceId : String) : String :=
  LOCK_DIR ++ "/sync_" ++ deviceId ++ ".json"

/-- The write half of acquireSyncLock: ensure the lock directory and
write this device sync lock; any failure is caught and acquisition
still reports success (fail open). -/
def acquireWriteLock (env : Env) (deviceId : String) (remote : Remote) : Bool × Remote :=
  if env.faults.lockMkdirFail then (true, remote)
  else if env.faults.lockPutFail then (true, remote)
  else
    (true, { remote with
      syncLocks := (JSync.asetA remote.syncLocks (lockFileName deviceId)
        ⟨deviceId, "obsidian", env.now, env.now, env.now + LOCK_TTL_MS⟩) })

/-- acquireSyncLock: read the exclusive lock file; when it exists,
parses, and is unexpired, acquisition fails; otherwise (absent,
expired, or unparseable — the parse error is caught) write this device
non-exclusive lock and succeed; any I/O error anywhere is caught and
acquisition succeeds without blocking the sync. -/
def acquireSyncLock (env : Env) (deviceId : String) (remote : Remote) : Bool × Remote :=
  if env.faults.lockGetFail then (true, remote)
  else
    match remote.exclusiveLock with
    | some (Except.ok lock) =>
        if env.now < lock.expiresAt then (false, remote)
        else acquireWriteLock env deviceId remote
    | some (Except.error _) => (true, remote)
    | none => acquireWriteLock env deviceId remote

/-- The world outside the engine: the vault, the remote store, and the
persisted sync-state file (none when absent, error when unparseable). -/
structure World where
  vault : List (String × VFile)
  remote : Remote
  persistedLedger : Option (Except Unit SyncStateData)

/-- Engine instance state: the single-flight flag, the lock-refresh
timer handle (true when a timer is installed), and the in-memory
sync-state data held by the SyncState instance. -/
structure EngineState where
  isSyncing : Bool
  lockRefreshTimer : Bool
  stateData : SyncStateData

/-- isBusy from sync-engine.ts. -/
def isBusy (e : EngineState) : Bool := e.isSyncing

/-- Everything the finally block of sync needs from the try/catch body:
the device id for the lock file name, whether the lock was acquired,
the in-memory state, the three world components, and the result. -/
structure CycleEnd where
  deviceId : String
  lockAcquired : Bool
  st : SyncStateData
  vault : List (String × VFile)
  remote : Remote
  persisted : Option (Except Unit SyncStateData)
  result : SyncResult

/-- The finally block of sync: stop the lock-refresh timer, release the
sync lock when it was acquired (deletion failures are swallowed; the
lock then expires by TTL), clear the single-flight flag and stamp the
duration (zero under the constant per-cycle clock). -/
def finishCycle (env : Env) (k : CycleEnd) : EngineState × World × SyncResult :=
  let remote' :=
    if k.lockAcquired && !env.faults.lockDeleteFail then
      { k.remote with
        syncLocks := JSync.aeraseA k.remote.syncLocks (lockFileName k.deviceId) }
    else k.remote
  (⟨false, false, k.st⟩, ⟨k.vault, remote', k.persisted⟩,
   { k.result with duration := 0 })

/-- The catch block of sync: mark failure; every fatal message except
the cancellation marker is appended to the error list. -/
def fatalResult (r : SyncResult) (msg : String) : SyncResult :=
  { r with success := false,
           errors := if msg = "Cancelled" then r.errors else r.errors ++ [msg] }

/-- The initial result record of a cycle. -/
def emptyResult : SyncResult := ⟨true, 0, 0, 0, 0, 0, 0, [], 0⟩

/-- The immediate busy result returned when a cycle is already active. -/
def busyResult : SyncResult :=
  ⟨false, 0, 0, 0, 0, 0, 0, ["Sync already in progress"], 0⟩

/-- The try/catch body of SyncEngine.sync: check connectivity, load the
persisted state, refresh the remote tree, acquire the sync lock, load
the remote hash manifest, scan the vault, run the four reconciliation
steps in order with cancellation checks between them, and persist the
hash manifest and the sync state; any fatal exit carries the partial
state reached so far through the catch block. -/
def syncCore (env : Env) (e : EngineState) (w : World) : CycleEnd :=
  if !env.connected then
    ⟨e.stateData.deviceId, false, e.stateData, w.vault, w.remote, w.persistedLedger,
     fatalResult emptyResult "Not connected to MEGA. Authenticate first."⟩
  else
    let st := loadSyncState e.stateData w.persistedLedger
    if env.faults.mkdirFail then
      ⟨st.deviceId, false, st, w.vault, w.remote, w.persistedLedger,
       fatalResult emptyResult "mkdir failed"⟩
    else if env.faults.reloadFail then
      ⟨st.deviceId, false, st, w.vault, w.remote, w.persistedLedger,
       fatalResult emptyResult "reload failed"⟩
    else
      let c0 : Ctx := ⟨w.vault, w.remote, st, [], emptyResult, [], 0⟩
      let (stop0, c1) := checkCancel env c0
      if stop0 then
        ⟨st.deviceId, false, c1.ledger, c1.vault, c1.remote, w.persistedLedger,
         fatalResult c1.result "Cancelled"⟩
      else
        let acq := acquireSyncLock env st.deviceId c1.remote
        let c2 := { c1 with remote := acq.2 }
        if !acq.1 then
          ⟨st.deviceId, false, c2.ledger, c2.vault, c2.remote, w.persistedLedger,
           fatalResult c2.result
             "Sync target is locked by another device performing an upgrade. Try again later."⟩
        else
          let manifest0 :=
            if env.faults.manifestGetFail then []
            else c2.remote.manifestFile.getD []
          let c3 := { c2 with manifest := manifest0 }
          let (stop1, c4) := checkCancel env c3
          if stop1 then
            ⟨st.deviceId, true, c4.ledger, c4.vault, c4.remote, w.persistedLedger,
             fatalResult c4.result "Cancelled"⟩
          else
            let localFiles := scanLocalFiles env c4.ledger c4.vault
            let (stop2, c5) := checkCancel env c4
            if stop2 then
              ⟨st.deviceId, true, c5.ledger, c5.vault, c5.remote, w.persistedLedger,
               fatalResult c5.result "Cancelled"⟩
            else
              let c6 := stepUpload env c5 localFiles
              let (stop3, c7) := checkCancel env c6
              if stop3 then
                ⟨st.deviceId, true, c7.ledger, c7.vault, c7.remote, w.persistedLedger,
                 fatalResult c7.result "Cancelled"⟩
              else
                let c8 := stepRenameDetect env c7 localFiles
                let (stop4, c9) := checkCancel env c8
                if stop4 then
                  ⟨st.deviceId, true, c9.ledger, c9.vault, c9.remote, w.persistedLedger,
                   fatalResult c9.result "Cancelled"⟩
                else
                  let c10 := stepDeleteRemote env c9 localFiles
                  let (stop5, c11) := checkCancel env c10
                  if stop5 then
                    ⟨st.deviceId, true, c11.ledger, c11.vault, c11.remote, w.persistedLedger,
                     fatalResult c11.result "Cancelled"⟩
                  else if env.faults.listFail then
                    ⟨st.deviceId, true, c11.ledger, c11.vault, c11.remote, w.persistedLedger,
                     fatalResult c11.result "list failed"⟩
                  else
                    let remoteFiles := scanRemoteFiles c11.remote.files
                    let c12 := stepDelta env c11 localFiles remoteFiles
                    let remoteF :=
                      if env.faults.manifestPutFail then c12.remote
                      else { c12.remote with manifestFile := some c12.manifest }
                    let stF := { c12.ledger with lastSyncTime := env.now }
                    let persistedF :=
                      if env.faults.saveStateFail then w.persistedLedger
                      else some (Except.ok stF)
                    ⟨st.deviceId, true, stF, c12.vault, remoteF, persistedF, c12.result⟩

/-- SyncEngine.sync: refuse when a cycle is already active, otherwise
run the cycle body and always unwind through the finally block. -/
def sync (env : Env) (e : EngineState) (w : World) : EngineState × World × SyncResult :=
  if e.isSyncing then (e, w, busyResult)
  else finishCycle env (syncCore env e w)

/-! ### Concrete fixtures for counterexamples and witnesses -/

/-- A concrete digest function for concrete runs. -/
def tHash : String → String := fun s => "h" ++ s

/-- Default settings used by the fixtures. -/
def tSettings : JSyncSettings := ⟨"R", true, 1, ConflictStrategy.copy, []⟩

/-- Fault-free connected environment at clock 100. -/
def tEnv : Env := ⟨tSettings, noFaults, tHash, 100, none, true⟩

/-- Fresh engine with an empty in-memory state. -/
def tEngine : EngineState := ⟨false, false, ⟨1, [], 0, "device-abc"⟩⟩

/-- Pure-rename world: the ledger tracks old/x.md with digest hD, the
vault holds only new/x.md with the same content, the remote store and
the hash manifest still hold old/x.md. -/
def renameWorld : World :=
  ⟨[("new/x.md", ⟨10, "D"⟩)],
   ⟨[("old/x.md", ⟨"D", 0⟩)], some [("old/x.md", "hD")], none, []⟩,
   some (Except.ok ⟨1, [("old/x.md", ⟨5, 0, "hD", 0, 1⟩)], 0, "device-abc"⟩)⟩

/-- Faults making every put of a.md fail. -/
def putAFaults : Faults := { noFaults with putFail := fun p => p == "a.md" }

/-- Environment with the a.md put fault. -/
def putAEnv : Env := ⟨tSettings, putAFaults, tHash, 100, none, true⟩

/-- Two new local files, empty remote, no persisted state. -/
def twoFileWorld : World :=
  ⟨[("a.md", ⟨1, "A"⟩), ("b.md", ⟨1, "B"⟩)], ⟨[], none, none, []⟩, none⟩

/-- Environment whose cancellation schedule fires at the first check. -/
def cancelEnv : Env := ⟨tSettings, noFaults, tHash, 100, some 0, true⟩

/-- Settings with a zero size ceiling: every nonempty file is skipped by
the local scan. -/
def capSettings : JSyncSettings := ⟨"R", true, 0, ConflictStrategy.copy, []⟩

/-- First-cycle environment over the zero-ceiling settings. -/
def capEnv1 : Env := ⟨capSettings, noFaults, tHash, 100, none, true⟩

/-- Second-cycle environment, later clock. -/
def capEnv2 : Env := ⟨capSettings, noFaults, tHash, 200, none, true⟩

/-- World refuting idempotence: big.md is tracked by the ledger but
excluded from the scan by the size ceiling, and the remote copy moved
since the last sync (manifest digest hv1 against ledger digest hv0). -/
def capWorld : World :=
  ⟨[("big.md", ⟨5, "v2"⟩)],
   ⟨[("big.md", ⟨"v1", 50⟩)], some [("big.md", "hv1")], none, []⟩,
   some (Except.ok ⟨1, [("big.md", ⟨5, 40, "hv0", 40, 2⟩)], 40, "device-x"⟩)⟩

/-- Engine for the idempotence worlds. -/
def capEngine : EngineState := ⟨false, false, ⟨1, [], 0, "device-x"⟩⟩

/-- Simple one-file witness world for the amended idempotence theorem. -/
def simpleWorld : World := ⟨[("a.md", ⟨5, "A"⟩)], ⟨[], none, none, []⟩, none⟩

/-- Second-cycle environment over the default settings. -/
def tEnv2 : Env := ⟨tSettings, noFaults, tHash, 200, none, true⟩

/-- Environment with attachment sync disabled. -/
def noAttachEnv : Env := ⟨⟨"R", false, 1, ConflictStrategy.copy, []⟩, noFaults, tHash, 100, none, true⟩

/-- A mid-phase context for the upload-decision witness: n.md is
tracked with digest hOLD, locally rewritten, and the manifest records
the diverged remote digest hOLD2. -/
def conflictCtx : Ctx :=
  ⟨[("n.md", ⟨3, "NEW"⟩)],
   ⟨[("n.md", ⟨"OLD", 9⟩)], none, none, []⟩,
   ⟨1, [("n.md", ⟨2, 1, "hOLD", 1, 3⟩)], 0, "dev"⟩,
   [("n.md", "hOLD2")],
   emptyResult, [], 0⟩

/-- A mid-phase context for the delete-remote witness: gone.md is
tracked with digest hG, absent locally, and the manifest still records
hG. -/
def deleteCtx : Ctx :=
  ⟨[],
   ⟨[("gone.md", ⟨"G", 9⟩)], none, none, []⟩,
   ⟨1, [("gone.md", ⟨2, 1, "hG", 1, 1⟩)], 0, "dev"⟩,
   [("gone.md", "hG")],
   emptyResult, [], 0⟩

/-! ### Predicates for the idempotence analysis -/

/-- All keys of a map are normalizePath fixed points. -/
def NKkeys {α : Type} (m : List (String × α)) : Prop :=
  ∀ q ∈ JSync.keysA m, normalizePath q = q

/-- Structural well-formedness of a cycle context: unique, normalized
path keys in the vault, the remote file map and the ledger. -/
def GoodCtx (c : Ctx) : Prop :=
  JSync.WFA c.vault ∧ JSync.WFA c.remote.files ∧ JSync.WFA c.ledger.items ∧
  NKkeys c.vault ∧ NKkeys c.remote.files ∧ NKkeys c.ledger.items

/-- Fields of the context no reconciliation step ever touches. -/
def FrameEq (c c' : Ctx) : Prop :=
  c'.ledger.version = c.ledger.version ∧
  c'.ledger.deviceId = c.ledger.deviceId ∧
  c'.ledger.lastSyncTime = c.ledger.lastSyncTime ∧
  c'.remote.exclusiveLock = c.remote.exclusiveLock ∧
  c'.remote.manifestFile = c.remote.manifestFile ∧
  c'.remote.syncLocks = c.remote.syncLocks

/-- The four per-path observations are as at cycle start. -/
def Untouched (vault0 : List (String × VFile)) (files0 : List (String × RFile))
    (manifest0 : List (String × String)) (items0 : List (String × SyncItemState))
    (c : Ctx) (q : String) : Prop :=
  JSync.lookupA c.vault q = JSync.lookupA vault0 q ∧
  JSync.lookupA c.remote.files q = JSync.lookupA files0 q ∧
  manifestGet c.manifest q = manifestGet manifest0 q ∧
  JSync.lookupA c.ledger.items q = JSync.lookupA items0 q

/-- The path has just been brought into full agreement: the ledger entry
records the digest, mtime and size of the current local file, the hash
map records the same digest, and the remote object holds the same
content. -/
def FullySynced (env : Env) (c : Ctx) (q : String) : Prop :=
  ∃ f it, JSync.lookupA c.vault q = some f ∧
    JSync.lookupA c.ledger.items q = some it ∧
    it.contentHash = env.hash f.content ∧ it.localMtime = f.mtime ∧
    it.size = f.content.length ∧
    manifestGet c.manifest q = some it.contentHash ∧
    (∃ rf, JSync.lookupA c.remote.files q = some rf ∧ rf.content = f.content)

/-- Per-path state after the Upload phase. -/
def UpDone (env : Env) (L1 : List (String × LocalEntry))
    (vault0 : List (String × VFile)) (files0 : List (String × RFile))
    (manifest0 : List (String × String)) (items0 : List (String × SyncItemState))
    (c : Ctx) (q : String) : Prop :=
  (∃ e, JSync.lookupA L1 q = some e ∧
    ((∃ it, JSync.lookupA c.ledger.items q = some it ∧ e.hash = it.contentHash ∧
       ((it.localMtime = e.mtime ∧ it.size = e.size) ∨
         JSync.lookupA items0 q = some it) ∧
       JSync.lookupA c.vault q = JSync.lookupA vault0 q ∧
       JSync.lookupA c.remote.files q = JSync.lookupA files0 q ∧
       manifestGet c.manifest q = manifestGet manifest0 q) ∨
     FullySynced env c q)) ∨
  (JSync.lookupA L1 q = none ∧
    (Untouched vault0 files0 manifest0 items0 c q ∨
     (FullySynced env c q ∧ JSync.lookupA vault0 q = none)))

/-- Per-path state after the Delete-Remote phase. -/
def DRDone (env : Env) (L1 : List (String × LocalEntry))
    (vault0 : List (String × VFile)) (files0 : List (String × RFile))
    (manifest0 : List (String × String)) (items0 : List (String × SyncItemState))
    (c : Ctx) (q : String) : Prop :=
  (∃ e, JSync.lookupA L1 q = some e ∧
    ((∃ it, JSync.lookupA c.ledger.items q = some it ∧ e.hash = it.contentHash ∧
       ((it.localMtime = e.mtime ∧ it.size = e.size) ∨
         JSync.lookupA items0 q = some it) ∧
       JSync.lookupA c.vault q = JSync.lookupA vault0 q ∧
       JSync.lookupA c.remote.files q = JSync.lookupA files0 q ∧
       manifestGet c.manifest q = manifestGet manifest0 q) ∨
     FullySynced env c q)) ∨
  (JSync.lookupA L1 q = none ∧
    ((Untouched vault0 files0 manifest0 items0 c q ∧
      JSync.lookupA items0 q = none) ∨
     (JSync.lookupA c.ledger.items q = none ∧ manifestGet c.manifest q = none ∧
      JSync.lookupA c.remote.files q = none) ∨
     (Untouched vault0 files0 manifest0 items0 c q ∧
      (∃ it h, JSync.lookupA items0 q = some it ∧
        manifestGet manifest0 q = some h ∧ h ≠ it.contentHash))))

/-- The remote-digest agreement a tracked path must satisfy for the
Delta phase to leave it alone. -/
def ManifestAgreeAt (c : Ctx) (q : String) (it : SyncItemState) : Prop :=
  manifestGet c.manifest q = some it.contentHash ∨
  (manifestGet c.manifest q = none ∧
    ∀ rf, JSync.lookupA c.remote.files q = some rf →
      ¬(it.remoteMtime + 1000 < rf.lastModified))

/-- Per-path state after the first Delta loop. -/
def D1Done (env : Env) (L1 : List (String × LocalEntry))
    (vault0 : List (String × VFile)) (files0 : List (String × RFile))
    (manifest0 : List (String × String)) (items0 : List (String × SyncItemState))
    (rkeys : List String) (c : Ctx) (q : String) : Prop :=
  FullySynced env c q ∨
  (∃ e, JSync.lookupA L1 q = some e ∧
    (∃ it, JSync.lookupA c.ledger.items q = some it ∧ e.hash = it.contentHash ∧
      ((it.localMtime = e.mtime ∧ it.size = e.size) ∨
        JSync.lookupA items0 q = some it) ∧
      JSync.lookupA c.vault q = JSync.lookupA vault0 q ∧
      JSync.lookupA c.remote.files q = JSync.lookupA files0 q ∧
      (q ∈ rkeys → ManifestAgreeAt c q it))) ∨
  (JSync.lookupA L1 q = none ∧ JSync.lookupA c.ledger.items q = none ∧
    (JSync.lookupA c.remote.files q = none ∨ isInternalFile q = true ∨ q = "" ∨
      q ∉ rkeys)) ∨
  (JSync.lookupA L1 q = none ∧ q ∉ rkeys ∧
    Untouched vault0 files0 manifest0 items0 c q ∧
    (∃ it, JSync.lookupA items0 q = some it))

/-- Per-path state at the end of the cycle. -/
def CycleDone (env : Env) (L1 : List (String × LocalEntry))
    (vault0 : List (String × VFile)) (items0 : List (String × SyncItemState))
    (c : Ctx) (q : String) : Prop :=
  FullySynced env c q ∨
  (∃ e it, JSync.lookupA L1 q = some e ∧
    JSync.lookupA c.ledger.items q = some it ∧ e.hash = it.contentHash ∧
    ((it.localMtime = e.mtime ∧ it.size = e.size) ∨
      JSync.lookupA items0 q = some it) ∧
    JSync.lookupA c.vault q = JSync.lookupA vault0 q ∧
    (∃ rf, JSync.lookupA c.remote.files q = some rf) ∧
    ManifestAgreeAt c q it) ∨
  (JSync.lookupA c.ledger.items q = none ∧
    (JSync.lookupA c.remote.files q = none ∨ isInternalFile q = true ∨ q = ""))

/-- Per-path state after the second Delta loop, relative to the remote
file map the Delta phase listed. -/
def D2Done (env : Env) (L1 : List (String × LocalEntry))
    (vault0 : List (String × VFile)) (items0 : List (String × SyncItemState))
    (filesD : List (String × RFile))
    (rkeys : List String) (c : Ctx) (q : String) : Prop :=
  FullySynced env c q ∨
  (∃ e it, JSync.lookupA L1 q = some e ∧
    JSync.lookupA c.ledger.items q = some it ∧ e.hash = it.contentHash ∧
    ((it.localMtime = e.mtime ∧ it.size = e.size) ∨
      JSync.lookupA items0 q = some it) ∧
    JSync.lookupA c.vault q = JSync.lookupA vault0 q ∧
    (∃ rf, JSync.lookupA c.remote.files q = some rf) ∧
    ManifestAgreeAt c q it) ∨
  (JSync.lookupA c.ledger.items q = none ∧
    (JSync.lookupA c.remote.files q = none ∨ isInternalFile q = true ∨ q = "" ∨
     (q ∉ rkeys ∧ JSync.lookupA c.remote.files q = JSync.lookupA filesD q)))

/-- The reconciliation pipeline of one fault-free, uncancelled cycle,
from the loaded state to the context after the Delta step. -/
def cleanPipeline (env : Env) (st1 : SyncStateData)
    (vault0 : List (String × VFile)) (remote0 : Remote) : Ctx :=
  let acq := acquireSyncLock env st1.deviceId remote0
  let manifest0 := if env.faults.manifestGetFail then [] else acq.2.manifestFile.getD []
  let c5 : Ctx := ⟨vault0, acq.2, st1, manifest0, emptyResult, [], 3⟩
  let L := scanLocalFiles env st1 vault0
  let c6 := stepUpload env c5 L
  let c7 : Ctx := { c6 with checks := c6.checks + 1 }
  let c8 := stepRenameDetect env c7 L
  let c9 : Ctx := { c8 with checks := c8.checks + 1 }
  let c10 := stepDeleteRemote env c9 L
  let c11 : Ctx := { c10 with checks := c10.checks + 1 }
  let R := scanRemoteFiles c11.remote.files
  stepDelta env c11 L R

/-- The cycle prefix through the Upload step: the context whose result
carries the per-item errors accumulated by the upload phase when a
cancellation or a fatal exit strikes right after it (the checks counter
is 3: the connectivity, manifest and scan checkpoints have passed). -/
def uploadStage (env : Env) (st1 : SyncStateData)
    (vault0 : List (String × VFile)) (remote0 : Remote) : Ctx :=
  let acq := acquireSyncLock env st1.deviceId remote0
  let manifest0 := if env.faults.manifestGetFail then [] else acq.2.manifestFile.getD []
  let c5 : Ctx := ⟨vault0, acq.2, st1, manifest0, emptyResult, [], 3⟩
  stepUpload env c5 (scanLocalFiles env st1 vault0)

/-- The cycle prefix through the Delete-Remote step: the per-item
errors accumulated by the three reconciliation steps already run when
the delta checkpoint or the remote listing ends the cycle. -/
def deleteStage (env : Env) (st1 : SyncStateData)
    (vault0 : List (String × VFile)) (remote0 : Remote) : Ctx :=
  let c6 := uploadStage env st1 vault0 remote0
  let c7 : Ctx := { c6 with checks := c6.checks + 1 }
  let c8 := stepRenameDetect env c7 (scanLocalFiles env st1 vault0)
  let c9 : Ctx := { c8 with checks := c8.checks + 1 }
  stepDeleteRemote env c9 (scanLocalFiles env st1 vault0)

/-! ### Helper lemmas: association lists -/

theorem keysA_nil {α : Type} : keysA ([] : List (String × α)) = [] := rfl

theorem keysA_cons {α : Type} (k : String) (v : α) (m : List (String × α)) :
    keysA ((k, v) :: m) = k :: keysA m := rfl

theorem lookupA_aset_self {α : Type} (m : List (String × α)) (k : String) (v : α) :
    lookupA (asetA m k v) k = some v := by
  induction m with
  | nil => simp [asetA, lookupA]
  | cons kv rest ih =>
      obtain ⟨k', v'⟩ := kv
      by_cases h : k' = k
      · simp [asetA, h, lookupA]
      · simp [asetA, h, lookupA, ih]

theorem lookupA_aset_ne {α : Type} (m : List (String × α)) (k q : String) (v : α)
    (h : q ≠ k) : lookupA (asetA m k v) q = lookupA m q := by
  have hkq : ¬ (k = q) := fun hh => h hh.symm
  induction m with
  | nil => simp [asetA, lookupA, hkq]
  | cons kv rest ih =>
      obtain ⟨k', v'⟩ := kv
      by_cases hk : k' = k
      · subst hk
        simp [asetA, lookupA, hkq]
      · simp [asetA, hk, lookupA, ih]

theorem lookupA_aerase_self {α : Type} (m : List (String × α)) (k : String) :
    lookupA (aeraseA m k) k = none := by
  induction m with
  | nil => simp [aeraseA, lookupA]
  | cons kv rest ih =>
      obtain ⟨k', v'⟩ := kv
      by_cases h : k' = k
      · simpa [aeraseA, h, lookupA] using ih
      · simpa [aeraseA, h, lookupA] using ih

theorem lookupA_aerase_ne {α : Type} (m : List (String × α)) (k q : String)
    (h : q ≠ k) : lookupA (aeraseA m k) q = lookupA m q := by
  induction m with
  | nil => simp [aeraseA, lookupA]
  | cons kv rest ih =>
      obtain ⟨k', v'⟩ := kv
      by_cases hk : k' = k
      · subst hk
        have hkq : ¬ (k' = q) := fun hh => h hh.symm
        simpa [aeraseA, lookupA, hkq] using ih
      · by_cases hq : k' = q
        · subst hq
          simp [aeraseA, List.filter_cons, h, lookupA]
        · simpa [aeraseA, hk, lookupA, hq] using ih

theorem lookupA_eq_none_of_not_mem_keys {α : Type} (m : List (String × α)) (q : String)
    (h : q ∉ keysA m) : lookupA m q = none := by
  induction m with
  | nil => rfl
  | cons kv rest ih =>
      obtain ⟨k', v'⟩ := kv
      rw [keysA_cons, List.mem_cons] at h
      push_neg at h
      have hk : ¬ (k' = q) := fun hh => h.1 hh.symm
      rw [lookupA, if_neg hk]
      exact ih h.2

theorem mem_keys_of_lookupA_eq_some {α : Type} {m : List (String × α)} {q : String}
    {v : α} (h : lookupA m q = some v) : q ∈ keysA m := by
  induction m with
  | nil => simp [lookupA] at h
  | cons kv rest ih =>
      obtain ⟨k', v'⟩ := kv
      rw [keysA_cons, List.mem_cons]
      by_cases hk : k' = q
      · exact Or.inl hk.symm
      · rw [lookupA, if_neg hk] at h
        exact Or.inr (ih h)

theorem lookupA_isSome_of_mem_keys {α : Type} {m : List (String × α)} {q : String}
    (h : q ∈ keysA m) : ∃ v, lookupA m q = some v := by
  induction m with
  | nil => simp [keysA] at h
  | cons kv rest ih =>
      obtain ⟨k', v'⟩ := kv
      rw [keysA_cons, List.mem_cons] at h
      by_cases hk : k' = q
      · exact ⟨v', by rw [lookupA, if_pos hk]⟩
      · have : q ∈ keysA rest := by
          rcases h with h | h
          · exact absurd h.symm hk
          · exact h
        obtain ⟨v, hv⟩ := ih this
        exact ⟨v, by rw [lookupA, if_neg hk]; exact hv⟩

theorem keysA_aset {α : Type} (m : List (String × α)) (k : String) (v : α)
    (h : k ∈ keysA m) : keysA (asetA m k v) = keysA m := by
  induction m with
  | nil => simp [keysA] at h
  | cons kv rest ih =>
      obtain ⟨k', v'⟩ := kv
      by_cases hk : k' = k
      · rw [asetA, if_pos hk, keysA_cons, keysA_cons, hk]
      · rw [keysA_cons, List.mem_cons] at h
        have : k ∈ keysA rest := by
          rcases h with h | h
          · exact absurd h.symm hk
          · exact h
        rw [asetA, if_neg hk, keysA_cons, keysA_cons, ih this]

theorem keysA_aset_not_mem {α : Type} (m : List (String × α)) (k : String) (v : α)
    (h : k ∉ keysA m) : keysA (asetA m k v) = keysA m ++ [k] := by
  induction m with
  | nil => simp [asetA, keysA]
  | cons kv rest ih =>
      obtain ⟨k', v'⟩ := kv
      rw [keysA_cons, List.mem_cons] at h
      push_neg at h
      have hk : ¬ (k' = k) := fun hh => h.1 hh.symm
      rw [asetA, if_neg hk, keysA_cons, keysA_cons, ih h.2, List.cons_append]

theorem WFA_aset {α : Type} (m : List (String × α)) (k : String) (v : α)
    (h : WFA m) : WFA (asetA m k v) := by
  by_cases hm : k ∈ keysA m
  · unfold WFA
    rw [keysA_aset m k v hm]
    exact h
  · unfold WFA
    rw [keysA_aset_not_mem m k v hm]
    simpa [List.nodup_append] using ⟨h, hm⟩

theorem WFA_aerase {α : Type} (m : List (String × α)) (k : String)
    (h : WFA m) : WFA (aeraseA m k) := by
  unfold WFA keysA at h ⊢
  unfold aeraseA
  exact List.Nodup.sublist ((List.filter_sublist m).map Prod.fst) h

theorem asetA_not_mem_append {α : Type} (m : List (String × α)) (k : String) (v : α)
    (h : k ∉ keysA m) : asetA m k v = m ++ [(k, v)] := by
  induction m with
  | nil => simp [asetA]
  | cons kv rest ih =>
      obtain ⟨k', v'⟩ := kv
      rw [keysA_cons, List.mem_cons] at h
      push_neg at h
      have hk : ¬ (k' = k) := fun hh => h.1 hh.symm
      rw [asetA, if_neg hk, ih h.2, List.cons_append]

theorem keysA_aerase {α : Type} (m : List (String × α)) (k : String) :
    keysA (aeraseA m k) = (keysA m).filter (fun q => q ≠ k) := by
  induction m with
  | nil => rfl
  | cons kv rest ih =>
      obtain ⟨k', v'⟩ := kv
      by_cases h : k' = k
      · simpa [aeraseA, keysA, h, List.filter] using ih
      · simpa [aeraseA, keysA, h, List.filter] using ih

/-! ### Helper lemmas: path normalization -/

theorem slashify_eq_self {l : List Char} (h : '\\' ∉ l) : slashify l = l := by
  induction l with
  | nil => rfl
  | cons c rest ih =>
      rw [List.mem_cons] at h
      push_neg at h
      have hc : ¬ (c = '\\') := fun hh => h.1 hh.symm
      simp [slashify] at ih ⊢
      exact ⟨fun hh => absurd hh.symm h.1, ih h.2⟩

theorem collapseSlashes_eq_self {l : List Char} (h : NoDS l) : collapseSlashes l = l := by
  induction l with
  | nil => rfl
  | cons a rest ih =>
      cases rest with
      | nil => rfl
      | cons b rest' =>
          rw [NoDS, List.chain'_cons] at h
          rw [collapseSlashes, if_neg h.1, ih h.2]

theorem normalizePath_eq_self {s : String} (h : NormP s.data) : normalizePath s = s := by
  obtain ⟨h1, h2, h3⟩ := h
  rw [normalizePath, slashify_eq_self h1, collapseSlashes_eq_self h2,
    dropTrailingSlash, if_neg h3]

theorem not_bs_slashify (l : List Char) : '\\' ∉ slashify l := by
  intro hmem
  rw [slashify, List.mem_map] at hmem
  obtain ⟨c, _, hc⟩ := hmem
  by_cases h : c = '\\' <;> simp [h] at hc

theorem collapseSlashes_sublist (l : List Char) : (collapseSlashes l).Sublist l := by
  induction l with
  | nil => simp [collapseSlashes]
  | cons a rest ih =>
      cases rest with
      | nil => simp [collapseSlashes]
      | cons b rest' =>
          rw [collapseSlashes]
          by_cases h : a = '/' ∧ b = '/'
          · rw [if_pos h]
            exact ih.cons a
          · rw [if_neg h]
            exact ih.cons₂ a

theorem noDS_collapseSlashes (l : List Char) : NoDS (collapseSlashes l) := by
  induction l with
  | nil => simp [collapseSlashes, NoDS]
  | cons a rest ih =>
      cases rest with
      | nil => simp [collapseSlashes, NoDS]
      | cons b rest' =>
          rw [collapseSlashes]
          by_cases h : a = '/' ∧ b = '/'
          · rw [if_pos h]
            exact ih
          · rw [if_neg h]
            rw [NoDS] at ih ⊢
            rw [List.chain'_cons']
            refine ⟨?_, ih⟩
            intro y hy
            intro hcon
            apply h
            refine ⟨hcon.1, ?_⟩
            have hsub : (collapseSlashes (b :: rest')).Sublist (b :: rest') :=
              collapseSlashes_sublist _
            cases hcs : collapseSlashes (b :: rest') with
            | nil => rw [hcs] at hy; simp at hy
            | cons z zs =>
                rw [hcs] at hy
                simp at hy
                subst hy
                rw [hcs] at hsub
                have hz : z = b ∨ z ∈ rest' := by
                  have := hsub.subset (List.mem_cons_self z zs)
                  simpa using this
                -- z is the head of the collapse of b :: rest'; show z = b
                have hzb : z = b := by
                  cases rest' with
                  | nil =>
                      simp [collapseSlashes] at hcs
                      exact hcs.1.symm
                  | cons u us =>
                      rw [collapseSlashes] at hcs
                      by_cases hb : b = '/' ∧ u = '/'
                      · rw [if_pos hb] at hcs
                        -- b and u both slashes; y head is a slash anyway
                        -- fall back: the head of collapse of (u :: us) is u or deeper
                        -- use the slash property directly
                        have : z = '/' := hcon.2 ▸ rfl
                        rw [this]
                        exact hb.1.symm
                      · rw [if_neg hb] at hcs
                        exact (List.cons.injEq .. ▸ hcs).1.symm
                rw [← hzb]
                exact hcon.2

theorem last_dropLast_ne_slash :
    ∀ {l : List Char}, NoDS l → l.getLast? = some '/' →
      (l.dropLast).getLast? ≠ some '/'
  | [] => by intro _ h; simp at h
  | [a] => by intro _ _ hcon; simp at hcon
  | a :: b :: rest => by
      intro h hl hcon
      cases rest with
      | nil =>
          rw [List.getLast?_cons_cons] at hl
          simp at hl hcon
          rw [NoDS, List.chain'_cons] at h
          exact h.1 ⟨hcon, hl⟩
      | cons u us =>
          rw [NoDS, List.chain'_cons] at h
          rw [List.getLast?_cons_cons] at hl
          have hd : (a :: b :: u :: us).dropLast = a :: (b :: u :: us).dropLast := rfl
          rw [hd, List.dropLast_cons₂, List.getLast?_cons_cons] at hcon
          exact last_dropLast_ne_slash h.2 hl (by rw [List.dropLast_cons₂]; exact hcon)

theorem noDS_dropLast {l : List Char} (h : NoDS l) : NoDS l.dropLast := by
  rw [NoDS] at h ⊢
  exact List.Chain'.prefix h (List.dropLast_prefix l)

theorem not_mem_dropLast {c : Char} {l : List Char} (h : c ∉ l) : c ∉ l.dropLast :=
  fun hmem => h ((List.dropLast_sublist l).subset hmem)

theorem normP_normalizePath (s : String) : NormP (normalizePath s).data := by
  rw [normalizePath]
  have h1 : '\\' ∉ collapseSlashes (slashify s.data) :=
    fun hm => not_bs_slashify s.data ((collapseSlashes_sublist _).subset hm)
  have h2 : NoDS (collapseSlashes (slashify s.data)) := noDS_collapseSlashes _
  rw [dropTrailingSlash]
  by_cases hl : (collapseSlashes (slashify s.data)).getLast? = some '/'
  · rw [if_pos hl]
    exact ⟨not_mem_dropLast h1, noDS_dropLast h2, last_dropLast_ne_slash h2 hl⟩
  · rw [if_neg hl]
    exact ⟨h1, h2, hl⟩

theorem normalizePath_idem (s : String) :
    normalizePath (normalizePath s) = normalizePath s :=
  normalizePath_eq_self (normP_normalizePath s)

theorem normP_of_fixed {s : String} (h : normalizePath s = s) : NormP s.data := by
  have := normP_normalizePath s
  rw [h] at this
  exact this

/-! ### Claim C3 -/

/-- C3: the spec says a pure rename (ledger tracks old/x.md with digest
hD, vault holds only new/x.md with the same digest, remote holds
old/x.md) yields renames=1 with no extra upload.  The code instead
uploads new/x.md as a brand-new file in the Upload phase, which creates
its ledger entry before stepRenameDetect re-reads the items, so the
rename pass finds no untracked local file and never fires: the cycle
reports renames=0, uploaded=1, deletedRemote=1.  The final remote and
ledger state still matches the spec (old path gone, new path present
with digest hD). -/
theorem C3_pure_rename_reupload :
    ((sync tEnv tEngine renameWorld).2.2.renames = 0) ∧
    ((sync tEnv tEngine renameWorld).2.2.uploaded = 1) ∧
    ((sync tEnv tEngine renameWorld).2.2.deletedRemote = 1) ∧
    ((sync tEnv tEngine renameWorld).2.2.success = true) ∧
    ((sync tEnv tEngine renameWorld).2.2.errors = []) ∧
    (JSync.lookupA (sync tEnv tEngine renameWorld).2.1.remote.files "old/x.md" = none) ∧
    ((JSync.lookupA (sync tEnv tEngine renameWorld).2.1.remote.files "new/x.md").map
        RFile.content = some "D") ∧
    (getItem (sync tEnv tEngine renameWorld).1.stateData "old/x.md" = none) ∧
    ((getItem (sync tEnv tEngine renameWorld).1.stateData "new/x.md").map
        SyncItemState.contentHash = some "hD") := by
  decide

/-! ### Claim C6, counterexample and amended theorem -/

/-- C6 counterexample: a cycle cancelled at its first cancellation
check returns success=false with an empty error list, not exactly one
explanatory error — the catch block deliberately drops the Cancelled
message. -/
theorem C6_cancel_empty_errors :
    ((sync cancelEnv tEngine twoFileWorld).2.2.success = false) ∧
    ((sync cancelEnv tEngine twoFileWorld).2.2.errors = []) := by
  decide

/-! ### Claim C8, counterexample and amended theorem -/

/-- C8 counterexample: loading a persisted state whose version differs
from the current version discards the persisted device id: getDeviceId
afterwards reports the freshly generated constructor id, not the
persisted one. -/
theorem C8_version_mismatch_fresh_id :
    ((loadSyncState (mkSyncStateData "device-fresh")
        (some (Except.ok ⟨2, [], 5, "device-old"⟩))).deviceId = "device-fresh") ∧
    ("device-fresh" ≠ "device-old") := by
  decide

/-- C8 amended: when the persisted state parses and its version matches
the current version, load adopts it wholesale, so the device id equals
the persisted one; on a version mismatch the items and lastSyncTime are
reset while the in-memory state — including the freshly generated
device id — is kept, discarding the persisted id. -/
theorem C8_deviceId_persistence (cur d : SyncStateData) :
    (d.version = CURRENT_VERSION →
      loadSyncState cur (some (Except.ok d)) = d) ∧
    (d.version ≠ CURRENT_VERSION →
      loadSyncState cur (some (Except.ok d)) =
        { cur with items := [], lastSyncTime := 0 }) := by
  constructor <;> intro h <;> simp [loadSyncState, h]

/-- C8 amended, witness at concrete inputs. -/
theorem C8_deviceId_persistence_witness :
    (loadSyncState (mkSyncStateData "device-new")
        (some (Except.ok ⟨1, [], 7, "device-old"⟩)) =
      (⟨1, [], 7, "device-old"⟩ : SyncStateData)) ∧
    (loadSyncState (mkSyncStateData "device-new")
        (some (Except.ok ⟨2, [], 7, "device-old"⟩)) =
      { mkSyncStateData "device-new" with items := [], lastSyncTime := 0 }) :=
  ⟨(C8_deviceId_persistence (mkSyncStateData "device-new") ⟨1, [], 7, "device-old"⟩).1 rfl,
   (C8_deviceId_persistence (mkSyncStateData "device-new") ⟨2, [], 7, "device-old"⟩).2
     (by decide)⟩

/-! ### Claim C7 -/

theorem acquireWriteLock_fst (env : Env) (deviceId : String) (remote : Remote) :
    (acquireWriteLock env deviceId remote).1 = true := by
  unfold acquireWriteLock
  by_cases h1 : env.faults.lockMkdirFail <;> by_cases h2 : env.faults.lockPutFail <;>
    simp [h1, h2]

theorem acquireWriteLock_written (env : Env) (deviceId : String) (remote : Remote)
    (h1 : env.faults.lockMkdirFail = false) (h2 : env.faults.lockPutFail = false) :
    JSync.lookupA (acquireWriteLock env deviceId remote).2.syncLocks (lockFileName deviceId) =
      some ⟨deviceId, "obsidian", env.now, env.now, env.now + LOCK_TTL_MS⟩ := by
  unfold acquireWriteLock
  rw [if_neg (by simp [h1]), if_neg (by simp [h2])]
  exact JSync.lookupA_aset_self _ _ _

/-- C7: acquireSyncLock returns false exactly when the exclusive lock
file is readable, parses, and is unexpired; when it is absent or
expired (and readable where present) and the write path runs cleanly,
the coordinator writes this device non-exclusive lock file, named
deterministically from the device id, and returns true; and on an I/O
error reading the exclusive lock it fails open: true without touching
the store. -/
theorem C7_acquire_lock (env : Env) (deviceId : String) (remote : Remote) :
    ((acquireSyncLock env deviceId remote).1 = false ↔
      (env.faults.lockGetFail = false ∧
        ∃ lock, remote.exclusiveLock = some (Except.ok lock) ∧ env.now < lock.expiresAt)) ∧
    (env.faults.lockGetFail = false →
      env.faults.lockMkdirFail = false →
      env.faults.lockPutFail = false →
      (∀ u, remote.exclusiveLock ≠ some (Except.error u)) →
      (∀ lock, remote.exclusiveLock = some (Except.ok lock) → lock.expiresAt ≤ env.now) →
      (acquireSyncLock env deviceId remote).1 = true ∧
      JSync.lookupA (acquireSyncLock env deviceId remote).2.syncLocks (lockFileName deviceId) =
        some ⟨deviceId, "obsidian", env.now, env.now, env.now + LOCK_TTL_MS⟩) ∧
    (env.faults.lockGetFail = true →
      acquireSyncLock env deviceId remote = (true, remote)) := by
  refine ⟨⟨?_, ?_⟩, ?_, ?_⟩
  · intro hf
    by_cases hg : env.faults.lockGetFail
    · unfold acquireSyncLock at hf
      rw [if_pos hg] at hf
      simp at hf
    · refine ⟨by simpa using hg, ?_⟩
      unfold acquireSyncLock at hf
      rw [if_neg hg] at hf
      cases hx : remote.exclusiveLock with
      | none =>
          rw [hx] at hf
          dsimp only at hf
          rw [acquireWriteLock_fst] at hf
          simp at hf
      | some exc =>
          cases exc with
          | ok lock =>
              rw [hx] at hf
              dsimp only at hf
              by_cases he : env.now < lock.expiresAt
              · exact ⟨lock, rfl, he⟩
              · rw [if_neg he, acquireWriteLock_fst] at hf
                simp at hf
          | error u =>
              rw [hx] at hf
              dsimp only at hf
              simp at hf
  · rintro ⟨hg, lock, hx, he⟩
    unfold acquireSyncLock
    rw [if_neg (by simp [hg]), hx]
    dsimp only
    rw [if_pos he]
  · intro hg h1 h2 hnp hexp
    unfold acquireSyncLock
    rw [if_neg (by simp [hg])]
    cases hx : remote.exclusiveLock with
    | none =>
        dsimp only
        exact ⟨acquireWriteLock_fst env deviceId remote,
          acquireWriteLock_written env deviceId remote h1 h2⟩
    | some exc =>
        cases exc with
        | ok lock =>
            dsimp only
            rw [if_neg (not_lt.mpr (hexp lock hx))]
            exact ⟨acquireWriteLock_fst env deviceId remote,
              acquireWriteLock_written env deviceId remote h1 h2⟩
        | error u => exact absurd hx (hnp u)
  · intro hg
    unfold acquireSyncLock
    rw [if_pos hg]

/-- C7, witness: no exclusive lock present, fault free. -/
theorem C7_acquire_lock_witness :
    (acquireSyncLock tEnv "device-abc" ⟨[], none, none, []⟩).1 = true ∧
    JSync.lookupA (acquireSyncLock tEnv "device-abc" ⟨[], none, none, []⟩).2.syncLocks
      (lockFileName "device-abc") =
      some ⟨"device-abc", "obsidian", 100, 100, 100 + LOCK_TTL_MS⟩ :=
  (C7_acquire_lock tEnv "device-abc" ⟨[], none, none, []⟩).2.1 rfl rfl rfl
    (by intro u h; exact Option.noConfusion h)
    (by intro lock h; exact Option.noConfusion h)

/-! ### Claim C9 -/

/-- C9: however a started cycle exits — successful completion, any
fatal error, lock denial, or cancellation — the finally block stops the
lock-refresh timer and clears the busy flag before sync returns, so
isBusy reports false afterwards and no timer remains installed. -/
theorem C9_cleanup (env : Env) (e : EngineState) (w : World)
    (h : e.isSyncing = false) :
    isBusy (sync env e w).1 = false ∧ (sync env e w).1.lockRefreshTimer = false := by
  unfold sync isBusy
  rw [if_neg (by rw [h]; exact Bool.false_ne_true)]
  exact ⟨rfl, rfl⟩

/-- C9, witness at concrete inputs. -/
theorem C9_cleanup_witness :
    isBusy (sync tEnv tEngine twoFileWorld).1 = false ∧
    (sync tEnv tEngine twoFileWorld).1.lockRefreshTimer = false :=
  C9_cleanup tEnv tEngine twoFileWorld rfl

/-! ### Claim C10, counterexample and amended theorem -/

/-- C10 counterexample: the path md has no extension (no dot at all),
yet isBinaryFile classifies it as text, because the JS split/pop falls
back to the whole name, which is in the text-extension list; the claim
that every extensionless file is binary is therefore false. -/
theorem C10_no_extension_text :
    ('.' ∉ "md".data) ∧ isBinaryFile "md" = false := by
  decide

theorem splitOnChar_of_not_mem {sep : Char} {l : List Char} (h : sep ∉ l) :
    splitOnChar sep l = [l] := by
  induction l with
  | nil => rfl
  | cons c rest ih =>
      rw [List.mem_cons] at h
      push_neg at h
      have h1 : ¬ (c = sep) := fun hh => h.1 hh.symm
      rw [splitOnChar, ih h.2]
      dsimp only
      rw [if_neg h1]

theorem scanStep_binary_skip (env : Env) (ledger : SyncStateData)
    (acc : List (String × LocalEntry)) (path : String) (f : VFile)
    (h : env.settings.syncAttachments = false) (hbin : isBinaryFile path = true) :
    scanStep env ledger acc path f = acc := by
  unfold scanStep
  by_cases hex : isExcluded env.settings path
  · rw [if_pos hex]
  · rw [if_neg hex]
    by_cases hsz : env.settings.maxFileSizeMB * 1024 * 1024 < f.content.length
    · rw [if_pos hsz]
    · rw [if_neg hsz, if_pos (by simp [h, hbin])]

theorem scanLocalGo_filter_binary (env : Env) (ledger : SyncStateData)
    (h : env.settings.syncAttachments = false) :
    ∀ (vault : List (String × VFile)) (acc : List (String × LocalEntry)),
      scanLocalGo env ledger acc vault =
        scanLocalGo env ledger acc (vault.filter (fun kv => !isBinaryFile kv.1))
  | [], _ => rfl
  | (path, f) :: rest, acc => by
      by_cases hbin : isBinaryFile path
      · have hdrop : ((path, f) :: rest).filter (fun kv => !isBinaryFile kv.1) =
            rest.filter (fun kv => !isBinaryFile kv.1) := by
          simp [List.filter_cons, hbin]
        rw [hdrop, scanLocalGo, scanStep_binary_skip env ledger acc path f h hbin]
        exact scanLocalGo_filter_binary env ledger h rest acc
      · have hkeep : ((path, f) :: rest).filter (fun kv => !isBinaryFile kv.1) =
            (path, f) :: rest.filter (fun kv => !isBinaryFile kv.1) := by
          simp [List.filter_cons, hbin]
        rw [hkeep, scanLocalGo, scanLocalGo]
        exact scanLocalGo_filter_binary env ledger h rest _

/-- C10 amended: isBinaryFile tests the lower-cased final dot-separated
segment (the whole name when the path has no dot) against the
text-extension list, so an extensionless file is binary exactly when
its whole lower-cased name is not itself a listed extension; and with
attachment sync disabled the local scan behaves as if every
binary-classified file were absent from the vault, so such files are
never scanned or uploaded. -/
theorem C10_binary_classification :
    (∀ p : String, '.' ∉ p.data →
      (isBinaryFile p = false ↔
        textExtensions.contains ⟨p.data.map Char.toLower⟩ = true)) ∧
    (∀ (env : Env) (ledger : SyncStateData) (vault : List (String × VFile)),
      env.settings.syncAttachments = false →
      scanLocalFiles env ledger vault =
        scanLocalFiles env ledger (vault.filter (fun kv => !isBinaryFile kv.1))) := by
  constructor
  · intro p hp
    unfold isBinaryFile splitDot
    rw [splitOnChar_of_not_mem hp]
    simp
  · intro env ledger vault h
    unfold scanLocalFiles
    exact scanLocalGo_filter_binary env ledger h vault []

/-- C10 amended, witness at concrete inputs. -/
theorem C10_binary_classification_witness :
    (isBinaryFile "md" = false ↔
      textExtensions.contains ⟨"md".data.map Char.toLower⟩ = true) ∧
    scanLocalFiles noAttachEnv (mkSyncStateData "d") [("img.png", ⟨1, "P"⟩)] =
      scanLocalFiles noAttachEnv (mkSyncStateData "d")
        ([("img.png", ⟨1, "P"⟩)].filter (fun kv => !isBinaryFile kv.1)) :=
  ⟨C10_binary_classification.1 "md" (by decide),
   C10_binary_classification.2 noAttachEnv (mkSyncStateData "d") [("img.png", ⟨1, "P"⟩)] rfl⟩

/-! ### Claim C5, counterexample -/

/-- C5 counterexample: with a put failure on a.md and a healthy b.md,
the upload-phase error is caught at the item level and appended, the
phase continues and uploads b.md (completed work retained), but the
returned result still has success=true — nothing ever flips the flag on
per-item errors, contradicting the claimed success=false. -/
theorem C5_item_error_success_true :
    ((sync putAEnv tEngine twoFileWorld).2.2.errors =
      ["Upload error a.md: put failed"]) ∧
    ((sync putAEnv tEngine twoFileWorld).2.2.success = true) ∧
    ((sync putAEnv tEngine twoFileWorld).2.2.uploaded = 1) ∧
    ((JSync.lookupA (sync putAEnv tEngine twoFileWorld).2.1.remote.files "b.md").map
        RFile.content = some "B") := by
  decide

/-! ### Claim C2, counterexample -/

/-- C2 counterexample: big.md is tracked by the ledger but excluded
from the local scan by the size ceiling; the remote copy moved since
the ledger digest, so the first cycle downloads it and finishes fully
successfully (success=true, no errors); with no intervening local or
remote change, the second cycle then remote-deletes big.md
(deletedRemote=1), because the ledger path missing from the scan now
looks like a local deletion whose manifest digest matches the ledger —
the second cycle is not a no-op. -/
theorem C2_second_cycle_not_noop :
    ((sync capEnv1 capEngine capWorld).2.2.success = true) ∧
    ((sync capEnv1 capEngine capWorld).2.2.errors = []) ∧
    ((sync capEnv2 (sync capEnv1 capEngine capWorld).1
        (sync capEnv1 capEngine capWorld).2.1).2.2.deletedRemote = 1) := by
  decide

/-! ### Helper lemmas for the phase-level claims -/

theorem checkCancel_none {env : Env} (h : env.cancelAt = none) (c : Ctx) :
    checkCancel env c = (false, { c with checks := c.checks + 1 }) := by
  unfold checkCancel
  rw [h]

theorem checkCancel_some {env : Env} {k : Nat} (h : env.cancelAt = some k) (c : Ctx) :
    checkCancel env c = (decide (k ≤ c.checks), { c with checks := c.checks + 1 }) := by
  unfold checkCancel
  rw [h]

theorem stepUploadGo_append (env : Env) (snap : List (String × SyncItemState))
    (h : env.cancelAt = none) :
    ∀ (xs ys : List (String × LocalEntry)) (c : Ctx),
      stepUploadGo env snap c (xs ++ ys) =
        stepUploadGo env snap (stepUploadGo env snap c xs) ys
  | [], ys, c => rfl
  | (q, e) :: xs, ys, c => by
      rw [List.cons_append, stepUploadGo, stepUploadGo, checkCancel_none h]
      exact stepUploadGo_append env snap h xs ys _

theorem deleteRemoteGo_append (env : Env) (lk : List String)
    (h : env.cancelAt = none) :
    ∀ (xs ys : List (String × SyncItemState)) (c : Ctx),
      deleteRemoteGo env lk c (xs ++ ys) =
        deleteRemoteGo env lk (deleteRemoteGo env lk c xs) ys
  | [], ys, c => rfl
  | (q, e) :: xs, ys, c => by
      rw [List.cons_append, deleteRemoteGo, deleteRemoteGo, checkCancel_none h]
      exact deleteRemoteGo_append env lk h xs ys _

theorem doUpload_ok (env : Env) (c : Ctx) (p : String) (f : VFile)
    (hv : JSync.lookupA c.vault p = some f)
    (f1 : env.faults.readLocalFail p = false)
    (f2 : env.faults.putFail p = false) :
    doUpload env c p =
      ({ c with
          remote := { c.remote with
            files := JSync.asetA c.remote.files p ⟨f.content, env.now⟩ }
          manifest := JSync.asetA c.manifest p (env.hash f.content)
          ledger := (setItem c.ledger p
            ⟨f.mtime, env.now, env.hash f.content, env.now, f.content.length⟩)
          trace := SyncAction.upload p :: c.trace }, none) := by
  unfold doUpload
  rw [hv]
  dsimp only
  rw [if_neg (by simp [f1]), if_neg (by simp [f2])]

theorem doDownload_ok (env : Env) (c : Ctx) (p : String) (rf : RFile)
    (hr : JSync.lookupA c.remote.files p = some rf)
    (f3 : env.faults.getFail p = false)
    (hw : (match JSync.lookupA c.vault p with
           | some _ => env.faults.modifyLocalFail p
           | none => env.faults.createLocalFail p) = false) :
    doDownload env c p =
      ({ c with
          vault := JSync.asetA c.vault p ⟨env.now, rf.content⟩
          manifest := JSync.asetA c.manifest p (env.hash rf.content)
          ledger := (setItem c.ledger p
            ⟨env.now, env.now, env.hash rf.content, env.now, rf.content.length⟩)
          trace := SyncAction.download p :: c.trace }, none) := by
  unfold doDownload
  rw [if_neg (by simp [f3]), hr]
  dsimp only
  rw [if_neg (by simp [hw])]

theorem handleConflict_ok (env : Env) (c : Ctx) (p : String) (f : VFile) (rf : RFile)
    (hv : JSync.lookupA c.vault p = some f)
    (hr : JSync.lookupA c.remote.files p = some rf)
    (hcp : JSync.lookupA c.vault (generateConflictName p env.now) = none)
    (f1 : env.faults.readLocalFail p = false)
    (f2 : env.faults.putFail p = false)
    (f3 : env.faults.getFail p = false)
    (f4 : env.faults.modifyLocalFail p = false)
    (f5 : env.faults.createLocalFail (generateConflictName p env.now) = false)
    (f6 : env.faults.putFail (generateConflictName p env.now) = false) :
    (handleConflict env c p).2 = none ∧
    (handleConflict env c p).1.result = c.result ∧
    SyncAction.conflict p ∈ (handleConflict env c p).1.trace := by
  have hne : p ≠ generateConflictName p env.now := by
    intro hh
    rw [← hh] at hcp
    rw [hcp] at hv
    exact Option.noConfusion hv
  unfold handleConflict
  cases hst : env.settings.conflictStrategy with
  | localWins =>
      dsimp only
      rw [doUpload_ok env { c with trace := SyncAction.conflict p :: c.trace } p f hv f1 f2]
      exact ⟨rfl, rfl, by simp⟩
  | remoteWins =>
      dsimp only
      rw [doDownload_ok env { c with trace := SyncAction.conflict p :: c.trace } p rf hr f3
        (by dsimp only; rw [hv]; simp [f4])]
      exact ⟨rfl, rfl, by simp⟩
  | copy =>
      dsimp only
      rw [hv]
      dsimp only
      rw [if_neg (by simp [f1]), if_neg (by rw [hcp]; simp), if_neg (by simp [f5]),
        if_neg (by simp [f6])]
      have hr2 : JSync.lookupA
          (JSync.asetA c.remote.files (generateConflictName p env.now)
            ⟨f.content, env.now⟩) p = some rf := by
        rw [JSync.lookupA_aset_ne _ _ _ _ hne]
        exact hr
      have hv2 : JSync.lookupA
          (JSync.asetA c.vault (generateConflictName p env.now)
            ⟨env.now, f.content⟩) p = some f := by
        rw [JSync.lookupA_aset_ne _ _ _ _ hne]
        exact hv
      rw [doDownload_ok env _ p rf hr2 f3 (by dsimp only; rw [hv2]; simp [f4])]
      exact ⟨rfl, rfl, by simp⟩

/-! ### Claim C1 -/

/-- C1: in the Upload phase, take any position of the local snapshot
holding a path with a ledger entry whose digest moved (lf.hash differs
from the recorded contentHash), in an uncancelled run whose relevant
I/O is healthy.  The phase processes the prefix, checks cancellation,
runs the item, and continues with the suffix; at the item itself, when
the remote hash manifest records a digest d differing from the ledger
digest the conflict resolver runs (a conflict action is traced) and the
conflicts counter is incremented, and when d equals the ledger digest
the file is uploaded (the remote object now carries the local content)
and the uploads counter is incremented. -/
theorem C1_upload_decision (env : Env) (c0 : Ctx)
    (pre post : List (String × LocalEntry)) (p : String) (lf : LocalEntry)
    (it : SyncItemState) (d : String) (f : VFile) (rf : RFile)
    (hcan : env.cancelAt = none)
    (hsnap : JSync.lookupA c0.ledger.items p = some it)
    (hch : lf.hash ≠ it.contentHash)
    (hman : manifestGet (stepUploadGo env c0.ledger.items c0 pre).manifest p = some d)
    (hv : JSync.lookupA (stepUploadGo env c0.ledger.items c0 pre).vault p = some f)
    (hr : JSync.lookupA (stepUploadGo env c0.ledger.items c0 pre).remote.files p = some rf)
    (hcp : JSync.lookupA (stepUploadGo env c0.ledger.items c0 pre).vault
      (generateConflictName p env.now) = none)
    (f1 : env.faults.readLocalFail p = false)
    (f2 : env.faults.putFail p = false)
    (f3 : env.faults.getFail p = false)
    (f4 : env.faults.modifyLocalFail p = false)
    (f5 : env.faults.createLocalFail (generateConflictName p env.now) = false)
    (f6 : env.faults.putFail (generateConflictName p env.now) = false) :
    (stepUpload env c0 (pre ++ (p, lf) :: post) =
      stepUploadGo env c0.ledger.items
        (uploadItem env c0.ledger.items
          { stepUploadGo env c0.ledger.items c0 pre with
            checks := (stepUploadGo env c0.ledger.items c0 pre).checks + 1 } p lf) post) ∧
    (d ≠ it.contentHash →
      (uploadItem env c0.ledger.items
        { stepUploadGo env c0.ledger.items c0 pre with
          checks := (stepUploadGo env c0.ledger.items c0 pre).checks + 1 } p lf).result.conflicts =
        (stepUploadGo env c0.ledger.items c0 pre).result.conflicts + 1 ∧
      SyncAction.conflict p ∈
        (uploadItem env c0.ledger.items
          { stepUploadGo env c0.ledger.items c0 pre with
            checks := (stepUploadGo env c0.ledger.items c0 pre).checks + 1 } p lf).trace) ∧
    (d = it.contentHash →
      (uploadItem env c0.ledger.items
        { stepUploadGo env c0.ledger.items c0 pre with
          checks := (stepUploadGo env c0.ledger.items c0 pre).checks + 1 } p lf).result.uploaded =
        (stepUploadGo env c0.ledger.items c0 pre).result.uploaded + 1 ∧
      JSync.lookupA
        (uploadItem env c0.ledger.items
          { stepUploadGo env c0.ledger.items c0 pre with
            checks := (stepUploadGo env c0.ledger.items c0 pre).checks + 1 } p lf).remote.files p =
        some ⟨f.content, env.now⟩ ∧
      SyncAction.upload p ∈
        (uploadItem env c0.ledger.items
          { stepUploadGo env c0.ledger.items c0 pre with
            checks := (stepUploadGo env c0.ledger.items c0 pre).checks + 1 } p lf).trace) := by
  set cpre := stepUploadGo env c0.ledger.items c0 pre with hcpre
  set cmid : Ctx := { cpre with checks := cpre.checks + 1 } with hcmid
  refine ⟨?_, ?_, ?_⟩
  · rw [stepUpload, stepUploadGo_append env c0.ledger.items hcan pre ((p, lf) :: post) c0,
      stepUploadGo, checkCancel_none hcan]
    dsimp only
    rw [if_neg (by simp : ¬ (false = true))]
  · intro hd
    have hucm : uploadItem env c0.ledger.items cmid p lf =
        match handleConflict env cmid p with
        | (c', none) =>
            { c' with result := { c'.result with conflicts := c'.result.conflicts + 1 } }
        | (c', some m) => pushErr c' ("Upload error " ++ p ++ ": " ++ m) := by
      unfold uploadItem
      rw [hsnap]
      dsimp only
      rw [if_neg hch]
      have : manifestGet cmid.manifest p = some d := hman
      rw [this]
      dsimp only
      rw [if_pos (by simp [hd])]
    obtain ⟨ho, hres, htr⟩ := handleConflict_ok env cmid p f rf hv hr hcp f1 f2 f3 f4 f5 f6
    rw [hucm]
    cases hhc : handleConflict env cmid p with
    | mk c' err =>
        rw [hhc] at ho hres htr
        dsimp only at ho
        subst ho
        dsimp only
        exact ⟨by rw [hres], htr⟩
  · intro hd
    have hucm : uploadItem env c0.ledger.items cmid p lf =
        match doUpload env cmid p with
        | (c', none) =>
            { c' with result := { c'.result with uploaded := c'.result.uploaded + 1 } }
        | (c', some m) => pushErr c' ("Upload error " ++ p ++ ": " ++ m) := by
      unfold uploadItem
      rw [hsnap]
      dsimp only
      rw [if_neg hch]
      have : manifestGet cmid.manifest p = some d := hman
      rw [this]
      dsimp only
      rw [if_neg (by simp [hd])]
    rw [hucm, doUpload_ok env cmid p f hv f1 f2]
    refine ⟨rfl, ?_, by simp⟩
    exact JSync.lookupA_aset_self _ _ _

/-- C1, witness: the conflict branch at a concrete context (manifest
digest hOLD2 against ledger digest hOLD). -/
theorem C1_upload_decision_witness :
    (uploadItem tEnv conflictCtx.ledger.items
      { stepUploadGo tEnv conflictCtx.ledger.items conflictCtx [] with
        checks := (stepUploadGo tEnv conflictCtx.ledger.items conflictCtx []).checks + 1 }
      "n.md" ⟨3, 3, "hNEW"⟩).result.conflicts =
      (stepUploadGo tEnv conflictCtx.ledger.items conflictCtx []).result.conflicts + 1 ∧
    SyncAction.conflict "n.md" ∈
      (uploadItem tEnv conflictCtx.ledger.items
        { stepUploadGo tEnv conflictCtx.ledger.items conflictCtx [] with
          checks := (stepUploadGo tEnv conflictCtx.ledger.items conflictCtx []).checks + 1 }
        "n.md" ⟨3, 3, "hNEW"⟩).trace :=
  (C1_upload_decision tEnv conflictCtx [] [] "n.md" ⟨3, 3, "hNEW"⟩ ⟨2, 1, "hOLD", 1, 3⟩
    "hOLD2" ⟨3, "NEW"⟩ ⟨"OLD", 9⟩ rfl rfl (by decide) rfl rfl rfl (by decide)
    rfl rfl rfl rfl rfl rfl).2.1 (by decide)

/-! ### Claim C4 -/

/-- C4: in the Delete-Remote phase, take any position of the ledger
copy holding a path absent from the local snapshot, in an uncancelled
run with a healthy remote delete, a normalized path and a recorded
manifest digest d.  The phase processes the prefix, checks
cancellation, runs the item, and continues with the suffix; at the item
itself, exactly when d equals the ledger digest the remote object is
deleted, the ledger entry and the manifest entry are removed and
deletedRemote is incremented; when d differs, the item changes nothing:
no remote deletion happens and the ledger entry is retained. -/
theorem C4_delete_remote_decision (env : Env) (c0 : Ctx)
    (L : List (String × LocalEntry))
    (pre post : List (String × SyncItemState)) (p : String) (it : SyncItemState)
    (d : String)
    (hcan : env.cancelAt = none)
    (heq : c0.ledger.items = pre ++ (p, it) :: post)
    (hnl : (JSync.keysA L).contains p = false)
    (hman : manifestGet (deleteRemoteGo env (JSync.keysA L) c0 pre).manifest p = some d)
    (hnorm : normalizePath p = p)
    (hfd : env.faults.deleteFail p = false) :
    (stepDeleteRemote env c0 L =
      deleteRemoteGo env (JSync.keysA L)
        (deleteRemoteItem env (JSync.keysA L)
          { deleteRemoteGo env (JSync.keysA L) c0 pre with
            checks := (deleteRemoteGo env (JSync.keysA L) c0 pre).checks + 1 } p it) post) ∧
    (d = it.contentHash →
      (deleteRemoteItem env (JSync.keysA L)
        { deleteRemoteGo env (JSync.keysA L) c0 pre with
          checks := (deleteRemoteGo env (JSync.keysA L) c0 pre).checks + 1 } p it).result.deletedRemote =
        (deleteRemoteGo env (JSync.keysA L) c0 pre).result.deletedRemote + 1 ∧
      JSync.lookupA
        (deleteRemoteItem env (JSync.keysA L)
          { deleteRemoteGo env (JSync.keysA L) c0 pre with
            checks := (deleteRemoteGo env (JSync.keysA L) c0 pre).checks + 1 } p it).remote.files p =
        none ∧
      JSync.lookupA
        (deleteRemoteItem env (JSync.keysA L)
          { deleteRemoteGo env (JSync.keysA L) c0 pre with
            checks := (deleteRemoteGo env (JSync.keysA L) c0 pre).checks + 1 } p it).ledger.items p =
        none ∧
      manifestGet
        (deleteRemoteItem env (JSync.keysA L)
          { deleteRemoteGo env (JSync.keysA L) c0 pre with
            checks := (deleteRemoteGo env (JSync.keysA L) c0 pre).checks + 1 } p it).manifest p =
        none) ∧
    (d ≠ it.contentHash →
      deleteRemoteItem env (JSync.keysA L)
        { deleteRemoteGo env (JSync.keysA L) c0 pre with
          checks := (deleteRemoteGo env (JSync.keysA L) c0 pre).checks + 1 } p it =
        { deleteRemoteGo env (JSync.keysA L) c0 pre with
          checks := (deleteRemoteGo env (JSync.keysA L) c0 pre).checks + 1 }) := by
  set cpre := deleteRemoteGo env (JSync.keysA L) c0 pre with hcpre
  set cmid : Ctx := { cpre with checks := cpre.checks + 1 } with hcmid
  have hmanm : manifestGet cmid.manifest p = some d := hman
  refine ⟨?_, ?_, ?_⟩
  · rw [stepDeleteRemote, heq,
      deleteRemoteGo_append env (JSync.keysA L) hcan pre ((p, it) :: post) c0,
      deleteRemoteGo, checkCancel_none hcan]
    dsimp only
    rw [if_neg (by simp : ¬ (false = true))]
  · intro hd
    unfold deleteRemoteItem
    rw [if_neg (by rw [hnl]; exact Bool.false_ne_true), hmanm]
    dsimp only
    rw [if_neg (by simp [hd]), if_neg (by simp [hfd])]
    refine ⟨rfl, JSync.lookupA_aerase_self _ _, ?_, ?_⟩
    · show JSync.lookupA (JSync.aeraseA cmid.ledger.items (normalizePath p)) p = none
      rw [hnorm]
      exact JSync.lookupA_aerase_self _ _
    · show manifestGet (JSync.aeraseA cmid.manifest p) p = none
      unfold manifestGet
      rw [JSync.lookupA_aerase_self]
  · intro hd
    unfold deleteRemoteItem
    rw [if_neg (by rw [hnl]; exact Bool.false_ne_true), hmanm]
    dsimp only
    rw [if_pos (by simp [hd])]

/-- C4, witness: the deletion branch at a concrete context (manifest
digest equal to the ledger digest hG). -/
theorem C4_delete_remote_decision_witness :
    (deleteRemoteItem tEnv (JSync.keysA ([] : List (String × LocalEntry)))
      { deleteRemoteGo tEnv (JSync.keysA ([] : List (String × LocalEntry))) deleteCtx [] with
        checks := (deleteRemoteGo tEnv (JSync.keysA ([] : List (String × LocalEntry)))
          deleteCtx []).checks + 1 } "gone.md" ⟨2, 1, "hG", 1, 1⟩).result.deletedRemote =
      (deleteRemoteGo tEnv (JSync.keysA ([] : List (String × LocalEntry)))
        deleteCtx []).result.deletedRemote + 1 ∧
    JSync.lookupA
      (deleteRemoteItem tEnv (JSync.keysA ([] : List (String × LocalEntry)))
        { deleteRemoteGo tEnv (JSync.keysA ([] : List (String × LocalEntry))) deleteCtx [] with
          checks := (deleteRemoteGo tEnv (JSync.keysA ([] : List (String × LocalEntry)))
            deleteCtx []).checks + 1 } "gone.md" ⟨2, 1, "hG", 1, 1⟩).remote.files "gone.md" =
      none := by
  have h := (C4_delete_remote_decision tEnv deleteCtx [] [] [] "gone.md"
    ⟨2, 1, "hG", 1, 1⟩ "hG" rfl rfl rfl rfl (by decide) rfl).2.1 rfl
  exact ⟨h.1, h.2.1⟩

/-! ### Result-field preservation lemmas -/

theorem doUpload_result (env : Env) (c : Ctx) (p : String) :
    (doUpload env c p).1.result = c.result := by
  unfold doUpload
  cases JSync.lookupA c.vault p with
  | none => rfl
  | some f =>
      dsimp only
      by_cases h1 : env.faults.readLocalFail p <;> by_cases h2 : env.faults.putFail p <;>
        simp [h1, h2]

theorem doDownload_result (env : Env) (c : Ctx) (p : String) :
    (doDownload env c p).1.result = c.result := by
  unfold doDownload
  by_cases h3 : env.faults.getFail p
  · simp [h3]
  · rw [if_neg (by simp [h3])]
    cases JSync.lookupA c.remote.files p with
    | none => rfl
    | some rf =>
        dsimp only
        by_cases hw : (match JSync.lookupA c.vault p with
          | some _ => env.faults.modifyLocalFail p
          | none => env.faults.createLocalFail p) = true
        · rw [if_pos hw]
        · rw [if_neg hw]

theorem handleConflict_result (env : Env) (c : Ctx) (p : String) :
    (handleConflict env c p).1.result = c.result := by
  unfold handleConflict
  cases env.settings.conflictStrategy with
  | localWins =>
      dsimp only
      rw [doUpload_result]
  | remoteWins =>
      dsimp only
      rw [doDownload_result]
  | copy =>
      dsimp only
      cases JSync.lookupA c.vault p with
      | none =>
          dsimp only
          rw [doDownload_result]
      | some f =>
          dsimp only
          by_cases h1 : env.faults.readLocalFail p
          · rw [if_pos (by simp [h1])]
          · rw [if_neg (by simp [h1])]
            by_cases h2 : (JSync.lookupA c.vault (generateConflictName p env.now)).isSome
            · rw [if_pos h2]
            · rw [if_neg h2]
              by_cases h3 : env.faults.createLocalFail (generateConflictName p env.now)
              · rw [if_pos (by simp [h3])]
              · rw [if_neg (by simp [h3])]
                by_cases h4 : env.faults.putFail (generateConflictName p env.now)
                · rw [if_pos (by simp [h4])]
                · rw [if_neg (by simp [h4])]
                  rw [doDownload_result]

theorem pushErr_mono (c : Ctx) (m : String) :
    (pushErr c m).result.success = c.result.success ∧
    (pushErr c m).result.errors = c.result.errors ++ [m] := ⟨rfl, rfl⟩

theorem uploadItem_mono (env : Env) (snap : List (String × SyncItemState))
    (c : Ctx) (p : String) (lf : LocalEntry) :
    (uploadItem env snap c p lf).result.success = c.result.success ∧
    ∃ δ, (uploadItem env snap c p lf).result.errors = c.result.errors ++ δ := by
  unfold uploadItem
  cases hs : JSync.lookupA snap p with
  | none =>
      dsimp only
      cases hm : manifestGet c.manifest p with
      | some rh =>
          dsimp only
          by_cases he : rh = lf.hash
          · rw [if_pos he]
            exact ⟨rfl, [], by simp⟩
          · rw [if_neg he]
            have hres := handleConflict_result env c p
            cases hhc : handleConflict env c p with
            | mk c' e =>
                rw [hhc] at hres
                dsimp only at hres
                cases e with
                | none =>
                    dsimp only
                    rw [hres]
                    exact ⟨rfl, [], by simp⟩
                | some m =>
                    dsimp only
                    rw [(pushErr_mono c' _).2, hres]
                    exact ⟨(pushErr_mono c' _).1.trans (by rw [hres]), [_], rfl⟩
      | none =>
          dsimp only
          have hres := doUpload_result env c p
          cases hdu : doUpload env c p with
          | mk c' e =>
              rw [hdu] at hres
              dsimp only at hres
              cases e with
              | none =>
                  dsimp only
                  rw [hres]
                  exact ⟨rfl, [], by simp⟩
              | some m =>
                  dsimp only
                  rw [(pushErr_mono c' _).2, hres]
                  exact ⟨(pushErr_mono c' _).1.trans (by rw [hres]), [_], rfl⟩
  | some it =>
      dsimp only
      by_cases he : lf.hash = it.contentHash
      · rw [if_pos he]
        exact ⟨rfl, [], by simp⟩
      · rw [if_neg he]
        cases hm : manifestGet c.manifest p with
        | some rh =>
            dsimp only
            by_cases hrc : (rh != it.contentHash) = true
            · rw [if_pos hrc]
              have hres := handleConflict_result env c p
              cases hhc : handleConflict env c p with
              | mk c' e =>
                  rw [hhc] at hres
                  dsimp only at hres
                  cases e with
                  | none =>
                      dsimp only
                      rw [hres]
                      exact ⟨rfl, [], by simp⟩
                  | some m =>
                      dsimp only
                      rw [(pushErr_mono c' _).2, hres]
                      exact ⟨(pushErr_mono c' _).1.trans (by rw [hres]), [_], rfl⟩
            · rw [if_neg hrc]
              have hres := doUpload_result env c p
              cases hdu : doUpload env c p with
              | mk c' e =>
                  rw [hdu] at hres
                  dsimp only at hres
                  cases e with
                  | none =>
                      dsimp only
                      rw [hres]
                      exact ⟨rfl, [], by simp⟩
                  | some m =>
                      dsimp only
                      rw [(pushErr_mono c' _).2, hres]
                      exact ⟨(pushErr_mono c' _).1.trans (by rw [hres]), [_], rfl⟩
        | none =>
            dsimp only
            rw [if_neg (by simp : ¬ (false = true))]
            have hres := doUpload_result env c p
            cases hdu : doUpload env c p with
            | mk c' e =>
                rw [hdu] at hres
                dsimp only at hres
                cases e with
                | none =>
                    dsimp only
                    rw [hres]
                    exact ⟨rfl, [], by simp⟩
                | some m =>
                    dsimp only
                    rw [(pushErr_mono c' _).2, hres]
                    exact ⟨(pushErr_mono c' _).1.trans (by rw [hres]), [_], rfl⟩

theorem checkCancel_result (env : Env) (c : Ctx) :
    (checkCancel env c).2.result = c.result := rfl

theorem stepUploadGo_mono (env : Env) (snap : List (String × SyncItemState)) :
    ∀ (l : List (String × LocalEntry)) (c : Ctx),
      (stepUploadGo env snap c l).result.success = c.result.success ∧
      ∃ δ, (stepUploadGo env snap c l).result.errors = c.result.errors ++ δ
  | [], c => ⟨rfl, [], (List.append_nil _).symm⟩
  | (p, lf) :: rest, c => by
      rw [stepUploadGo]
      cases hcc : checkCancel env c with
      | mk stop c1 =>
          have hc1 : c1.result = c.result := by
            have := checkCancel_result env c
            rw [hcc] at this
            exact this
          dsimp only
          by_cases hstop : stop = true
          · rw [if_pos hstop, hc1]
            exact ⟨rfl, [], by simp⟩
          · rw [if_neg hstop]
            obtain ⟨hs1, δ1, he1⟩ := uploadItem_mono env snap c1 p lf
            obtain ⟨hs2, δ2, he2⟩ := stepUploadGo_mono env snap rest (uploadItem env snap c1 p lf)
            refine ⟨by rw [hs2, hs1, hc1], δ1 ++ δ2, ?_⟩
            rw [he2, he1, hc1, List.append_assoc]

theorem renameGo_result (env : Env) :
    ∀ (l : List (String × LocalEntry)) (c : Ctx) (h2d : List (String × String)),
      (renameGo env c h2d l).result.success = c.result.success ∧
      (renameGo env c h2d l).result.errors = c.result.errors
  | [], c, h2d => ⟨rfl, rfl⟩
  | (newPath, newLocal) :: rest, c, h2d => by
      have hrec : ∀ (c' : Ctx) (h2d' : List (String × String)),
          (renameGo env c' h2d' rest).result.success = c'.result.success ∧
          (renameGo env c' h2d' rest).result.errors = c'.result.errors :=
        fun c' h2d' => renameGo_result env rest c' h2d'
      rw [renameGo]
      cases hcc : checkCancel env c with
      | mk stop c1 =>
          have hc1 : c1.result = c.result := by
            have := checkCancel_result env c
            rw [hcc] at this
            exact this
          dsimp only
          by_cases hstop : stop = true
          · rw [if_pos hstop, hc1]
            exact ⟨rfl, rfl⟩
          · rw [if_neg hstop]
            cases pathGet h2d newLocal.hash with
            | none =>
                exact ⟨((hrec _ _).1).trans (by rw [hc1]),
                  ((hrec _ _).2).trans (by rw [hc1])⟩
            | some oldPath =>
                dsimp only
                cases JSync.lookupA c1.vault newPath with
                | none =>
                    exact ⟨((hrec _ _).1).trans (by rw [hc1]),
                      ((hrec _ _).2).trans (by rw [hc1])⟩
                | some f =>
                    dsimp only
                    by_cases h1 : env.faults.readLocalFail newPath
                    · rw [if_pos (by simp [h1])]
                      exact ⟨((hrec _ _).1).trans (by rw [hc1]),
                        ((hrec _ _).2).trans (by rw [hc1])⟩
                    · rw [if_neg (by simp [h1])]
                      by_cases h2 : env.faults.putFail newPath
                      · rw [if_pos (by simp [h2])]
                        exact ⟨((hrec _ _).1).trans (by rw [hc1]),
                          ((hrec _ _).2).trans (by rw [hc1])⟩
                      · rw [if_neg (by simp [h2])]
                        by_cases h3 : env.faults.deleteFail oldPath
                        · rw [if_pos (by simp [h3])]
                          exact ⟨((hrec _ _).1).trans (by rw [hc1]),
                            ((hrec _ _).2).trans (by rw [hc1])⟩
                        · rw [if_neg (by simp [h3])]
                          exact ⟨((hrec _ _).1).trans (by rw [hc1]),
                            ((hrec _ _).2).trans (by rw [hc1])⟩

theorem stepRenameDetect_result (env : Env) (c : Ctx)
    (l : List (String × LocalEntry)) :
    (stepRenameDetect env c l).result.success = c.result.success ∧
    (stepRenameDetect env c l).result.errors = c.result.errors := by
  unfold stepRenameDetect
  dsimp only
  split
  · exact ⟨rfl, rfl⟩
  · split
    · exact ⟨rfl, rfl⟩
    · exact renameGo_result env _ c _

theorem deleteRemoteItem_mono (env : Env) (lk : List String) (c : Ctx)
    (p : String) (it : SyncItemState) :
    (deleteRemoteItem env lk c p it).result.success = c.result.success ∧
    ∃ δ, (deleteRemoteItem env lk c p it).result.errors = c.result.errors ++ δ := by
  unfold deleteRemoteItem
  by_cases h1 : lk.contains p
  · rw [if_pos h1]
    exact ⟨rfl, [], by simp⟩
  · rw [if_neg h1]
    cases manifestGet c.manifest p with
    | some h =>
        dsimp only
        by_cases hrc : (h != it.contentHash) = true
        · rw [if_pos hrc]
          exact ⟨rfl, [], by simp⟩
        · rw [if_neg hrc]
          by_cases hfd : env.faults.deleteFail p
          · rw [if_pos (by simp [hfd])]
            exact ⟨rfl, [_], rfl⟩
          · rw [if_neg (by simp [hfd])]
            exact ⟨rfl, [], by simp⟩
    | none =>
        dsimp only
        rw [if_neg (by simp : ¬ (false = true))]
        by_cases hfd : env.faults.deleteFail p
        · rw [if_pos (by simp [hfd])]
          exact ⟨rfl, [_], rfl⟩
        · rw [if_neg (by simp [hfd])]
          exact ⟨rfl, [], by simp⟩

theorem deleteRemoteGo_mono (env : Env) (lk : List String) :
    ∀ (l : List (String × SyncItemState)) (c : Ctx),
      (deleteRemoteGo env lk c l).result.success = c.result.success ∧
      ∃ δ, (deleteRemoteGo env lk c l).result.errors = c.result.errors ++ δ
  | [], c => ⟨rfl, [], (List.append_nil _).symm⟩
  | (p, it) :: rest, c => by
      rw [deleteRemoteGo]
      cases hcc : checkCancel env c with
      | mk stop c1 =>
          have hc1 : c1.result = c.result := by
            have := checkCancel_result env c
            rw [hcc] at this
            exact this
          dsimp only
          by_cases hstop : stop = true
          · rw [if_pos hstop, hc1]
            exact ⟨rfl, [], by simp⟩
          · rw [if_neg hstop]
            obtain ⟨hs1, δ1, he1⟩ := deleteRemoteItem_mono env lk c1 p it
            obtain ⟨hs2, δ2, he2⟩ := deleteRemoteGo_mono env lk rest (deleteRemoteItem env lk c1 p it)
            refine ⟨by rw [hs2, hs1, hc1], δ1 ++ δ2, ?_⟩
            rw [he2, he1, hc1, List.append_assoc]

theorem deltaItem1_mono (env : Env) (snap : List (String × SyncItemState))
    (L : List (String × LocalEntry)) (c : Ctx) (p : String) (rf : RFile) :
    (deltaItem1 env snap L c p rf).result.success = c.result.success ∧
    ∃ δ, (deltaItem1 env snap L c p rf).result.errors = c.result.errors ++ δ := by
  unfold deltaItem1
  have hdd := doDownload_result env c p
  cases hdc : doDownload env c p with
  | mk c' e =>
      rw [hdc] at hdd
      dsimp only at hdd
      have hok : ∀ gg : Ctx, gg = (match (c', e) with
          | (c', none) =>
              { c' with result := { c'.result with downloaded := c'.result.downloaded + 1 } }
          | (c', some m) => pushErr c' ("Download error " ++ p ++ ": " ++ m)) →
          gg.result.success = c.result.success ∧
          ∃ δ, gg.result.errors = c.result.errors ++ δ := by
        intro gg hgg
        cases e with
        | none =>
            rw [hgg]
            dsimp only
            rw [hdd]
            exact ⟨rfl, [], by simp⟩
        | some m =>
            rw [hgg]
            dsimp only
            rw [(pushErr_mono c' _).2, hdd]
            exact ⟨(pushErr_mono c' _).1.trans (by rw [hdd]), [_], rfl⟩
      cases JSync.lookupA L p with
      | none =>
          cases JSync.lookupA snap p with
          | none =>
              dsimp only
              exact hok _ rfl
          | some it =>
              dsimp only
              by_cases hrc : (match manifestGet c.manifest p with
                | some h => h != it.contentHash
                | none => decide (it.remoteMtime + 1000 < rf.lastModified)) = true
              · rw [if_pos hrc]
                exact hok _ rfl
              · rw [if_neg hrc]
                exact ⟨rfl, [], by simp⟩
      | some lf =>
          cases JSync.lookupA snap p with
          | some it =>
              dsimp only
              by_cases hrc : ((match manifestGet c.manifest p with
                | some h => h != it.contentHash
                | none => decide (it.remoteMtime + 1000 < rf.lastModified)) &&
                !(lf.hash != it.contentHash)) = true
              · rw [if_pos hrc]
                exact hok _ rfl
              · rw [if_neg hrc]
                exact ⟨rfl, [], by simp⟩
          | none =>
              dsimp only
              exact ⟨rfl, [], by simp⟩

theorem deltaItem2_mono (env : Env) (L : List (String × LocalEntry))
    (rk : List String) (c : Ctx) (p : String) (it : SyncItemState) :
    (deltaItem2 env L rk c p it).result.success = c.result.success ∧
    ∃ δ, (deltaItem2 env L rk c p it).result.errors = c.result.errors ++ δ := by
  unfold deltaItem2
  by_cases h1 : rk.contains p
  · rw [if_pos h1]
    exact ⟨rfl, [], by simp⟩
  · rw [if_neg h1]
    cases JSync.lookupA L p with
    | none =>
        dsimp only
        exact ⟨rfl, [], by simp⟩
    | some lf =>
        dsimp only
        by_cases hlc : (lf.hash != it.contentHash) = true
        · rw [if_pos hlc]
          have hdu := doUpload_result env c p
          cases hdc : doUpload env c p with
          | mk c' e =>
              rw [hdc] at hdu
              dsimp only at hdu
              cases e with
              | none =>
                  dsimp only
                  rw [hdu]
                  exact ⟨rfl, [], by simp⟩
              | some m =>
                  dsimp only
                  rw [(pushErr_mono c' _).2, hdu]
                  exact ⟨(pushErr_mono c' _).1.trans (by rw [hdu]), [_], rfl⟩
        · rw [if_neg hlc]
          cases JSync.lookupA c.vault p with
          | some g =>
              dsimp only
              by_cases hdf : env.faults.deleteLocalFail p
              · rw [if_pos (by simp [hdf])]
                exact ⟨rfl, [_], rfl⟩
              · rw [if_neg (by simp [hdf])]
                exact ⟨rfl, [], by simp⟩
          | none =>
              dsimp only
              exact ⟨rfl, [], by simp⟩

theorem deltaGo1_mono (env : Env) (snap : List (String × SyncItemState))
    (L : List (String × LocalEntry)) :
    ∀ (l : List (String × RFile)) (c : Ctx),
      (deltaGo1 env snap L c l).result.success = c.result.success ∧
      ∃ δ, (deltaGo1 env snap L c l).result.errors = c.result.errors ++ δ
  | [], c => ⟨rfl, [], (List.append_nil _).symm⟩
  | (p, rf) :: rest, c => by
      rw [deltaGo1]
      cases hcc : checkCancel env c with
      | mk stop c1 =>
          have hc1 : c1.result = c.result := by
            have := checkCancel_result env c
            rw [hcc] at this
            exact this
          dsimp only
          by_cases hstop : stop = true
          · rw [if_pos hstop, hc1]
            exact ⟨rfl, [], by simp⟩
          · rw [if_neg hstop]
            obtain ⟨hs1, δ1, he1⟩ := deltaItem1_mono env snap L c1 p rf
            obtain ⟨hs2, δ2, he2⟩ := deltaGo1_mono env snap L rest (deltaItem1 env snap L c1 p rf)
            refine ⟨by rw [hs2, hs1, hc1], δ1 ++ δ2, ?_⟩
            rw [he2, he1, hc1, List.append_assoc]

theorem deltaGo2_mono (env : Env) (L : List (String × LocalEntry)) (rk : List String) :
    ∀ (l : List (String × SyncItemState)) (c : Ctx),
      (deltaGo2 env L rk c l).result.success = c.result.success ∧
      ∃ δ, (deltaGo2 env L rk c l).result.errors = c.result.errors ++ δ
  | [], c => ⟨rfl, [], (List.append_nil _).symm⟩
  | (p, it) :: rest, c => by
      rw [deltaGo2]
      cases hcc : checkCancel env c with
      | mk stop c1 =>
          have hc1 : c1.result = c.result := by
            have := checkCancel_result env c
            rw [hcc] at this
            exact this
          dsimp only
          by_cases hstop : stop = true
          · rw [if_pos hstop, hc1]
            exact ⟨rfl, [], by simp⟩
          · rw [if_neg hstop]
            obtain ⟨hs1, δ1, he1⟩ := deltaItem2_mono env L rk c1 p it
            obtain ⟨hs2, δ2, he2⟩ := deltaGo2_mono env L rk rest (deltaItem2 env L rk c1 p it)
            refine ⟨by rw [hs2, hs1, hc1], δ1 ++ δ2, ?_⟩
            rw [he2, he1, hc1, List.append_assoc]

theorem stepDelta_mono (env : Env) (c : Ctx) (L : List (String × LocalEntry))
    (R : List (String × RFile)) :
    (stepDelta env c L R).result.success = c.result.success ∧
    ∃ δ, (stepDelta env c L R).result.errors = c.result.errors ++ δ := by
  unfold stepDelta
  obtain ⟨hs1, δ1, he1⟩ := deltaGo1_mono env c.ledger.items L R c
  obtain ⟨hs2, δ2, he2⟩ := deltaGo2_mono env L (JSync.keysA R) c.ledger.items
    (deltaGo1 env c.ledger.items L c R)
  refine ⟨by rw [hs2, hs1], δ1 ++ δ2, ?_⟩
  rw [he2, he1, List.append_assoc]

theorem stepUpload_mono (env : Env) (c : Ctx) (L : List (String × LocalEntry)) :
    (stepUpload env c L).result.success = c.result.success ∧
    ∃ δ, (stepUpload env c L).result.errors = c.result.errors ++ δ := by
  unfold stepUpload
  exact stepUploadGo_mono env c.ledger.items L c

theorem stepDeleteRemote_mono (env : Env) (c : Ctx) (L : List (String × LocalEntry)) :
    (stepDeleteRemote env c L).result.success = c.result.success ∧
    ∃ δ, (stepDeleteRemote env c L).result.errors = c.result.errors ++ δ := by
  unfold stepDeleteRemote
  exact deleteRemoteGo_mono env (JSync.keysA L) c.ledger.items c

theorem syncCore_success (env : Env) (e : EngineState) (w : World)
    (hc : env.connected = true)
    (hm : env.faults.mkdirFail = false) (hr : env.faults.reloadFail = false)
    (hcan : env.cancelAt = none) (hl : env.faults.listFail = false)
    (hacq : (acquireSyncLock env (loadSyncState e.stateData w.persistedLedger).deviceId
      w.remote).1 = true) :
    (syncCore env e w).result.success = true := by
  unfold syncCore
  rw [if_neg (by simp [hc])]
  dsimp only
  rw [if_neg (by simp [hm]), if_neg (by simp [hr]), checkCancel_none hcan]
  dsimp only
  rw [if_neg (by simp : ¬ (false = true)), if_neg (by simp [hacq]), checkCancel_none hcan]
  dsimp only
  rw [if_neg (by simp : ¬ (false = true)), checkCancel_none hcan]
  dsimp only
  rw [if_neg (by simp : ¬ (false = true)), checkCancel_none hcan]
  dsimp only
  rw [if_neg (by simp : ¬ (false = true)), checkCancel_none hcan]
  dsimp only
  rw [if_neg (by simp : ¬ (false = true)), checkCancel_none hcan]
  dsimp only
  rw [if_neg (by simp : ¬ (false = true)), if_neg (by simp [hl])]
  dsimp only
  rw [(stepDelta_mono _ _ _ _).1]
  dsimp only
  rw [(stepDeleteRemote_mono _ _ _).1]
  dsimp only
  rw [(stepRenameDetect_result _ _ _).1]
  dsimp only
  rw [(stepUpload_mono _ _ _).1]
  rfl

/-- C6 amended: a started cycle either completes with success=true, or
ends fatally with success=false and a precisely characterized error
list: the connectivity, mkdir, reload and exclusive-lock-denial fatal
reasons surface exactly one explanatory error on an empty list; a
remote listing failure surfaces exactly one explanatory error beyond
the per-item errors the three completed reconciliation steps
accumulated; user-requested cancellation, whichever checkpoint it
strikes at, surfaces none — the error list is exactly what the phases
had accumulated so far (empty before the Upload step, the Upload-stage
list at the rename and delete checkpoints, the Delete-stage list at
the delta checkpoint), the catch block deliberately dropping the
Cancelled message. -/
theorem C6_fatal_result (env : Env) (e : EngineState) (w : World)
    (hb : e.isSyncing = false) :
    (sync env e w).2.2.success = true ∨
    ((sync env e w).2.2.success = false ∧
      ((env.connected = false ∧
         (sync env e w).2.2.errors = ["Not connected to MEGA. Authenticate first."]) ∨
       (env.faults.mkdirFail = true ∧ (sync env e w).2.2.errors = ["mkdir failed"]) ∨
       (env.faults.reloadFail = true ∧ (sync env e w).2.2.errors = ["reload failed"]) ∨
       ((acquireSyncLock env (loadSyncState e.stateData w.persistedLedger).deviceId
           w.remote).1 = false ∧
         (sync env e w).2.2.errors =
           ["Sync target is locked by another device performing an upgrade. Try again later."]) ∨
       (env.faults.listFail = true ∧
         (sync env e w).2.2.errors =
           (deleteStage env (loadSyncState e.stateData w.persistedLedger)
             w.vault w.remote).result.errors ++ ["list failed"]) ∨
       ((∃ k, env.cancelAt = some k) ∧
         ((sync env e w).2.2.errors = [] ∨
          (sync env e w).2.2.errors =
            (uploadStage env (loadSyncState e.stateData w.persistedLedger)
              w.vault w.remote).result.errors ∨
          (sync env e w).2.2.errors =
            (deleteStage env (loadSyncState e.stateData w.persistedLedger)
              w.vault w.remote).result.errors)))) := by
  have hsync : sync env e w = finishCycle env (syncCore env e w) := by
    rw [sync, if_neg (show ¬(e.isSyncing = true) by rw [hb]; simp)]
  have hs : (sync env e w).2.2.success = (syncCore env e w).result.success := by
    rw [hsync]
    rfl
  have he2 : (sync env e w).2.2.errors = (syncCore env e w).result.errors := by
    rw [hsync]
    rfl
  rw [hs, he2]
  obtain ⟨res, hres⟩ : ∃ r, (syncCore env e w).result = r := ⟨_, rfl⟩
  rw [hres]
  rw [syncCore.eq_def] at hres
  set ST := loadSyncState e.stateData w.persistedLedger with hSTdef
  by_cases hcn : env.connected = true
  · rw [if_neg (show ¬((!env.connected) = true) by rw [hcn]; simp)] at hres
    dsimp only at hres
    by_cases hmk : env.faults.mkdirFail = true
    · rw [if_pos hmk] at hres
      dsimp only at hres
      rw [← hres]
      exact Or.inr ⟨rfl, Or.inr (Or.inl ⟨hmk, rfl⟩)⟩
    · rw [if_neg hmk] at hres
      by_cases hrl : env.faults.reloadFail = true
      · rw [if_pos hrl] at hres
        dsimp only at hres
        rw [← hres]
        exact Or.inr ⟨rfl, Or.inr (Or.inr (Or.inl ⟨hrl, rfl⟩))⟩
      · rw [if_neg hrl] at hres
        cases hca : env.cancelAt with
        | none =>
            rw [checkCancel_none hca] at hres
            dsimp only at hres
            rw [if_neg (show ¬(false = true) by simp)] at hres
            by_cases hacqT : (acquireSyncLock env ST.deviceId w.remote).1 = true
            · rw [if_neg (show ¬((!(acquireSyncLock env ST.deviceId w.remote).1) = true) by
                rw [hacqT]; simp)] at hres
              rw [checkCancel_none hca] at hres
              dsimp only at hres
              rw [if_neg (show ¬(false = true) by simp)] at hres
              rw [checkCancel_none hca] at hres
              dsimp only at hres
              rw [if_neg (show ¬(false = true) by simp)] at hres
              rw [checkCancel_none hca] at hres
              dsimp only at hres
              rw [if_neg (show ¬(false = true) by simp)] at hres
              rw [checkCancel_none hca] at hres
              dsimp only at hres
              rw [if_neg (show ¬(false = true) by simp)] at hres
              rw [checkCancel_none hca] at hres
              dsimp only at hres
              rw [if_neg (show ¬(false = true) by simp)] at hres
              by_cases hlf : env.faults.listFail = true
              · rw [if_pos hlf] at hres
                dsimp only at hres
                rw [← hres]
                exact Or.inr ⟨rfl,
                  Or.inr (Or.inr (Or.inr (Or.inr (Or.inl ⟨hlf, rfl⟩))))⟩
              · rw [if_neg hlf] at hres
                dsimp only at hres
                rw [← hres]
                left
                rw [(stepDelta_mono _ _ _ _).1]
                dsimp only
                rw [(stepDeleteRemote_mono _ _ _).1]
                dsimp only
                rw [(stepRenameDetect_result _ _ _).1]
                dsimp only
                rw [(stepUpload_mono _ _ _).1]
                rfl
            · have hacqF : (acquireSyncLock env ST.deviceId w.remote).1 = false := by
                cases hv : (acquireSyncLock env ST.deviceId w.remote).1
                · rfl
                · exact absurd hv hacqT
              rw [if_pos (show (!(acquireSyncLock env ST.deviceId w.remote).1) = true by
                rw [hacqF]; rfl)] at hres
              dsimp only at hres
              rw [← hres]
              exact Or.inr ⟨rfl, Or.inr (Or.inr (Or.inr (Or.inl ⟨hacqF, rfl⟩)))⟩
        | some k =>
            rw [checkCancel_some hca] at hres
            dsimp only at hres
            by_cases hk0 : k ≤ 0
            · rw [if_pos (show decide (k ≤ 0) = true from decide_eq_true hk0)] at hres
              dsimp only at hres
              rw [← hres]
              exact Or.inr ⟨rfl, Or.inr (Or.inr (Or.inr (Or.inr (Or.inr
                ⟨⟨k, rfl⟩, Or.inl rfl⟩))))⟩
            · rw [if_neg (show ¬(decide (k ≤ 0) = true) by simp [hk0])] at hres
              by_cases hacqT : (acquireSyncLock env ST.deviceId w.remote).1 = true
              · rw [if_neg (show ¬((!(acquireSyncLock env ST.deviceId
                    w.remote).1) = true) by rw [hacqT]; simp)] at hres
                rw [checkCancel_some hca] at hres
                dsimp only at hres
                by_cases hk1 : k ≤ 0 + 1
                · rw [if_pos (show decide (k ≤ 0 + 1) = true from
                    decide_eq_true hk1)] at hres
                  dsimp only at hres
                  rw [← hres]
                  exact Or.inr ⟨rfl, Or.inr (Or.inr (Or.inr (Or.inr (Or.inr
                    ⟨⟨k, rfl⟩, Or.inl rfl⟩))))⟩
                · rw [if_neg (show ¬(decide (k ≤ 0 + 1) = true) by simp [hk1])] at hres
                  rw [checkCancel_some hca] at hres
                  dsimp only at hres
                  by_cases hk2 : k ≤ 0 + 1 + 1
                  · rw [if_pos (show decide (k ≤ 0 + 1 + 1) = true from
                      decide_eq_true hk2)] at hres
                    dsimp only at hres
                    rw [← hres]
                    exact Or.inr ⟨rfl, Or.inr (Or.inr (Or.inr (Or.inr (Or.inr
                      ⟨⟨k, rfl⟩, Or.inl rfl⟩))))⟩
                  · rw [if_neg (show ¬(decide (k ≤ 0 + 1 + 1) = true) by
                      simp [hk2])] at hres
                    have hu : stepUpload env
                        ⟨w.vault, (acquireSyncLock env ST.deviceId w.remote).2, ST,
                         (if env.faults.manifestGetFail = true then []
                          else (acquireSyncLock env
                            ST.deviceId w.remote).2.manifestFile.getD []),
                         emptyResult, [], 0 + 1 + 1 + 1⟩
                        (scanLocalFiles env ST w.vault) =
                        uploadStage env ST w.vault w.remote := rfl
                    rw [hu] at hres
                    rw [checkCancel_some hca] at hres
                    dsimp only at hres
                    by_cases hk3 : k ≤ (uploadStage env ST w.vault w.remote).checks
                    · rw [if_pos (show decide
                          (k ≤ (uploadStage env ST w.vault w.remote).checks) = true from
                        decide_eq_true hk3)] at hres
                      dsimp only at hres
                      rw [← hres]
                      exact Or.inr ⟨rfl, Or.inr (Or.inr (Or.inr (Or.inr (Or.inr
                        ⟨⟨k, rfl⟩, Or.inr (Or.inl rfl)⟩))))⟩
                    · rw [if_neg (show ¬(decide
                          (k ≤ (uploadStage env ST w.vault w.remote).checks) = true) by
                        simp [hk3])] at hres
                      rw [checkCancel_some hca] at hres
                      dsimp only at hres
                      by_cases hk4 : k ≤ (stepRenameDetect env
                          { uploadStage env ST w.vault w.remote with
                            checks := (uploadStage env ST w.vault w.remote).checks + 1 }
                          (scanLocalFiles env ST w.vault)).checks
                      · rw [if_pos (show decide (k ≤ (stepRenameDetect env
                            { uploadStage env ST w.vault w.remote with
                              checks := (uploadStage env ST w.vault w.remote).checks + 1 }
                            (scanLocalFiles env ST w.vault)).checks) = true from
                          decide_eq_true hk4)] at hres
                        dsimp only at hres
                        rw [← hres]
                        refine Or.inr ⟨rfl, Or.inr (Or.inr (Or.inr (Or.inr (Or.inr
                          ⟨⟨k, rfl⟩, Or.inr (Or.inl ?_)⟩))))⟩
                        show (stepRenameDetect env _ _).result.errors = _
                        rw [(stepRenameDetect_result _ _ _).2]
                      · rw [if_neg (show ¬(decide (k ≤ (stepRenameDetect env
                            { uploadStage env ST w.vault w.remote with
                              checks := (uploadStage env ST w.vault w.remote).checks + 1 }
                            (scanLocalFiles env ST w.vault)).checks) = true) by
                          simp [hk4])] at hres
                        have hd : stepDeleteRemote env
                            { stepRenameDetect env
                                { uploadStage env ST w.vault w.remote with
                                  checks :=
                                    (uploadStage env ST w.vault w.remote).checks + 1 }
                                (scanLocalFiles env ST w.vault) with
                              checks := (stepRenameDetect env
                                { uploadStage env ST w.vault w.remote with
                                  checks :=
                                    (uploadStage env ST w.vault w.remote).checks + 1 }
                                (scanLocalFiles env ST w.vault)).checks + 1 }
                            (scanLocalFiles env ST w.vault) =
                            deleteStage env ST w.vault w.remote := rfl
                        rw [hd] at hres
                        rw [checkCancel_some hca] at hres
                        dsimp only at hres
                        by_cases hk5 : k ≤ (deleteStage env ST w.vault w.remote).checks
                        · rw [if_pos (show decide
                              (k ≤ (deleteStage env ST w.vault w.remote).checks) =
                                true from decide_eq_true hk5)] at hres
                          dsimp only at hres
                          rw [← hres]
                          exact Or.inr ⟨rfl, Or.inr (Or.inr (Or.inr (Or.inr (Or.inr
                            ⟨⟨k, rfl⟩, Or.inr (Or.inr rfl)⟩))))⟩
                        · rw [if_neg (show ¬(decide
                              (k ≤ (deleteStage env ST w.vault w.remote).checks) =
                                true) by simp [hk5])] at hres
                          by_cases hlf : env.faults.listFail = true
                          · rw [if_pos hlf] at hres
                            dsimp only at hres
                            rw [← hres]
                            exact Or.inr ⟨rfl, Or.inr (Or.inr (Or.inr (Or.inr
                              (Or.inl ⟨hlf, rfl⟩))))⟩
                          · rw [if_neg hlf] at hres
                            dsimp only at hres
                            rw [← hres]
                            left
                            rw [(stepDelta_mono _ _ _ _).1]
                            dsimp only
                            rw [deleteStage.eq_def]
                            dsimp only
                            rw [(stepDeleteRemote_mono _ _ _).1]
                            dsimp only
                            rw [(stepRenameDetect_result _ _ _).1]
                            dsimp only
                            rw [uploadStage.eq_def]
                            dsimp only
                            rw [(stepUpload_mono _ _ _).1]
                            rfl
              · have hacqF : (acquireSyncLock env ST.deviceId w.remote).1 = false := by
                  cases hv : (acquireSyncLock env ST.deviceId w.remote).1
                  · rfl
                  · exact absurd hv hacqT
                rw [if_pos (show (!(acquireSyncLock env ST.deviceId
                    w.remote).1) = true by rw [hacqF]; rfl)] at hres
                dsimp only at hres
                rw [← hres]
                exact Or.inr ⟨rfl, Or.inr (Or.inr (Or.inr (Or.inl ⟨hacqF, rfl⟩)))⟩
  · have hcf : env.connected = false := by
      cases hcv : env.connected
      · rfl
      · exact absurd hcv hcn
    rw [if_pos (show (!env.connected) = true by rw [hcf]; rfl)] at hres
    dsimp only at hres
    rw [← hres]
    exact Or.inr ⟨rfl, Or.inl ⟨hcf, rfl⟩⟩

/-- C6 amended, witness at concrete inputs: the cycle cancelled at its
first checkpoint lands in the cancellation family with success=false
and nothing in the error list. -/
theorem C6_fatal_result_witness :
    (sync cancelEnv tEngine twoFileWorld).2.2.success = true ∨
    ((sync cancelEnv tEngine twoFileWorld).2.2.success = false ∧
      ((cancelEnv.connected = false ∧
         (sync cancelEnv tEngine twoFileWorld).2.2.errors =
           ["Not connected to MEGA. Authenticate first."]) ∨
       (cancelEnv.faults.mkdirFail = true ∧
         (sync cancelEnv tEngine twoFileWorld).2.2.errors = ["mkdir failed"]) ∨
       (cancelEnv.faults.reloadFail = true ∧
         (sync cancelEnv tEngine twoFileWorld).2.2.errors = ["reload failed"]) ∨
       ((acquireSyncLock cancelEnv
           (loadSyncState tEngine.stateData twoFileWorld.persistedLedger).deviceId
           twoFileWorld.remote).1 = false ∧
         (sync cancelEnv tEngine twoFileWorld).2.2.errors =
           ["Sync target is locked by another device performing an upgrade. Try again later."]) ∨
       (cancelEnv.faults.listFail = true ∧
         (sync cancelEnv tEngine twoFileWorld).2.2.errors =
           (deleteStage cancelEnv
             (loadSyncState tEngine.stateData twoFileWorld.persistedLedger)
             twoFileWorld.vault twoFileWorld.remote).result.errors ++ ["list failed"]) ∨
       ((∃ k, cancelEnv.cancelAt = some k) ∧
         ((sync cancelEnv tEngine twoFileWorld).2.2.errors = [] ∨
          (sync cancelEnv tEngine twoFileWorld).2.2.errors =
            (uploadStage cancelEnv
              (loadSyncState tEngine.stateData twoFileWorld.persistedLedger)
              twoFileWorld.vault twoFileWorld.remote).result.errors ∨
          (sync cancelEnv tEngine twoFileWorld).2.2.errors =
            (deleteStage cancelEnv
              (loadSyncState tEngine.stateData twoFileWorld.persistedLedger)
              twoFileWorld.vault twoFileWorld.remote).result.errors)))) :=
  C6_fatal_result cancelEnv tEngine twoFileWorld rfl

/-! ### Claim C5, amended theorem -/

/-- C5 amended: a per-item failure in the Upload, Delete-Remote or
Delta phase is caught at the item level and appended to the error list
(each phase only ever appends to the list it received), the phase
continues with the remaining items (processing a snapshot decomposes
into processing the prefix and then the suffix, whatever the prefix
produced), and completed work is retained; however the returned result
keeps success=true whenever no fatal error ended the cycle — per-item
errors are reported only through the error list and never flip the
success flag. -/
theorem C5_item_error_handling :
    (∀ (env : Env) (snap : List (String × SyncItemState)) (c : Ctx)
        (xs ys : List (String × LocalEntry)), env.cancelAt = none →
      stepUploadGo env snap c (xs ++ ys) =
        stepUploadGo env snap (stepUploadGo env snap c xs) ys) ∧
    (∀ (env : Env) (c : Ctx) (L : List (String × LocalEntry)),
      ∃ δ, (stepUpload env c L).result.errors = c.result.errors ++ δ) ∧
    (∀ (env : Env) (c : Ctx) (L : List (String × LocalEntry)),
      ∃ δ, (stepDeleteRemote env c L).result.errors = c.result.errors ++ δ) ∧
    (∀ (env : Env) (c : Ctx) (L : List (String × LocalEntry))
        (R : List (String × RFile)),
      ∃ δ, (stepDelta env c L R).result.errors = c.result.errors ++ δ) ∧
    (∀ (env : Env) (e : EngineState) (w : World),
      e.isSyncing = false → env.connected = true →
      env.faults.mkdirFail = false → env.faults.reloadFail = false →
      env.cancelAt = none → env.faults.listFail = false →
      (acquireSyncLock env (loadSyncState e.stateData w.persistedLedger).deviceId
        w.remote).1 = true →
      (sync env e w).2.2.success = true) := by
  refine ⟨?_, ?_, ?_, ?_, ?_⟩
  · intro env snap c xs ys h
    exact stepUploadGo_append env snap h xs ys c
  · intro env c L
    exact (stepUpload_mono env c L).2
  · intro env c L
    exact (stepDeleteRemote_mono env c L).2
  · intro env c L R
    exact (stepDelta_mono env c L R).2
  · intro env e w hb hc hm hr hcan hl hacq
    have hcore := syncCore_success env e w hc hm hr hcan hl hacq
    unfold sync
    rw [if_neg (by rw [hb]; exact Bool.false_ne_true)]
    exact hcore

/-- C5 amended, witness: with the a.md put fault the cycle still
reports success=true (and, per the counterexample, a nonempty error
list). -/
theorem C5_item_error_handling_witness :
    (sync putAEnv tEngine twoFileWorld).2.2.success = true :=
  C5_item_error_handling.2.2.2.2 putAEnv tEngine twoFileWorld rfl rfl rfl rfl rfl rfl
    (by decide)

/-! ### Scan specifications for the idempotence analysis -/

theorem scanStep_keys_subset (env : Env) (ledger : SyncStateData)
    (acc : List (String × LocalEntry)) (p : String) (f : VFile) :
    ∀ q ∈ keysA (scanStep env ledger acc p f),
      q ∈ keysA acc ∨ q = normalizePath p := by
  intro q hq
  unfold scanStep at hq
  by_cases h1 : isExcluded env.settings p
  · rw [if_pos h1] at hq; exact Or.inl hq
  · rw [if_neg h1] at hq
    by_cases h2 : env.settings.maxFileSizeMB * 1024 * 1024 < f.content.length
    · rw [if_pos h2] at hq; exact Or.inl hq
    · rw [if_neg h2] at hq
      by_cases h3 : (!env.settings.syncAttachments && isBinaryFile p) = true
      · rw [if_pos h3] at hq; exact Or.inl hq
      · rw [if_neg h3] at hq
        dsimp only at hq
        cases hg : getItem ledger (normalizePath p) with
        | some it =>
            rw [hg] at hq
            dsimp only at hq
            by_cases h4 : f.mtime = it.localMtime ∧ f.content.length = it.size
            · rw [if_pos h4] at hq
              dsimp only at hq
              by_cases hm : normalizePath p ∈ keysA acc
              · rw [keysA_aset _ _ _ hm] at hq; exact Or.inl hq
              · rw [keysA_aset_not_mem _ _ _ hm, List.mem_append] at hq
                rcases hq with hq | hq
                · exact Or.inl hq
                · exact Or.inr (List.mem_singleton.mp hq)
            · rw [if_neg h4] at hq
              dsimp only at hq
              by_cases h5 : env.faults.readLocalFail p
              · rw [if_pos h5] at hq; exact Or.inl hq
              · rw [if_neg h5] at hq
                by_cases hm : normalizePath p ∈ keysA acc
                · rw [keysA_aset _ _ _ hm] at hq; exact Or.inl hq
                · rw [keysA_aset_not_mem _ _ _ hm, List.mem_append] at hq
                  rcases hq with hq | hq
                  · exact Or.inl hq
                  · exact Or.inr (List.mem_singleton.mp hq)
        | none =>
            rw [hg] at hq
            dsimp only at hq
            by_cases h5 : env.faults.readLocalFail p
            · rw [if_pos h5] at hq; exact Or.inl hq
            · rw [if_neg h5] at hq
              by_cases hm : normalizePath p ∈ keysA acc
              · rw [keysA_aset _ _ _ hm] at hq; exact Or.inl hq
              · rw [keysA_aset_not_mem _ _ _ hm, List.mem_append] at hq
                rcases hq with hq | hq
                · exact Or.inl hq
                · exact Or.inr (List.mem_singleton.mp hq)

theorem scanStep_decompose (env : Env) (ledger : SyncStateData)
    (acc : List (String × LocalEntry)) (p : String) (f : VFile)
    (h : normalizePath p ∉ keysA acc) :
    scanStep env ledger acc p f = acc ++ scanStep env ledger [] p f := by
  unfold scanStep
  by_cases h1 : isExcluded env.settings p
  · rw [if_pos h1, if_pos h1, List.append_nil]
  · rw [if_neg h1, if_neg h1]
    by_cases h2 : env.settings.maxFileSizeMB * 1024 * 1024 < f.content.length
    · rw [if_pos h2, if_pos h2, List.append_nil]
    · rw [if_neg h2, if_neg h2]
      by_cases h3 : (!env.settings.syncAttachments && isBinaryFile p) = true
      · rw [if_pos h3, if_pos h3, List.append_nil]
      · rw [if_neg h3, if_neg h3]
        dsimp only
        cases hg : getItem ledger (normalizePath p) with
        | some it =>
            dsimp only
            by_cases h4 : f.mtime = it.localMtime ∧ f.content.length = it.size
            · rw [if_pos h4]
              dsimp only
              exact asetA_not_mem_append acc _ _ h
            · rw [if_neg h4]
              dsimp only
              by_cases h5 : env.faults.readLocalFail p
              · rw [if_pos h5, if_pos h5, List.append_nil]
              · rw [if_neg h5, if_neg h5]
                exact asetA_not_mem_append acc _ _ h
        | none =>
            dsimp only
            by_cases h5 : env.faults.readLocalFail p
            · rw [if_pos h5, if_pos h5, List.append_nil]
            · rw [if_neg h5, if_neg h5]
              exact asetA_not_mem_append acc _ _ h

theorem scanLocalGo_decompose (env : Env) (ledger : SyncStateData) :
    ∀ (l : List (String × VFile)) (acc : List (String × LocalEntry)),
      (l.map (fun kv => normalizePath kv.1)).Nodup →
      (∀ kv ∈ l, normalizePath kv.1 ∉ keysA acc) →
      scanLocalGo env ledger acc l = acc ++ scanLocalGo env ledger [] l
  | [], acc, _, _ => (List.append_nil acc).symm
  | (p, f) :: rest, acc, h1, h2 => by
      rw [List.map_cons, List.nodup_cons] at h1
      have hp : normalizePath p ∉ keysA acc :=
        h2 (p, f) (List.mem_cons_self _ _)
      have hstep := scanStep_decompose env ledger acc p f hp
      have hsub := scanStep_keys_subset env ledger acc p f
      have hsub0 := scanStep_keys_subset env ledger [] p f
      have h2' : ∀ kv ∈ rest, normalizePath kv.1 ∉ keysA (scanStep env ledger acc p f) := by
        intro kv hkv hmem
        rcases hsub _ hmem with hh | hh
        · exact h2 kv (List.mem_cons_of_mem _ hkv) hh
        · exact h1.1 (by
            rw [← hh]
            exact List.mem_map.mpr ⟨kv, hkv, rfl⟩)
      have h2'' : ∀ kv ∈ rest, normalizePath kv.1 ∉ keysA (scanStep env ledger [] p f) := by
        intro kv hkv hmem
        rcases hsub0 _ hmem with hh | hh
        · simp [keysA] at hh
        · exact h1.1 (by
            rw [← hh]
            exact List.mem_map.mpr ⟨kv, hkv, rfl⟩)
      calc scanLocalGo env ledger acc ((p, f) :: rest)
          = scanLocalGo env ledger (scanStep env ledger acc p f) rest := rfl
        _ = scanStep env ledger acc p f ++ scanLocalGo env ledger [] rest :=
            scanLocalGo_decompose env ledger rest _ h1.2 h2'
        _ = acc ++ (scanStep env ledger [] p f ++ scanLocalGo env ledger [] rest) := by
            rw [hstep, List.append_assoc]
        _ = acc ++ scanLocalGo env ledger [] ((p, f) :: rest) := by
            rw [scanLocalGo, scanLocalGo_decompose env ledger rest _ h1.2 h2'']

theorem scanStep_cases (env : Env) (ledger : SyncStateData)
    (acc : List (String × LocalEntry)) (p : String) (f : VFile) :
    scanStep env ledger acc p f = acc ∨
    ∃ e, scanStep env ledger acc p f = asetA acc (normalizePath p) e := by
  unfold scanStep
  by_cases h1 : isExcluded env.settings p
  · rw [if_pos h1]; exact Or.inl rfl
  · rw [if_neg h1]
    by_cases h2 : env.settings.maxFileSizeMB * 1024 * 1024 < f.content.length
    · rw [if_pos h2]; exact Or.inl rfl
    · rw [if_neg h2]
      by_cases h3 : (!env.settings.syncAttachments && isBinaryFile p) = true
      · rw [if_pos h3]; exact Or.inl rfl
      · rw [if_neg h3]
        dsimp only
        cases hg : getItem ledger (normalizePath p) with
        | some it =>
            dsimp only
            by_cases h4 : f.mtime = it.localMtime ∧ f.content.length = it.size
            · rw [if_pos h4]
              exact Or.inr ⟨_, rfl⟩
            · rw [if_neg h4]
              dsimp only
              by_cases h5 : env.faults.readLocalFail p
              · rw [if_pos h5]; exact Or.inl rfl
              · rw [if_neg h5]; exact Or.inr ⟨_, rfl⟩
        | none =>
            dsimp only
            by_cases h5 : env.faults.readLocalFail p
            · rw [if_pos h5]; exact Or.inl rfl
            · rw [if_neg h5]; exact Or.inr ⟨_, rfl⟩

theorem scanStep_WFA (env : Env) (ledger : SyncStateData)
    (acc : List (String × LocalEntry)) (p : String) (f : VFile)
    (h : WFA acc) : WFA (scanStep env ledger acc p f) := by
  rcases scanStep_cases env ledger acc p f with hc | ⟨e, hc⟩
  · rw [hc]; exact h
  · rw [hc]; exact WFA_aset _ _ _ h

theorem scanLocalGo_WFA (env : Env) (ledger : SyncStateData) :
    ∀ (l : List (String × VFile)) (acc : List (String × LocalEntry)),
      WFA acc → WFA (scanLocalGo env ledger acc l)
  | [], _, h => h
  | (p, f) :: rest, acc, h =>
      scanLocalGo_WFA env ledger rest _ (scanStep_WFA env ledger acc p f h)

theorem scanLocalFiles_WFA (env : Env) (ledger : SyncStateData)
    (vault : List (String × VFile)) : WFA (scanLocalFiles env ledger vault) :=
  scanLocalGo_WFA env ledger vault [] List.nodup_nil

theorem scanLocalGo_keys (env : Env) (ledger : SyncStateData) :
    ∀ (l : List (String × VFile)) (acc : List (String × LocalEntry)) (q : String),
      q ∈ keysA (scanLocalGo env ledger acc l) →
      q ∈ keysA acc ∨ ∃ kv ∈ l, q = normalizePath kv.1
  | [], _, _, hq => Or.inl hq
  | (p, f) :: rest, acc, q, hq => by
      rcases scanLocalGo_keys env ledger rest _ q hq with hh | ⟨kv, hkv, hh⟩
      · rcases scanStep_keys_subset env ledger acc p f q hh with hh | hh
        · exact Or.inl hh
        · exact Or.inr ⟨(p, f), List.mem_cons_self _ _, hh⟩
      · exact Or.inr ⟨kv, List.mem_cons_of_mem _ hkv, hh⟩

theorem scanLocalFiles_keys_normalized (env : Env) (ledger : SyncStateData)
    (vault : List (String × VFile)) :
    ∀ q ∈ keysA (scanLocalFiles env ledger vault), normalizePath q = q := by
  intro q hq
  rcases scanLocalGo_keys env ledger vault [] q hq with hh | ⟨kv, _, hh⟩
  · simp [keysA] at hh
  · rw [hh]
    exact normalizePath_idem kv.1

theorem scanStep_nil_mem (env : Env) (ledger : SyncStateData) (p : String) (f : VFile) :
    ∀ q e, (q, e) ∈ scanStep env ledger [] p f →
      q = normalizePath p ∧ e.mtime = f.mtime ∧ e.size = f.content.length ∧
      ((∃ it, lookupA ledger.items (normalizePath p) = some it ∧
         f.mtime = it.localMtime ∧ f.content.length = it.size ∧ e.hash = it.contentHash) ∨
       ((∀ it, lookupA ledger.items (normalizePath p) = some it →
           ¬(f.mtime = it.localMtime ∧ f.content.length = it.size)) ∧
        e.hash = env.hash f.content)) := by
  intro q e hq
  have hid : lookupA ledger.items (normalizePath (normalizePath p)) =
      lookupA ledger.items (normalizePath p) := by
    rw [normalizePath_idem]
  unfold scanStep at hq
  by_cases h1 : isExcluded env.settings p
  · rw [if_pos h1] at hq; simp at hq
  · rw [if_neg h1] at hq
    by_cases h2 : env.settings.maxFileSizeMB * 1024 * 1024 < f.content.length
    · rw [if_pos h2] at hq; simp at hq
    · rw [if_neg h2] at hq
      by_cases h3 : (!env.settings.syncAttachments && isBinaryFile p) = true
      · rw [if_pos h3] at hq; simp at hq
      · rw [if_neg h3] at hq
        dsimp only at hq
        cases hg : getItem ledger (normalizePath p) with
        | some it =>
            rw [hg] at hq
            dsimp only at hq
            have hg' : lookupA ledger.items (normalizePath p) = some it := by
              rw [← hid]; exact hg
            by_cases h4 : f.mtime = it.localMtime ∧ f.content.length = it.size
            · rw [if_pos h4] at hq
              dsimp only [asetA] at hq
              have hq' := List.mem_singleton.mp hq
              injection hq' with ha hb
              refine ⟨ha, by rw [hb], by rw [hb], Or.inl ⟨it, hg', h4.1, h4.2, by rw [hb]⟩⟩
            · rw [if_neg h4] at hq
              dsimp only at hq
              by_cases h5 : env.faults.readLocalFail p
              · rw [if_pos h5] at hq; simp at hq
              · rw [if_neg h5] at hq
                dsimp only [asetA] at hq
                have hq' := List.mem_singleton.mp hq
                injection hq' with ha hb
                refine ⟨ha, by rw [hb], by rw [hb], Or.inr ⟨?_, by rw [hb]⟩⟩
                intro it' hit'
                rw [hg'] at hit'
                injection hit' with hii
                rw [← hii]
                exact h4
        | none =>
            rw [hg] at hq
            dsimp only at hq
            have hg' : lookupA ledger.items (normalizePath p) = none := by
              rw [← hid]; exact hg
            by_cases h5 : env.faults.readLocalFail p
            · rw [if_pos h5] at hq; simp at hq
            · rw [if_neg h5] at hq
              dsimp only [asetA] at hq
              have hq' := List.mem_singleton.mp hq
              injection hq' with ha hb
              refine ⟨ha, by rw [hb], by rw [hb], Or.inr ⟨?_, by rw [hb]⟩⟩
              intro it' hit'
              rw [hg'] at hit'
              exact absurd hit' (by simp)

theorem scanLocalFiles_cons (env : Env) (ledger : SyncStateData)
    (p : String) (f : VFile) (rest : List (String × VFile))
    (hNK : ∀ kv ∈ (p, f) :: rest, normalizePath kv.1 = kv.1)
    (hWF : WFA ((p, f) :: rest)) :
    scanLocalFiles env ledger ((p, f) :: rest) =
      scanStep env ledger [] p f ++ scanLocalFiles env ledger rest := by
  have hWF' : (p :: keysA rest).Nodup := hWF
  have hmap : rest.map (fun kv => normalizePath kv.1) = keysA rest := by
    apply List.map_congr_left
    intro kv hkv
    exact hNK kv (List.mem_cons_of_mem _ hkv)
  have hnod : (rest.map (fun kv => normalizePath kv.1)).Nodup := by
    rw [hmap]; exact (List.nodup_cons.mp hWF').2
  have hne : ∀ kv ∈ rest, normalizePath kv.1 ∉ keysA (scanStep env ledger [] p f) := by
    intro kv hkv hmem
    rcases scanStep_keys_subset env ledger [] p f _ hmem with hh | hh
    · simp [keysA] at hh
    · rw [hNK kv (List.mem_cons_of_mem _ hkv), hNK (p, f) (List.mem_cons_self _ _)] at hh
      apply (List.nodup_cons.mp hWF').1
      have hm1 : kv.1 ∈ keysA rest := List.mem_map.mpr ⟨kv, hkv, rfl⟩
      have hh' : kv.1 = p := hh
      rw [← hh']
      exact hm1
  show scanLocalGo env ledger (scanStep env ledger [] p f) rest = _
  rw [scanLocalGo_decompose env ledger rest _ hnod hne]
  rfl

theorem scanLocalFiles_mem_spec (env : Env) (ledger : SyncStateData) :
    ∀ (vault : List (String × VFile)),
      (∀ kv ∈ vault, normalizePath kv.1 = kv.1) → WFA vault →
      ∀ q e, (q, e) ∈ scanLocalFiles env ledger vault →
      ∃ f, lookupA vault q = some f ∧ e.mtime = f.mtime ∧ e.size = f.content.length ∧
        ((∃ it, lookupA ledger.items q = some it ∧ f.mtime = it.localMtime ∧
           f.content.length = it.size ∧ e.hash = it.contentHash) ∨
         ((∀ it, lookupA ledger.items q = some it →
             ¬(f.mtime = it.localMtime ∧ f.content.length = it.size)) ∧
          e.hash = env.hash f.content))
  | [], _, _, q, e, hq => by simp [scanLocalFiles, scanLocalGo] at hq
  | (p, f0) :: rest, hNK, hWF, q, e, hq => by
      rw [scanLocalFiles_cons env ledger p f0 rest hNK hWF, List.mem_append] at hq
      rcases hq with hq | hq
      · obtain ⟨hqp, hm, hs, hrest⟩ := scanStep_nil_mem env ledger p f0 q e hq
        have hpp : normalizePath p = p := hNK (p, f0) (List.mem_cons_self _ _)
        rw [hpp] at hqp hrest
        refine ⟨f0, ?_, hm, hs, ?_⟩
        · rw [lookupA, if_pos hqp.symm]
        · subst hqp
          exact hrest
      · have hNK' : ∀ kv ∈ rest, normalizePath kv.1 = kv.1 :=
          fun kv hkv => hNK kv (List.mem_cons_of_mem _ hkv)
        have hWF' : WFA rest := (List.nodup_cons.mp hWF).2
        obtain ⟨f, hf, hm, hs, hrest⟩ :=
          scanLocalFiles_mem_spec env ledger rest hNK' hWF' q e hq
        have hqmem : q ∈ keysA rest := mem_keys_of_lookupA_eq_some hf
        have hpq : ¬(p = q) := by
          intro hh
          exact (List.nodup_cons.mp hWF).1 (hh ▸ hqmem)
        exact ⟨f, by rw [lookupA, if_neg hpq]; exact hf, hm, hs, hrest⟩

theorem scanLocalFiles_keys_sub (env : Env) (ledger : SyncStateData)
    (vault : List (String × VFile))
    (hNK : ∀ kv ∈ vault, normalizePath kv.1 = kv.1) :
    ∀ q ∈ keysA (scanLocalFiles env ledger vault), q ∈ keysA vault := by
  intro q hq
  rcases scanLocalGo_keys env ledger vault [] q hq with hh | ⟨kv, hkv, hh⟩
  · simp [keysA] at hh
  · rw [hh, hNK kv hkv]
    exact List.mem_map.mpr ⟨kv, hkv, rfl⟩

theorem scanRemoteGo_decompose :
    ∀ (l : List (String × RFile)) (acc : List (String × RFile)),
      (keysA l).Nodup → (∀ kv ∈ l, kv.1 ∉ keysA acc) →
      scanRemoteGo acc l = acc ++ scanRemoteGo [] l
  | [], acc, _, _ => (List.append_nil acc).symm
  | (p, rf) :: rest, acc, h1, h2 => by
      have h1' := List.nodup_cons.mp h1
      by_cases hp : p = ""
      · rw [scanRemoteGo, if_pos hp, scanRemoteGo, if_pos hp]
        exact scanRemoteGo_decompose rest acc h1'.2
          (fun kv hkv => h2 kv (List.mem_cons_of_mem _ hkv))
      · by_cases hi : isInternalFile p
        · rw [scanRemoteGo, if_neg hp, if_pos hi, scanRemoteGo, if_neg hp, if_pos hi]
          exact scanRemoteGo_decompose rest acc h1'.2
            (fun kv hkv => h2 kv (List.mem_cons_of_mem _ hkv))
        · rw [scanRemoteGo, if_neg hp, if_neg hi, scanRemoteGo, if_neg hp, if_neg hi]
          have hpe : p ∉ keysA acc := h2 (p, rf) (List.mem_cons_self _ _)
          have hset : asetA acc p rf = acc ++ [(p, rf)] := asetA_not_mem_append acc p rf hpe
          have hset0 : asetA ([] : List (String × RFile)) p rf = [(p, rf)] := rfl
          have h2' : ∀ kv ∈ rest, kv.1 ∉ keysA (asetA acc p rf) := by
            intro kv hkv hmem
            rw [hset] at hmem
            have : keysA (acc ++ [(p, rf)]) = keysA acc ++ [p] := by
              simp [keysA]
            rw [this, List.mem_append] at hmem
            rcases hmem with hmem | hmem
            · exact h2 kv (List.mem_cons_of_mem _ hkv) hmem
            · exact h1'.1 (List.mem_singleton.mp hmem ▸ List.mem_map.mpr ⟨kv, hkv, rfl⟩)
          have h2'' : ∀ kv ∈ rest, kv.1 ∉ keysA (asetA ([] : List (String × RFile)) p rf) := by
            intro kv hkv hmem
            rw [hset0] at hmem
            have : kv.1 = p := by simpa [keysA] using hmem
            exact h1'.1 (this ▸ List.mem_map.mpr ⟨kv, hkv, rfl⟩)
          calc scanRemoteGo (asetA acc p rf) rest
              = asetA acc p rf ++ scanRemoteGo [] rest :=
                scanRemoteGo_decompose rest _ h1'.2 h2'
            _ = acc ++ ([(p, rf)] ++ scanRemoteGo [] rest) := by
                rw [hset, List.append_assoc]
            _ = acc ++ scanRemoteGo (asetA [] p rf) rest := by
                rw [scanRemoteGo_decompose rest _ h1'.2 h2'', hset0]

theorem scanRemoteFiles_mem_spec :
    ∀ (files : List (String × RFile)), WFA files →
      ∀ q rf, (q, rf) ∈ scanRemoteFiles files →
        lookupA files q = some rf ∧ isInternalFile q = false ∧ q ≠ ""
  | [], _, q, rf, hq => by simp [scanRemoteFiles, scanRemoteGo] at hq
  | (p, rf0) :: rest, hWF, q, rf, hq => by
      have hWF' := List.nodup_cons.mp hWF
      have hrec := scanRemoteFiles_mem_spec rest hWF'.2 q rf
      by_cases hp : p = ""
      · rw [scanRemoteFiles, scanRemoteGo, if_pos hp] at hq
        obtain ⟨hl, hi, hne⟩ := hrec hq
        have hpq : ¬(p = q) := by
          rw [hp]
          intro hh
          exact hne hh.symm
        exact ⟨by rw [lookupA, if_neg hpq]; exact hl, hi, hne⟩
      · by_cases hi : isInternalFile p
        · rw [scanRemoteFiles, scanRemoteGo, if_neg hp, if_pos hi] at hq
          obtain ⟨hl, hi', hne⟩ := hrec hq
          have hpq : ¬(p = q) := by
            intro hh
            rw [hh] at hi
            rw [hi'] at hi
            exact Bool.false_ne_true hi
          exact ⟨by rw [lookupA, if_neg hpq]; exact hl, hi', hne⟩
        · rw [scanRemoteFiles, scanRemoteGo, if_neg hp, if_neg hi] at hq
          have h2'' : ∀ kv ∈ rest, kv.1 ∉ keysA (asetA ([] : List (String × RFile)) p rf0) := by
            intro kv hkv hmem
            have : kv.1 = p := by simpa [asetA, keysA] using hmem
            exact hWF'.1 (this ▸ List.mem_map.mpr ⟨kv, hkv, rfl⟩)
          rw [scanRemoteGo_decompose rest _ hWF'.2 h2''] at hq
          rcases List.mem_append.mp hq with hq | hq
          · have hq' : (q, rf) = (p, rf0) := by simpa [asetA] using hq
            injection hq' with ha hb
            subst ha
            subst hb
            refine ⟨by rw [lookupA, if_pos rfl], ?_, hp⟩
            cases hii : isInternalFile q
            · rfl
            · exact absurd hii hi
          · obtain ⟨hl, hi', hne⟩ := hrec hq
            have hqmem : q ∈ keysA rest := mem_keys_of_lookupA_eq_some hl
            have hpq : ¬(p = q) := fun hh => hWF'.1 (hh ▸ hqmem)
            exact ⟨by rw [lookupA, if_neg hpq]; exact hl, hi', hne⟩

theorem scanRemoteFiles_mem_keys :
    ∀ (files : List (String × RFile)) (q : String),
      q ∈ keysA files → isInternalFile q = false → q ≠ "" →
      q ∈ keysA (scanRemoteFiles files) := by
  have main : ∀ (l : List (String × RFile)) (acc : List (String × RFile)) (q : String),
      q ∈ keysA acc ∨ (q ∈ keysA l ∧ isInternalFile q = false ∧ q ≠ "") →
      q ∈ keysA (scanRemoteGo acc l) := by
    intro l
    induction l with
    | nil =>
        intro acc q hq
        rcases hq with hq | ⟨hq, _, _⟩
        · exact hq
        · simp [keysA] at hq
    | cons kv rest ih =>
        obtain ⟨p, rf⟩ := kv
        intro acc q hq
        by_cases hp : p = ""
        · rw [scanRemoteGo, if_pos hp]
          apply ih
          rcases hq with hq | ⟨hq, hi, hne⟩
          · exact Or.inl hq
          · rcases List.mem_cons.mp hq with hh | hh
            · exact absurd (hh.trans hp) hne
            · exact Or.inr ⟨hh, hi, hne⟩
        · by_cases hi : isInternalFile p
          · rw [scanRemoteGo, if_neg hp, if_pos hi]
            apply ih
            rcases hq with hq | ⟨hq, hi', hne⟩
            · exact Or.inl hq
            · rcases List.mem_cons.mp hq with hh | hh
              · rw [hh] at hi'
                rw [hi'] at hi
                exact absurd hi Bool.false_ne_true
              · exact Or.inr ⟨hh, hi', hne⟩
          · rw [scanRemoteGo, if_neg hp, if_neg hi]
            apply ih
            rcases hq with hq | ⟨hq, hi', hne⟩
            · left
              by_cases hpm : p ∈ keysA acc
              · rw [keysA_aset _ _ _ hpm]; exact hq
              · rw [keysA_aset_not_mem _ _ _ hpm]
                exact List.mem_append.mpr (Or.inl hq)
            · rcases List.mem_cons.mp hq with hh | hh
              · left
                subst hh
                by_cases hpm : q ∈ keysA acc
                · rw [keysA_aset _ _ _ hpm]; exact hpm
                · rw [keysA_aset_not_mem _ _ _ hpm]
                  exact List.mem_append.mpr (Or.inr (List.mem_singleton.mpr rfl))
              · exact Or.inr ⟨hh, hi', hne⟩
  intro files q hq hi hne
  exact main files [] q (Or.inr ⟨hq, hi, hne⟩)

theorem scanRemoteGo_WFA :
    ∀ (l : List (String × RFile)) (acc : List (String × RFile)),
      WFA acc → WFA (scanRemoteGo acc l)
  | [], _, h => h
  | (p, rf) :: rest, acc, h => by
      by_cases hp : p = ""
      · rw [scanRemoteGo, if_pos hp]
        exact scanRemoteGo_WFA rest acc h
      · by_cases hi : isInternalFile p
        · rw [scanRemoteGo, if_neg hp, if_pos hi]
          exact scanRemoteGo_WFA rest acc h
        · rw [scanRemoteGo, if_neg hp, if_neg hi]
          exact scanRemoteGo_WFA rest _ (WFA_aset _ _ _ h)

theorem scanRemoteFiles_WFA (files : List (String × RFile)) :
    WFA (scanRemoteFiles files) :=
  scanRemoteGo_WFA files [] List.nodup_nil

/-! ### Conflict-name normalization -/

theorem digitChar_not_slash (d : Nat) : Nat.digitChar d ≠ '/' ∧ Nat.digitChar d ≠ '\\' := by
  unfold Nat.digitChar
  by_cases h0 : d = 0
  · rw [if_pos h0]; exact ⟨by decide, by decide⟩
  · rw [if_neg h0]
    by_cases h1 : d = 1
    · rw [if_pos h1]; exact ⟨by decide, by decide⟩
    · rw [if_neg h1]
      by_cases h2 : d = 2
      · rw [if_pos h2]; exact ⟨by decide, by decide⟩
      · rw [if_neg h2]
        by_cases h3 : d = 3
        · rw [if_pos h3]; exact ⟨by decide, by decide⟩
        · rw [if_neg h3]
          by_cases h4 : d = 4
          · rw [if_pos h4]; exact ⟨by decide, by decide⟩
          · rw [if_neg h4]
            by_cases h5 : d = 5
            · rw [if_pos h5]; exact ⟨by decide, by decide⟩
            · rw [if_neg h5]
              by_cases h6 : d = 6
              · rw [if_pos h6]; exact ⟨by decide, by decide⟩
              · rw [if_neg h6]
                by_cases h7 : d = 7
                · rw [if_pos h7]; exact ⟨by decide, by decide⟩
                · rw [if_neg h7]
                  by_cases h8 : d = 8
                  · rw [if_pos h8]; exact ⟨by decide, by decide⟩
                  · rw [if_neg h8]
                    by_cases h9 : d = 9
                    · rw [if_pos h9]; exact ⟨by decide, by decide⟩
                    · rw [if_neg h9]
                      by_cases h10 : d = 10
                      · rw [if_pos h10]; exact ⟨by decide, by decide⟩
                      · rw [if_neg h10]
                        by_cases h11 : d = 11
                        · rw [if_pos h11]; exact ⟨by decide, by decide⟩
                        · rw [if_neg h11]
                          by_cases h12 : d = 12
                          · rw [if_pos h12]; exact ⟨by decide, by decide⟩
                          · rw [if_neg h12]
                            by_cases h13 : d = 13
                            · rw [if_pos h13]; exact ⟨by decide, by decide⟩
                            · rw [if_neg h13]
                              by_cases h14 : d = 14
                              · rw [if_pos h14]; exact ⟨by decide, by decide⟩
                              · rw [if_neg h14]
                                by_cases h15 : d = 15
                                · rw [if_pos h15]; exact ⟨by decide, by decide⟩
                                · rw [if_neg h15]
                                  exact ⟨by decide, by decide⟩

theorem mem_toDigitsCore (b : Nat) :
    ∀ (fuel n : Nat) (ds : List Char) (c : Char),
      c ∈ Nat.toDigitsCore b fuel n ds → c ∈ ds ∨ ∃ d, c = Nat.digitChar d
  | 0, _, _, _, h => Or.inl h
  | fuel+1, n, ds, c, h => by
      unfold Nat.toDigitsCore at h
      dsimp only at h
      split at h
      · rcases List.mem_cons.mp h with h | h
        · exact Or.inr ⟨n % b, h⟩
        · exact Or.inl h
      · rcases mem_toDigitsCore b fuel (n / b) _ c h with h | h
        · rcases List.mem_cons.mp h with h | h
          · exact Or.inr ⟨n % b, h⟩
          · exact Or.inl h
        · exact Or.inr h

theorem toString_nat_not_slash (n : Nat) :
    ∀ c ∈ (toString n).data, c ≠ '/' ∧ c ≠ '\\' := by
  intro c hc
  have h2 : c ∈ Nat.toDigits 10 n := hc
  rcases mem_toDigitsCore 10 _ _ _ _ h2 with h | ⟨d, hd⟩
  · simp at h
  · rw [hd]; exact digitChar_not_slash d

theorem conflictTag_decomp (now : Nat) :
    conflictTag now =
      " (conflict ".data ++ (toString now).data ++ ")".data := by
  rw [conflictTag, String.data_append, String.data_append]

theorem conflictTag_not_slash (now : Nat) :
    ∀ c ∈ conflictTag now, c ≠ '/' ∧ c ≠ '\\' := by
  intro c hc
  rw [conflictTag_decomp, List.append_assoc, List.mem_append] at hc
  rcases hc with hc | hc
  · fin_cases hc <;> exact ⟨by decide, by decide⟩
  · rw [List.mem_append] at hc
    rcases hc with hc | hc
    · exact toString_nat_not_slash now c hc
    · fin_cases hc; exact ⟨by decide, by decide⟩

theorem conflictTag_head (now : Nat) :
    ∃ l, conflictTag now = ' ' :: l := by
  rw [conflictTag_decomp]
  exact ⟨_, rfl⟩

theorem conflictTag_last (now : Nat) :
    (conflictTag now).getLast? = some ')' := by
  rw [conflictTag_decomp, List.append_assoc,
    List.getLast?_append_of_ne_nil _ (by
      intro hh
      have := List.append_eq_nil.mp hh
      simp at this),
    List.getLast?_append_of_ne_nil _ (by decide)]
  decide

theorem noDS_of_no_slash : ∀ l : List Char, '/' ∉ l → NoDS l
  | [], _ => List.chain'_nil
  | [_], _ => List.chain'_singleton _
  | a :: b :: rest, h => by
      rw [NoDS, List.chain'_cons]
      refine ⟨fun hc => h (by rw [hc.1]; exact List.mem_cons_self _ _), ?_⟩
      exact noDS_of_no_slash (b :: rest) (fun hm => h (List.mem_cons_of_mem _ hm))

theorem splitLastDot_eq : ∀ (l b e : List Char),
    splitLastDot l = some (b, e) → l = b ++ '.' :: e
  | [], b, e, h => by simp [splitLastDot] at h
  | c :: rest, b, e, h => by
      rw [splitLastDot] at h
      cases hr : splitLastDot rest with
      | some be =>
          obtain ⟨b', e'⟩ := be
          rw [hr] at h
          dsimp only at h
          injection h with hpair
          injection hpair with hb he
          subst hb
          subst he
          rw [List.cons_append]
          rw [← splitLastDot_eq rest b' e' hr]
      | none =>
          rw [hr] at h
          dsimp only at h
          by_cases hc : c = '.'
          · rw [if_pos hc] at h
            injection h with hpair
            injection hpair with hb he
            subst hb
            subst he
            rw [hc]
            rfl
          · rw [if_neg hc] at h
            exact absurd h (by simp)

theorem normP_conflictName {p : String} (hp : NormP p.data) (now : Nat) :
    NormP (generateConflictName p now).data := by
  obtain ⟨hbs, hds, hlast⟩ := hp
  obtain ⟨tagtail, htag⟩ := conflictTag_head now
  have htagnos : '/' ∉ conflictTag now := fun hm =>
    (conflictTag_not_slash now _ hm).1 rfl
  have htagnobs : '\\' ∉ conflictTag now := fun hm =>
    (conflictTag_not_slash now _ hm).2 rfl
  have hheadtag : ∀ (rest : List Char) (y : Char),
      y ∈ (conflictTag now ++ rest).head? → y = ' ' := by
    intro rest y hy
    rw [htag] at hy
    simpa using hy.symm
  rw [generateConflictName]
  cases hs : splitLastDot p.data with
  | some be =>
      obtain ⟨b, e⟩ := be
      have heq : p.data = b ++ '.' :: e := splitLastDot_eq _ _ _ hs
      dsimp only
      refine ⟨?_, ?_, ?_⟩
      · intro hm
        have hm' : '\\' ∈ b ++ conflictTag now ++ '.' :: e := hm
        rw [List.append_assoc, List.mem_append] at hm'
        rcases hm' with hm' | hm'
        · exact hbs (by rw [heq]; exact List.mem_append.mpr (Or.inl hm'))
        · rw [List.mem_append] at hm'
          rcases hm' with hm' | hm'
          · exact htagnobs hm'
          · exact hbs (by rw [heq]; exact List.mem_append.mpr (Or.inr hm'))
      · show NoDS (b ++ conflictTag now ++ '.' :: e)
        rw [NoDS, List.append_assoc, List.chain'_append]
        refine ⟨?_, ?_, ?_⟩
        · exact ( hds.prefix ⟨'.' :: e, heq.symm⟩ : NoDS b)
        · rw [List.chain'_append]
          refine ⟨noDS_of_no_slash _ htagnos, ?_, ?_⟩
          · exact (hds.suffix ⟨b, heq.symm⟩ : NoDS ('.' :: e))
          · intro x hx y hy hc
            rw [conflictTag_last now] at hx
            have hx' : x = ')' := by simpa using hx.symm
            rw [hx'] at hc
            exact absurd hc.1 (by decide)
        · intro x hx y hy hc
          have hy' : y = ' ' := hheadtag _ y hy
          rw [hy'] at hc
          exact absurd hc.2 (by decide)
      · show ((b ++ conflictTag now ++ '.' :: e).getLast? ≠ some '/')
        rw [List.append_assoc]
        rw [List.getLast?_append_of_ne_nil _ (by
            intro hh
            exact absurd (List.append_eq_nil.mp hh).2 (by simp)),
          List.getLast?_append_of_ne_nil _ (by simp)]
        intro hh
        apply hlast
        rw [heq, List.getLast?_append_of_ne_nil _ (by simp)]
        exact hh
  | none =>
      dsimp only
      refine ⟨?_, ?_, ?_⟩
      · intro hm
        have hm' : '\\' ∈ p.data ++ conflictTag now := hm
        rw [List.mem_append] at hm'
        rcases hm' with hm' | hm'
        · exact hbs hm'
        · exact htagnobs hm'
      · show NoDS (p.data ++ conflictTag now)
        rw [NoDS, List.chain'_append]
        refine ⟨hds, noDS_of_no_slash _ htagnos, ?_⟩
        intro x hx y hy hc
        have hy' : y = ' ' := by
          rw [htag] at hy
          simpa using hy.symm
        rw [hy'] at hc
        exact absurd hc.2 (by decide)
      · show ((p.data ++ conflictTag now).getLast? ≠ some '/')
        rw [List.getLast?_append_of_ne_nil _ (by rw [htag]; simp),
          conflictTag_last now]
        simp

theorem normalizePath_conflictName {p : String} (h : normalizePath p = p) (now : Nat) :
    normalizePath (generateConflictName p now) = generateConflictName p now :=
  normalizePath_eq_self (normP_conflictName (normP_of_fixed h) now)

theorem conflictName_ne (p : String) (now : Nat) : generateConflictName p now ≠ p := by
  intro hh
  obtain ⟨tagtail, htag⟩ := conflictTag_head now
  have hlen : (generateConflictName p now).data.length = p.data.length := by rw [hh]
  rw [generateConflictName] at hlen
  cases hs : splitLastDot p.data with
  | some be =>
      obtain ⟨b, e⟩ := be
      rw [hs] at hlen
      dsimp only at hlen
      have heq : p.data = b ++ '.' :: e := splitLastDot_eq _ _ _ hs
      rw [heq] at hlen
      simp [htag] at hlen
      omega
  | none =>
      rw [hs] at hlen
      dsimp only at hlen
      simp [htag] at hlen

/-! ### Small map helpers for the phase invariants -/

theorem manifestGet_aset_self (m : List (String × String)) (p h : String)
    (hne : h ≠ "") : manifestGet (asetA m p h) p = some h := by
  rw [manifestGet, lookupA_aset_self]
  dsimp only
  rw [if_neg hne]

theorem manifestGet_aset_ne (m : List (String × String)) (p h q : String)
    (hq : q ≠ p) : manifestGet (asetA m p h) q = manifestGet m q := by
  rw [manifestGet, lookupA_aset_ne _ _ _ _ hq, manifestGet]

theorem manifestGet_aerase_self (m : List (String × String)) (p : String) :
    manifestGet (aeraseA m p) p = none := by
  rw [manifestGet, lookupA_aerase_self]

theorem manifestGet_aerase_ne (m : List (String × String)) (p q : String)
    (hq : q ≠ p) : manifestGet (aeraseA m p) q = manifestGet m q := by
  rw [manifestGet, lookupA_aerase_ne _ _ _ hq, manifestGet]

theorem keysA_aset_mem {α : Type} (m : List (String × α)) (k q : String) (v : α)
    (hq : q ∈ keysA (asetA m k v)) : q ∈ keysA m ∨ q = k := by
  by_cases hm : k ∈ keysA m
  · rw [keysA_aset _ _ _ hm] at hq
    exact Or.inl hq
  · rw [keysA_aset_not_mem _ _ _ hm, List.mem_append] at hq
    rcases hq with hq | hq
    · exact Or.inl hq
    · exact Or.inr (List.mem_singleton.mp hq)

theorem NKkeys_aset {α : Type} (m : List (String × α)) (k : String) (v : α)
    (hm : NKkeys m) (hk : normalizePath k = k) : NKkeys (asetA m k v) := by
  intro q hq
  rcases keysA_aset_mem m k q v hq with hq | hq
  · exact hm q hq
  · rw [hq]; exact hk

theorem NKkeys_aerase {α : Type} (m : List (String × α)) (k : String)
    (hm : NKkeys m) : NKkeys (aeraseA m k) := by
  intro q hq
  rw [keysA_aerase] at hq
  exact hm q (List.mem_of_mem_filter hq)

theorem lookupA_of_mem_WFA {α : Type} :
    ∀ (m : List (String × α)), WFA m → ∀ q v, (q, v) ∈ m → lookupA m q = some v
  | [], _, q, v, hm => by simp at hm
  | (k, w) :: rest, hWF, q, v, hm => by
      rcases List.mem_cons.mp hm with hm | hm
      · injection hm with ha hb
        rw [lookupA, if_pos ha.symm, hb]
      · have hWF' := List.nodup_cons.mp hWF
        have hq : q ∈ keysA rest := List.mem_map.mpr ⟨(q, v), hm, rfl⟩
        have hk : ¬(k = q) := fun hh => hWF'.1 (hh ▸ hq)
        rw [lookupA, if_neg hk]
        exact lookupA_of_mem_WFA rest hWF'.2 q v hm

theorem mem_of_lookupA_eq_some {α : Type} :
    ∀ (m : List (String × α)) (q : String) (v : α),
      lookupA m q = some v → (q, v) ∈ m
  | [], q, v, h => by simp [lookupA] at h
  | (k, w) :: rest, q, v, h => by
      rw [lookupA] at h
      by_cases hk : k = q
      · rw [if_pos hk] at h
        injection h with hh
        subst hk
        rw [hh]
        exact List.mem_cons_self _ _
      · rw [if_neg hk] at h
        exact List.mem_cons_of_mem _ (mem_of_lookupA_eq_some rest q v h)

/-! ### Executor postconditions -/

theorem doUpload_post (env : Env) (c : Ctx) (p : String) (c' : Ctx)
    (hp : normalizePath p = p)
    (hhash : ∀ s, env.hash s ≠ "")
    (h : doUpload env c p = (c', none)) :
    FullySynced env c' p ∧ c'.vault = c.vault ∧
    (∀ q, q ≠ p →
      lookupA c'.remote.files q = lookupA c.remote.files q ∧
      manifestGet c'.manifest q = manifestGet c.manifest q ∧
      lookupA c'.ledger.items q = lookupA c.ledger.items q) ∧
    FrameEq c c' ∧ c'.result = c.result ∧
    (GoodCtx c → GoodCtx c') := by
  rw [doUpload] at h
  cases hv : lookupA c.vault p with
  | none =>
      rw [hv] at h
      dsimp only at h
      injection h with h1 h2
      exact absurd h2 (by simp)
  | some f =>
      rw [hv] at h
      dsimp only at h
      by_cases h1 : env.faults.readLocalFail p
      · rw [if_pos h1] at h
        injection h with ha hb
        exact absurd hb (by simp)
      · rw [if_neg h1] at h
        by_cases h2 : env.faults.putFail p
        · rw [if_pos h2] at h
          injection h with ha hb
          exact absurd hb (by simp)
        · rw [if_neg h2] at h
          injection h with ha hb
          subst ha
          refine ⟨?_, rfl, ?_, ?_, rfl, ?_⟩
          · refine ⟨f, ⟨f.mtime, env.now, env.hash f.content, env.now, f.content.length⟩,
              hv, ?_, rfl, rfl, rfl, ?_, ⟨f.content, env.now⟩, ?_, rfl⟩
            · show lookupA (asetA c.ledger.items (normalizePath p) _) p = _
              rw [hp, lookupA_aset_self]
            · show manifestGet (asetA c.manifest p (env.hash f.content)) p = _
              rw [manifestGet_aset_self _ _ _ (hhash f.content)]
            · show lookupA (asetA c.remote.files p _) p = _
              rw [lookupA_aset_self]
          · intro q hq
            refine ⟨?_, ?_, ?_⟩
            · show lookupA (asetA c.remote.files p _) q = _
              rw [lookupA_aset_ne _ _ _ _ hq]
            · show manifestGet (asetA c.manifest p _) q = _
              rw [manifestGet_aset_ne _ _ _ _ hq]
            · show lookupA (asetA c.ledger.items (normalizePath p) _) q = _
              rw [hp, lookupA_aset_ne _ _ _ _ hq]
          · exact ⟨rfl, rfl, rfl, rfl, rfl, rfl⟩
          · intro hg
            obtain ⟨g1, g2, g3, g4, g5, g6⟩ := hg
            refine ⟨g1, WFA_aset _ _ _ g2, ?_, g4, NKkeys_aset _ _ _ g5 hp, ?_⟩
            · show WFA (asetA c.ledger.items (normalizePath p) _)
              rw [hp]
              exact WFA_aset _ _ _ g3
            · show NKkeys (asetA c.ledger.items (normalizePath p) _)
              rw [hp]
              exact NKkeys_aset _ _ _ g6 hp

theorem doDownload_post (env : Env) (c : Ctx) (p : String) (c' : Ctx)
    (hp : normalizePath p = p)
    (hhash : ∀ s, env.hash s ≠ "")
    (h : doDownload env c p = (c', none)) :
    FullySynced env c' p ∧ c'.remote.files = c.remote.files ∧
    (∀ q, q ≠ p →
      lookupA c'.vault q = lookupA c.vault q ∧
      manifestGet c'.manifest q = manifestGet c.manifest q ∧
      lookupA c'.ledger.items q = lookupA c.ledger.items q) ∧
    FrameEq c c' ∧ c'.result = c.result ∧
    (GoodCtx c → GoodCtx c') := by
  rw [doDownload] at h
  by_cases h1 : env.faults.getFail p
  · rw [if_pos h1] at h
    injection h with ha hb
    exact absurd hb (by simp)
  · rw [if_neg h1] at h
    cases hv : lookupA c.remote.files p with
    | none =>
        rw [hv] at h
        dsimp only at h
        injection h with ha hb
        exact absurd hb (by simp)
    | some rf =>
        rw [hv] at h
        dsimp only at h
        by_cases h2 : (match lookupA c.vault p with
            | some _ => env.faults.modifyLocalFail p
            | none => env.faults.createLocalFail p) = true
        · rw [if_pos h2] at h
          injection h with ha hb
          exact absurd hb (by simp)
        · rw [if_neg h2] at h
          injection h with ha hb
          subst ha
          refine ⟨?_, rfl, ?_, ?_, rfl, ?_⟩
          · refine ⟨⟨env.now, rf.content⟩,
              ⟨env.now, env.now, env.hash rf.content, env.now, rf.content.length⟩,
              ?_, ?_, rfl, rfl, rfl, ?_, rf, hv, rfl⟩
            · show lookupA (asetA c.vault p _) p = _
              rw [lookupA_aset_self]
            · show lookupA (asetA c.ledger.items (normalizePath p) _) p = _
              rw [hp, lookupA_aset_self]
            · show manifestGet (asetA c.manifest p (env.hash rf.content)) p = _
              rw [manifestGet_aset_self _ _ _ (hhash rf.content)]
          · intro q hq
            refine ⟨?_, ?_, ?_⟩
            · show lookupA (asetA c.vault p _) q = _
              rw [lookupA_aset_ne _ _ _ _ hq]
            · show manifestGet (asetA c.manifest p _) q = _
              rw [manifestGet_aset_ne _ _ _ _ hq]
            · show lookupA (asetA c.ledger.items (normalizePath p) _) q = _
              rw [hp, lookupA_aset_ne _ _ _ _ hq]
          · exact ⟨rfl, rfl, rfl, rfl, rfl, rfl⟩
          · intro hg
            obtain ⟨g1, g2, g3, g4, g5, g6⟩ := hg
            refine ⟨WFA_aset _ _ _ g1, g2, ?_, NKkeys_aset _ _ _ g4 hp, g5, ?_⟩
            · show WFA (asetA c.ledger.items (normalizePath p) _)
              rw [hp]
              exact WFA_aset _ _ _ g3
            · show NKkeys (asetA c.ledger.items (normalizePath p) _)
              rw [hp]
              exact NKkeys_aset _ _ _ g6 hp

theorem handleConflict_post (env : Env) (c0 : Ctx) (p : String) (c' : Ctx)
    (hp : normalizePath p = p)
    (hhash : ∀ s, env.hash s ≠ "")
    (h : handleConflict env c0 p = (c', none)) :
    FullySynced env c' p ∧
    (∀ q, q ≠ p → q ≠ generateConflictName p env.now →
      lookupA c'.vault q = lookupA c0.vault q ∧
      lookupA c'.remote.files q = lookupA c0.remote.files q ∧
      manifestGet c'.manifest q = manifestGet c0.manifest q ∧
      lookupA c'.ledger.items q = lookupA c0.ledger.items q) ∧
    ((lookupA c'.vault (generateConflictName p env.now) =
        lookupA c0.vault (generateConflictName p env.now) ∧
      lookupA c'.remote.files (generateConflictName p env.now) =
        lookupA c0.remote.files (generateConflictName p env.now) ∧
      manifestGet c'.manifest (generateConflictName p env.now) =
        manifestGet c0.manifest (generateConflictName p env.now) ∧
      lookupA c'.ledger.items (generateConflictName p env.now) =
        lookupA c0.ledger.items (generateConflictName p env.now)) ∨
     (FullySynced env c' (generateConflictName p env.now) ∧
      lookupA c0.vault (generateConflictName p env.now) = none)) ∧
    FrameEq c0 c' ∧ c'.result = c0.result ∧
    (GoodCtx c0 → GoodCtx c') := by
  have hcpne : generateConflictName p env.now ≠ p := conflictName_ne p env.now
  rw [handleConflict] at h
  dsimp only at h
  cases hst : env.settings.conflictStrategy with
  | localWins =>
      rw [hst] at h
      dsimp only at h
      obtain ⟨hfs, hveq, hfr, hfe, hres, hgood⟩ :=
        doUpload_post env _ p c' hp hhash h
      refine ⟨hfs, ?_, ?_, hfe, hres, hgood⟩
      · intro q hq _
        exact ⟨by rw [hveq], (hfr q hq).1, (hfr q hq).2.1, (hfr q hq).2.2⟩
      · exact Or.inl ⟨by rw [hveq], (hfr _ hcpne).1, (hfr _ hcpne).2.1, (hfr _ hcpne).2.2⟩
  | remoteWins =>
      rw [hst] at h
      dsimp only at h
      obtain ⟨hfs, hfeq, hfr, hfe, hres, hgood⟩ :=
        doDownload_post env _ p c' hp hhash h
      refine ⟨hfs, ?_, ?_, hfe, hres, hgood⟩
      · intro q hq _
        exact ⟨(hfr q hq).1, by rw [hfeq], (hfr q hq).2.1, (hfr q hq).2.2⟩
      · exact Or.inl ⟨(hfr _ hcpne).1, by rw [hfeq], (hfr _ hcpne).2.1, (hfr _ hcpne).2.2⟩
  | copy =>
      rw [hst] at h
      dsimp only at h
      cases hv : lookupA c0.vault p with
      | none =>
          rw [hv] at h
          dsimp only at h
          obtain ⟨hfs, hfeq, hfr, hfe, hres, hgood⟩ :=
            doDownload_post env _ p c' hp hhash h
          refine ⟨hfs, ?_, ?_, hfe, hres, hgood⟩
          · intro q hq _
            exact ⟨(hfr q hq).1, by rw [hfeq], (hfr q hq).2.1, (hfr q hq).2.2⟩
          · exact Or.inl ⟨(hfr _ hcpne).1, by rw [hfeq], (hfr _ hcpne).2.1, (hfr _ hcpne).2.2⟩
      | some f =>
          rw [hv] at h
          dsimp only at h
          by_cases h1 : env.faults.readLocalFail p
          · rw [if_pos h1] at h
            injection h with ha hb
            exact absurd hb (by simp)
          · rw [if_neg h1] at h
            by_cases h2 : (lookupA c0.vault (generateConflictName p env.now)).isSome
            · rw [if_pos h2] at h
              injection h with ha hb
              exact absurd hb (by simp)
            · rw [if_neg h2] at h
              have hvcp : lookupA c0.vault (generateConflictName p env.now) = none := by
                cases hvv : lookupA c0.vault (generateConflictName p env.now) with
                | none => rfl
                | some x =>
                    rw [hvv] at h2
                    exact absurd (Option.isSome_some) h2
              by_cases h3 : env.faults.createLocalFail (generateConflictName p env.now)
              · rw [if_pos h3] at h
                injection h with ha hb
                exact absurd hb (by simp)
              · rw [if_neg h3] at h
                by_cases h4 : env.faults.putFail (generateConflictName p env.now)
                · rw [if_pos h4] at h
                  injection h with ha hb
                  exact absurd hb (by simp)
                · rw [if_neg h4] at h
                  have hcpnorm : normalizePath (generateConflictName p env.now) =
                      generateConflictName p env.now :=
                    normalizePath_conflictName hp env.now
                  obtain ⟨hfs, hfeq, hfr, hfe, hres, hgood⟩ :=
                    doDownload_post env _ p c' hp hhash h
                  have hpcp : p ≠ generateConflictName p env.now := fun hh => hcpne hh.symm
                  refine ⟨hfs, ?_, ?_, ?_, ?_, ?_⟩
                  · intro q hq hq2
                    obtain ⟨f1, f2, f3⟩ := hfr q hq
                    refine ⟨?_, ?_, ?_, ?_⟩
                    · rw [f1]
                      show lookupA (asetA c0.vault (generateConflictName p env.now) _) q = _
                      rw [lookupA_aset_ne _ _ _ _ hq2]
                    · rw [hfeq]
                      show lookupA (asetA c0.remote.files (generateConflictName p env.now) _) q = _
                      rw [lookupA_aset_ne _ _ _ _ hq2]
                    · rw [f2]
                      show manifestGet (asetA c0.manifest (generateConflictName p env.now) _) q = _
                      rw [manifestGet_aset_ne _ _ _ _ hq2]
                    · rw [f3]
                      show lookupA (asetA c0.ledger.items
                        (normalizePath (generateConflictName p env.now)) _) q = _
                      rw [hcpnorm, lookupA_aset_ne _ _ _ _ hq2]
                  · refine Or.inr ⟨?_, hvcp⟩
                    obtain ⟨f1, f2, f3⟩ := hfr _ hcpne
                    refine ⟨⟨env.now, f.content⟩,
                      ⟨env.now, env.now, env.hash f.content, env.now, f.content.length⟩,
                      ?_, ?_, rfl, rfl, rfl, ?_, ⟨f.content, env.now⟩, ?_, rfl⟩
                    · rw [f1]
                      show lookupA (asetA c0.vault (generateConflictName p env.now) _) _ = _
                      rw [lookupA_aset_self]
                    · rw [f3]
                      show lookupA (asetA c0.ledger.items
                        (normalizePath (generateConflictName p env.now)) _) _ = _
                      rw [hcpnorm, lookupA_aset_self]
                    · rw [f2]
                      show manifestGet (asetA c0.manifest (generateConflictName p env.now)
                        (env.hash f.content)) _ = _
                      rw [manifestGet_aset_self _ _ _ (hhash f.content)]
                    · rw [hfeq]
                      show lookupA (asetA c0.remote.files (generateConflictName p env.now) _) _ = _
                      rw [lookupA_aset_self]
                  · exact ⟨hfe.1, hfe.2.1, hfe.2.2.1, hfe.2.2.2.1, hfe.2.2.2.2.1,
                      hfe.2.2.2.2.2⟩
                  · exact hres
                  · intro hg
                    apply hgood
                    obtain ⟨g1, g2, g3, g4, g5, g6⟩ := hg
                    refine ⟨WFA_aset _ _ _ g1, WFA_aset _ _ _ g2, ?_,
                      NKkeys_aset _ _ _ g4 hcpnorm, NKkeys_aset _ _ _ g5 hcpnorm, ?_⟩
                    · show WFA (asetA c0.ledger.items
                        (normalizePath (generateConflictName p env.now)) _)
                      rw [hcpnorm]
                      exact WFA_aset _ _ _ g3
                    · show NKkeys (asetA c0.ledger.items
                        (normalizePath (generateConflictName p env.now)) _)
                      rw [hcpnorm]
                      exact NKkeys_aset _ _ _ g6 hcpnorm

theorem uploadItem_post (env : Env) (snapshot : List (String × SyncItemState))
    (c : Ctx) (p : String) (lf : LocalEntry) (c' : Ctx)
    (hp : normalizePath p = p)
    (hhash : ∀ s, env.hash s ≠ "")
    (hsn : lookupA c.ledger.items p = lookupA snapshot p)
    (hup : uploadItem env snapshot c p lf = c')
    (herr : c'.result.errors = c.result.errors) :
    ((∃ it, lookupA c'.ledger.items p = some it ∧ lf.hash = it.contentHash ∧
        ((it.localMtime = lf.mtime ∧ it.size = lf.size) ∨
          lookupA snapshot p = some it) ∧
        lookupA c'.vault p = lookupA c.vault p ∧
        lookupA c'.remote.files p = lookupA c.remote.files p ∧
        manifestGet c'.manifest p = manifestGet c.manifest p) ∨
      FullySynced env c' p) ∧
    (∀ q, q ≠ p → q ≠ generateConflictName p env.now →
      lookupA c'.vault q = lookupA c.vault q ∧
      lookupA c'.remote.files q = lookupA c.remote.files q ∧
      manifestGet c'.manifest q = manifestGet c.manifest q ∧
      lookupA c'.ledger.items q = lookupA c.ledger.items q) ∧
    ((lookupA c'.vault (generateConflictName p env.now) =
        lookupA c.vault (generateConflictName p env.now) ∧
      lookupA c'.remote.files (generateConflictName p env.now) =
        lookupA c.remote.files (generateConflictName p env.now) ∧
      manifestGet c'.manifest (generateConflictName p env.now) =
        manifestGet c.manifest (generateConflictName p env.now) ∧
      lookupA c'.ledger.items (generateConflictName p env.now) =
        lookupA c.ledger.items (generateConflictName p env.now)) ∨
     (FullySynced env c' (generateConflictName p env.now) ∧
      lookupA c.vault (generateConflictName p env.now) = none)) ∧
    FrameEq c c' ∧ (GoodCtx c → GoodCtx c') := by
  have hcpne : generateConflictName p env.now ≠ p := conflictName_ne p env.now
  rw [uploadItem] at hup
  cases hsn0 : lookupA snapshot p with
  | none =>
      rw [hsn0] at hup
      dsimp only at hup
      cases hmg : manifestGet c.manifest p with
      | some remoteHash =>
          rw [hmg] at hup
          dsimp only at hup
          by_cases heq : remoteHash = lf.hash
          · rw [if_pos heq] at hup
            subst hup
            refine ⟨Or.inl ⟨⟨lf.mtime, env.now, lf.hash, env.now, lf.size⟩, ?_, rfl,
              Or.inl ⟨rfl, rfl⟩, rfl, rfl, hmg⟩,
              ?_, Or.inl ⟨rfl, rfl, rfl, ?_⟩, ⟨rfl, rfl, rfl, rfl, rfl, rfl⟩, ?_⟩
            · show lookupA (asetA c.ledger.items (normalizePath p) _) p = _
              rw [hp, lookupA_aset_self]
            · intro q hq _
              refine ⟨rfl, rfl, rfl, ?_⟩
              show lookupA (asetA c.ledger.items (normalizePath p) _) q = _
              rw [hp, lookupA_aset_ne _ _ _ _ hq]
            · show lookupA (asetA c.ledger.items (normalizePath p) _) _ = _
              rw [hp, lookupA_aset_ne _ _ _ _ hcpne]
            · intro hg
              obtain ⟨g1, g2, g3, g4, g5, g6⟩ := hg
              refine ⟨g1, g2, ?_, g4, g5, ?_⟩
              · show WFA (asetA c.ledger.items (normalizePath p) _)
                rw [hp]
                exact WFA_aset _ _ _ g3
              · show NKkeys (asetA c.ledger.items (normalizePath p) _)
                rw [hp]
                exact NKkeys_aset _ _ _ g6 hp
          · rw [if_neg heq] at hup
            cases hhc : handleConflict env c p with
            | mk c2 r =>
                cases r with
                | none =>
                    rw [hhc] at hup
                    dsimp only at hup
                    obtain ⟨hfs, hfr, hcp, hfe, hres, hgood⟩ :=
                      handleConflict_post env c p c2 hp hhash hhc
                    subst hup
                    exact ⟨Or.inr hfs, fun q hq hq2 => hfr q hq hq2, hcp,
                      ⟨hfe.1, hfe.2.1, hfe.2.2.1, hfe.2.2.2.1, hfe.2.2.2.2.1, hfe.2.2.2.2.2⟩,
                      hgood⟩
                | some m =>
                    rw [hhc] at hup
                    dsimp only at hup
                    exfalso
                    have hr2 : c2.result = c.result := by
                      have := handleConflict_result env c p
                      rw [hhc] at this
                      exact this
                    rw [← hup] at herr
                    have h1 : c2.result.errors ++ ["Upload error " ++ p ++ ": " ++ m] =
                        c.result.errors := herr
                    rw [hr2] at h1
                    have hlen := congrArg List.length h1
                    simp at hlen
      | none =>
          rw [hmg] at hup
          dsimp only at hup
          cases hdu : doUpload env c p with
          | mk c2 r =>
              cases r with
              | none =>
                  rw [hdu] at hup
                  dsimp only at hup
                  obtain ⟨hfs, hveq, hfr, hfe, hres, hgood⟩ :=
                    doUpload_post env c p c2 hp hhash hdu
                  subst hup
                  refine ⟨Or.inr hfs, ?_, Or.inl ⟨by rw [hveq], (hfr _ hcpne).1,
                    (hfr _ hcpne).2.1, (hfr _ hcpne).2.2⟩,
                    ⟨hfe.1, hfe.2.1, hfe.2.2.1, hfe.2.2.2.1, hfe.2.2.2.2.1, hfe.2.2.2.2.2⟩,
                    hgood⟩
                  intro q hq _
                  exact ⟨by rw [hveq], (hfr q hq).1, (hfr q hq).2.1, (hfr q hq).2.2⟩
              | some m =>
                  rw [hdu] at hup
                  dsimp only at hup
                  exfalso
                  have hr2 : c2.result = c.result := by
                    have := doUpload_result env c p
                    rw [hdu] at this
                    exact this
                  rw [← hup] at herr
                  have h1 : c2.result.errors ++ ["Upload error " ++ p ++ ": " ++ m] =
                      c.result.errors := herr
                  rw [hr2] at h1
                  have hlen := congrArg List.length h1
                  simp at hlen
  | some syncItem =>
      rw [hsn0] at hup
      dsimp only at hup
      by_cases hloc : lf.hash = syncItem.contentHash
      · rw [if_pos hloc] at hup
        subst hup
        refine ⟨Or.inl ⟨syncItem, ?_, hloc, Or.inr rfl, rfl, rfl, rfl⟩,
          fun q _ _ => ⟨rfl, rfl, rfl, rfl⟩, Or.inl ⟨rfl, rfl, rfl, rfl⟩,
          ⟨rfl, rfl, rfl, rfl, rfl, rfl⟩, fun hg => hg⟩
        rw [hsn]
        exact hsn0
      · rw [if_neg hloc] at hup
        by_cases hrc : (match manifestGet c.manifest p with
            | some h => h != syncItem.contentHash
            | none => false) = true
        · rw [if_pos hrc] at hup
          cases hhc : handleConflict env c p with
          | mk c2 r =>
              cases r with
              | none =>
                  rw [hhc] at hup
                  dsimp only at hup
                  obtain ⟨hfs, hfr, hcp, hfe, hres, hgood⟩ :=
                    handleConflict_post env c p c2 hp hhash hhc
                  subst hup
                  exact ⟨Or.inr hfs, fun q hq hq2 => hfr q hq hq2, hcp,
                    ⟨hfe.1, hfe.2.1, hfe.2.2.1, hfe.2.2.2.1, hfe.2.2.2.2.1, hfe.2.2.2.2.2⟩,
                    hgood⟩
              | some m =>
                  rw [hhc] at hup
                  dsimp only at hup
                  exfalso
                  have hr2 : c2.result = c.result := by
                    have := handleConflict_result env c p
                    rw [hhc] at this
                    exact this
                  rw [← hup] at herr
                  have h1 : c2.result.errors ++ ["Upload error " ++ p ++ ": " ++ m] =
                      c.result.errors := herr
                  rw [hr2] at h1
                  have hlen := congrArg List.length h1
                  simp at hlen
        · rw [if_neg hrc] at hup
          cases hdu : doUpload env c p with
          | mk c2 r =>
              cases r with
              | none =>
                  rw [hdu] at hup
                  dsimp only at hup
                  obtain ⟨hfs, hveq, hfr, hfe, hres, hgood⟩ :=
                    doUpload_post env c p c2 hp hhash hdu
                  subst hup
                  refine ⟨Or.inr hfs, ?_, Or.inl ⟨by rw [hveq], (hfr _ hcpne).1,
                    (hfr _ hcpne).2.1, (hfr _ hcpne).2.2⟩,
                    ⟨hfe.1, hfe.2.1, hfe.2.2.1, hfe.2.2.2.1, hfe.2.2.2.2.1, hfe.2.2.2.2.2⟩,
                    hgood⟩
                  intro q hq _
                  exact ⟨by rw [hveq], (hfr q hq).1, (hfr q hq).2.1, (hfr q hq).2.2⟩
              | some m =>
                  rw [hdu] at hup
                  dsimp only at hup
                  exfalso
                  have hr2 : c2.result = c.result := by
                    have := doUpload_result env c p
                    rw [hdu] at this
                    exact this
                  rw [← hup] at herr
                  have h1 : c2.result.errors ++ ["Upload error " ++ p ++ ": " ++ m] =
                      c.result.errors := herr
                  rw [hr2] at h1
                  have hlen := congrArg List.length h1
                  simp at hlen

/-! ### Class transfer under unchanged observations -/

theorem FullySynced_transfer (env : Env) (c c' : Ctx) (q : String)
    (h1 : lookupA c'.vault q = lookupA c.vault q)
    (h2 : lookupA c'.remote.files q = lookupA c.remote.files q)
    (h3 : manifestGet c'.manifest q = manifestGet c.manifest q)
    (h4 : lookupA c'.ledger.items q = lookupA c.ledger.items q)
    (h : FullySynced env c q) : FullySynced env c' q := by
  obtain ⟨f, it, hf, hit, e1, e2, e3, hm, rf, hrf, e4⟩ := h
  exact ⟨f, it, h1.trans hf, h4.trans hit, e1, e2, e3, h3.trans hm, rf, h2.trans hrf, e4⟩

theorem Untouched_transfer (vault0 : List (String × VFile)) (files0 : List (String × RFile))
    (manifest0 : List (String × String)) (items0 : List (String × SyncItemState))
    (c c' : Ctx) (q : String)
    (h1 : lookupA c'.vault q = lookupA c.vault q)
    (h2 : lookupA c'.remote.files q = lookupA c.remote.files q)
    (h3 : manifestGet c'.manifest q = manifestGet c.manifest q)
    (h4 : lookupA c'.ledger.items q = lookupA c.ledger.items q)
    (h : Untouched vault0 files0 manifest0 items0 c q) :
    Untouched vault0 files0 manifest0 items0 c' q :=
  ⟨h1.trans h.1, h2.trans h.2.1, h3.trans h.2.2.1, h4.trans h.2.2.2⟩

theorem UpDone_transfer (env : Env) (L1 : List (String × LocalEntry))
    (vault0 : List (String × VFile)) (files0 : List (String × RFile))
    (manifest0 : List (String × String)) (items0 : List (String × SyncItemState))
    (c c' : Ctx) (q : String)
    (h1 : lookupA c'.vault q = lookupA c.vault q)
    (h2 : lookupA c'.remote.files q = lookupA c.remote.files q)
    (h3 : manifestGet c'.manifest q = manifestGet c.manifest q)
    (h4 : lookupA c'.ledger.items q = lookupA c.ledger.items q)
    (h : UpDone env L1 vault0 files0 manifest0 items0 c q) :
    UpDone env L1 vault0 files0 manifest0 items0 c' q := by
  rcases h with ⟨e, he, hcls⟩ | ⟨hnl, hcls⟩
  · refine Or.inl ⟨e, he, ?_⟩
    rcases hcls with ⟨it, hit, hh, hms, hv, hf, hm⟩ | hfs
    · exact Or.inl ⟨it, h4.trans hit, hh, hms, h1.trans hv, h2.trans hf, h3.trans hm⟩
    · exact Or.inr (FullySynced_transfer env c c' q h1 h2 h3 h4 hfs)
  · refine Or.inr ⟨hnl, ?_⟩
    rcases hcls with hu | ⟨hfs, hv0⟩
    · exact Or.inl (Untouched_transfer _ _ _ _ c c' q h1 h2 h3 h4 hu)
    · exact Or.inr ⟨FullySynced_transfer env c c' q h1 h2 h3 h4 hfs, hv0⟩

theorem FrameEq_trans {a b c : Ctx} (h1 : FrameEq a b) (h2 : FrameEq b c) : FrameEq a c :=
  ⟨h2.1.trans h1.1, h2.2.1.trans h1.2.1, h2.2.2.1.trans h1.2.2.1,
   h2.2.2.2.1.trans h1.2.2.2.1, h2.2.2.2.2.1.trans h1.2.2.2.2.1,
   h2.2.2.2.2.2.trans h1.2.2.2.2.2⟩

/-! ### The Upload phase invariant -/

theorem stepUploadGo_inv (env : Env) (L1 : List (String × LocalEntry))
    (vault0 : List (String × VFile)) (files0 : List (String × RFile))
    (manifest0 : List (String × String)) (items0 : List (String × SyncItemState))
    (hcan : env.cancelAt = none)
    (hhash : ∀ s, env.hash s ≠ "")
    (hL1sub : ∀ q ∈ keysA L1, q ∈ keysA vault0)
    (hL1nk : ∀ q ∈ keysA L1, normalizePath q = q) :
    ∀ (rest : List (String × LocalEntry)) (c : Ctx),
      (∀ kv ∈ rest, lookupA L1 kv.1 = some kv.2) →
      (keysA rest).Nodup →
      (∀ q, (q ∈ keysA rest → Untouched vault0 files0 manifest0 items0 c q) ∧
            (q ∉ keysA rest → UpDone env L1 vault0 files0 manifest0 items0 c q)) →
      (stepUploadGo env items0 c rest).result.errors = c.result.errors →
      (∀ q, UpDone env L1 vault0 files0 manifest0 items0 (stepUploadGo env items0 c rest) q) ∧
      FrameEq c (stepUploadGo env items0 c rest) ∧
      (GoodCtx c → GoodCtx (stepUploadGo env items0 c rest))
  | [], c, _, _, hinv, _ => by
      refine ⟨?_, ⟨rfl, rfl, rfl, rfl, rfl, rfl⟩, fun hg => hg⟩
      intro q
      exact (hinv q).2 (by simp [keysA])
  | (p, lf) :: rest2, c, hrest, hnod, hinv, herr => by
      have hstep : stepUploadGo env items0 c ((p, lf) :: rest2) =
          stepUploadGo env items0
            (uploadItem env items0 { c with checks := c.checks + 1 } p lf) rest2 := by
        rw [stepUploadGo, checkCancel_none hcan]
        rfl
      rw [hstep] at herr ⊢
      have hpl : lookupA L1 p = some lf := hrest (p, lf) (List.mem_cons_self _ _)
      have hpk : p ∈ keysA ((p, lf) :: rest2) := by
        rw [keysA_cons]
        exact List.mem_cons_self _ _
      have hpnk : normalizePath p = p :=
        hL1nk p (mem_keys_of_lookupA_eq_some hpl)
      have hcpne : generateConflictName p env.now ≠ p := conflictName_ne p env.now
      have hUp : Untouched vault0 files0 manifest0 items0 c p := (hinv p).1 hpk
      have hnodk : p ∉ keysA rest2 ∧ (keysA rest2).Nodup := by
        rw [keysA_cons] at hnod
        exact List.nodup_cons.mp hnod
      -- error decomposition through the tail and the item
      obtain ⟨_, δ1, he1⟩ :=
        uploadItem_mono env items0 { c with checks := c.checks + 1 } p lf
      obtain ⟨_, δ2, he2⟩ := stepUploadGo_mono env items0 rest2
        (uploadItem env items0 { c with checks := c.checks + 1 } p lf)
      have herr0 : c.result.errors ++ (δ1 ++ δ2) = c.result.errors ++ [] := by
        rw [← List.append_assoc, List.append_nil]
        rw [he2, he1] at herr
        exact herr
      have hδ : δ1 = [] ∧ δ2 = [] :=
        List.append_eq_nil.mp (List.append_cancel_left herr0)
      have herr1 : (uploadItem env items0 { c with checks := c.checks + 1 } p lf).result.errors =
          ({ c with checks := c.checks + 1 } : Ctx).result.errors := by
        rw [he1, hδ.1, List.append_nil]
      have herr2 : (stepUploadGo env items0
            (uploadItem env items0 { c with checks := c.checks + 1 } p lf) rest2).result.errors =
          (uploadItem env items0 { c with checks := c.checks + 1 } p lf).result.errors := by
        rw [he2, hδ.2, List.append_nil]
      obtain ⟨hA, hB, hC, hD, hE⟩ :=
        uploadItem_post env items0 { c with checks := c.checks + 1 } p lf
          (uploadItem env items0 { c with checks := c.checks + 1 } p lf)
          hpnk hhash hUp.2.2.2 rfl herr1
      -- re-established invariant for the context after the item
      have hinv2 : ∀ q,
          (q ∈ keysA rest2 → Untouched vault0 files0 manifest0 items0
            (uploadItem env items0 { c with checks := c.checks + 1 } p lf) q) ∧
          (q ∉ keysA rest2 → UpDone env L1 vault0 files0 manifest0 items0
            (uploadItem env items0 { c with checks := c.checks + 1 } p lf) q) := by
        intro q
        constructor
        · intro hq
          have hqp : q ≠ p := fun hh => hnodk.1 (hh ▸ hq)
          have hUq : Untouched vault0 files0 manifest0 items0 c q :=
            (hinv q).1 (by rw [keysA_cons]; exact List.mem_cons_of_mem _ hq)
          by_cases hqcp : q = generateConflictName p env.now
          · rcases hC with ⟨e1, e2, e3, e4⟩ | ⟨hfs, hvnone⟩
            · rw [← hqcp] at e1 e2 e3 e4
              exact Untouched_transfer _ _ _ _ _ _ q e1 e2 e3 e4 hUq
            · rw [← hqcp] at hvnone
              exfalso
              have hv0 : lookupA vault0 q = none := hUq.1 ▸ hvnone
              have hqL1 : q ∈ keysA L1 := by
                obtain ⟨kv, hkv, hkq⟩ := List.mem_map.mp hq
                have := hrest kv (List.mem_cons_of_mem _ hkv)
                rw [hkq] at this
                exact mem_keys_of_lookupA_eq_some this
              obtain ⟨v, hv⟩ := lookupA_isSome_of_mem_keys (hL1sub q hqL1)
              rw [hv0] at hv
              exact absurd hv (by simp)
          · obtain ⟨e1, e2, e3, e4⟩ := hB q hqp hqcp
            exact Untouched_transfer _ _ _ _ _ _ q e1 e2 e3 e4 hUq
        · intro hq
          by_cases hqp : q = p
          · subst hqp
            rcases hA with ⟨it, hit, hh, hms, hv, hf, hm⟩ | hfs
            · exact Or.inl ⟨lf, hpl, Or.inl ⟨it, hit, hh, hms,
                hv.trans hUp.1, hf.trans hUp.2.1, hm.trans hUp.2.2.1⟩⟩
            · exact Or.inl ⟨lf, hpl, Or.inr hfs⟩
          · by_cases hqcp : q = generateConflictName p env.now
            · have hqrest : q ∉ keysA ((p, lf) :: rest2) := by
                rw [keysA_cons]
                intro hh
                rcases List.mem_cons.mp hh with hh | hh
                · exact hqp hh
                · exact hq hh
              have hUD : UpDone env L1 vault0 files0 manifest0 items0 c q :=
                (hinv q).2 hqrest
              rcases hC with ⟨e1, e2, e3, e4⟩ | ⟨hfs, hvnone⟩
              · rw [← hqcp] at e1 e2 e3 e4
                exact UpDone_transfer env L1 _ _ _ _ _ _ q e1 e2 e3 e4 hUD
              · rw [← hqcp] at hfs hvnone
                rcases hUD with ⟨e, he, hcls⟩ | ⟨hnl, hcls⟩
                · exfalso
                  have hqL1 : q ∈ keysA L1 := mem_keys_of_lookupA_eq_some he
                  obtain ⟨v, hv⟩ := lookupA_isSome_of_mem_keys (hL1sub q hqL1)
                  rcases hcls with ⟨it, _, _, _, hveq, _, _⟩ | hfsc
                  · have : lookupA vault0 q = none := hveq.symm.trans hvnone
                    rw [this] at hv
                    exact absurd hv (by simp)
                  · obtain ⟨f, _, hvf, _⟩ := hfsc
                    rw [hvnone] at hvf
                    exact absurd hvf (by simp)
                · rcases hcls with hu | ⟨hfsc, _⟩
                  · exact Or.inr ⟨hnl, Or.inr ⟨hfs, hu.1.symm.trans hvnone⟩⟩
                  · exfalso
                    obtain ⟨f, _, hvf, _⟩ := hfsc
                    rw [hvnone] at hvf
                    exact absurd hvf (by simp)
            · have hqrest : q ∉ keysA ((p, lf) :: rest2) := by
                rw [keysA_cons]
                intro hh
                rcases List.mem_cons.mp hh with hh | hh
                · exact hqp hh
                · exact hq hh
              have hUD : UpDone env L1 vault0 files0 manifest0 items0 c q :=
                (hinv q).2 hqrest
              obtain ⟨e1, e2, e3, e4⟩ := hB q hqp hqcp
              exact UpDone_transfer env L1 _ _ _ _ _ _ q e1 e2 e3 e4 hUD
      obtain ⟨ih1, ih2, ih3⟩ := stepUploadGo_inv env L1 vault0 files0 manifest0 items0
        hcan hhash hL1sub hL1nk rest2
        (uploadItem env items0 { c with checks := c.checks + 1 } p lf)
        (fun kv hkv => hrest kv (List.mem_cons_of_mem _ hkv)) hnodk.2 hinv2 herr2
      refine ⟨ih1, FrameEq_trans ?_ ih2, fun hg => ih3 (hE hg)⟩
      exact ⟨hD.1, hD.2.1, hD.2.2.1, hD.2.2.2.1, hD.2.2.2.2.1, hD.2.2.2.2.2⟩

theorem contains_iff_mem (l : List String) (a : String) : l.contains a = true ↔ a ∈ l := by
  simp

theorem DRDone_transfer (env : Env) (L1 : List (String × LocalEntry))
    (vault0 : List (String × VFile)) (files0 : List (String × RFile))
    (manifest0 : List (String × String)) (items0 : List (String × SyncItemState))
    (c c' : Ctx) (q : String)
    (h1 : lookupA c'.vault q = lookupA c.vault q)
    (h2 : lookupA c'.remote.files q = lookupA c.remote.files q)
    (h3 : manifestGet c'.manifest q = manifestGet c.manifest q)
    (h4 : lookupA c'.ledger.items q = lookupA c.ledger.items q)
    (h : DRDone env L1 vault0 files0 manifest0 items0 c q) :
    DRDone env L1 vault0 files0 manifest0 items0 c' q := by
  rcases h with ⟨e, he, hcls⟩ | ⟨hnl, hcls⟩
  · refine Or.inl ⟨e, he, ?_⟩
    rcases hcls with ⟨it, hit, hh, hms, hv, hf, hm⟩ | hfs
    · exact Or.inl ⟨it, h4.trans hit, hh, hms, h1.trans hv, h2.trans hf, h3.trans hm⟩
    · exact Or.inr (FullySynced_transfer env c c' q h1 h2 h3 h4 hfs)
  · refine Or.inr ⟨hnl, ?_⟩
    rcases hcls with ⟨hu, hi0⟩ | ⟨e1, e2, e3⟩ | ⟨hu, hrest⟩
    · exact Or.inl ⟨Untouched_transfer _ _ _ _ c c' q h1 h2 h3 h4 hu, hi0⟩
    · exact Or.inr (Or.inl ⟨h4.trans e1, h3.trans e2, h2.trans e3⟩)
    · exact Or.inr (Or.inr ⟨Untouched_transfer _ _ _ _ c c' q h1 h2 h3 h4 hu, hrest⟩)

theorem UpDone_to_DRDone (env : Env) (L1 : List (String × LocalEntry))
    (vault0 : List (String × VFile)) (files0 : List (String × RFile))
    (manifest0 : List (String × String)) (items0 : List (String × SyncItemState))
    (c : Ctx) (q : String)
    (hq : q ∉ keysA c.ledger.items)
    (h : UpDone env L1 vault0 files0 manifest0 items0 c q) :
    DRDone env L1 vault0 files0 manifest0 items0 c q := by
  have hnone : lookupA c.ledger.items q = none := lookupA_eq_none_of_not_mem_keys _ _ hq
  rcases h with ⟨e, he, hcls⟩ | ⟨hnl, hcls⟩
  · refine Or.inl ⟨e, he, ?_⟩
    rcases hcls with ⟨it, hit, _⟩ | hfs
    · rw [hnone] at hit
      exact absurd hit (by simp)
    · exact Or.inr hfs
  · refine Or.inr ⟨hnl, ?_⟩
    rcases hcls with hu | ⟨hfs, _⟩
    · exact Or.inl ⟨hu, hu.2.2.2.symm.trans hnone⟩
    · obtain ⟨f, it, _, hit, _⟩ := hfs
      rw [hnone] at hit
      exact absurd hit (by simp)

/-! ### The Delete-Remote phase invariant -/

theorem deleteRemoteGo_inv (env : Env) (L1 : List (String × LocalEntry))
    (vault0 : List (String × VFile)) (files0 : List (String × RFile))
    (manifest0 : List (String × String)) (items0 : List (String × SyncItemState))
    (hcan : env.cancelAt = none)
    (hdf : ∀ x, env.faults.deleteFail x = false) :
    ∀ (rest : List (String × SyncItemState)) (c : Ctx),
      (∀ kv ∈ rest, lookupA c.ledger.items kv.1 = some kv.2) →
      (∀ kv ∈ rest, normalizePath kv.1 = kv.1) →
      (keysA rest).Nodup →
      (∀ q, (q ∈ keysA rest → UpDone env L1 vault0 files0 manifest0 items0 c q) ∧
            (q ∉ keysA rest → DRDone env L1 vault0 files0 manifest0 items0 c q)) →
      (∀ q, DRDone env L1 vault0 files0 manifest0 items0
        (deleteRemoteGo env (keysA L1) c rest) q) ∧
      FrameEq c (deleteRemoteGo env (keysA L1) c rest) ∧
      (GoodCtx c → GoodCtx (deleteRemoteGo env (keysA L1) c rest)) ∧
      (deleteRemoteGo env (keysA L1) c rest).result.errors = c.result.errors ∧
      (deleteRemoteGo env (keysA L1) c rest).result.success = c.result.success ∧
      (deleteRemoteGo env (keysA L1) c rest).vault = c.vault
  | [], c, _, _, _, hinv => by
      refine ⟨?_, ⟨rfl, rfl, rfl, rfl, rfl, rfl⟩, fun hg => hg, rfl, rfl, rfl⟩
      intro q
      exact (hinv q).2 (by simp [keysA])
  | (p, syncItem) :: rest2, c, hlive, hknk, hnod, hinv => by
      have hstep : deleteRemoteGo env (keysA L1) c ((p, syncItem) :: rest2) =
          deleteRemoteGo env (keysA L1)
            (deleteRemoteItem env (keysA L1) { c with checks := c.checks + 1 } p syncItem)
            rest2 := by
        rw [deleteRemoteGo, checkCancel_none hcan]
        rfl
      rw [hstep]
      have hpk : p ∈ keysA ((p, syncItem) :: rest2) := by
        rw [keysA_cons]
        exact List.mem_cons_self _ _
      have hpnk : normalizePath p = p := hknk (p, syncItem) (List.mem_cons_self _ _)
      have hplive : lookupA c.ledger.items p = some syncItem :=
        hlive (p, syncItem) (List.mem_cons_self _ _)
      have hUp : UpDone env L1 vault0 files0 manifest0 items0 c p := (hinv p).1 hpk
      have hnodk : p ∉ keysA rest2 ∧ (keysA rest2).Nodup := by
        rw [keysA_cons] at hnod
        exact List.nodup_cons.mp hnod
      -- analyze the item
      have hitem : (deleteRemoteItem env (keysA L1) { c with checks := c.checks + 1 } p syncItem =
            ({ c with checks := c.checks + 1 } : Ctx) ∧
            DRDone env L1 vault0 files0 manifest0 items0
              (deleteRemoteItem env (keysA L1) { c with checks := c.checks + 1 } p syncItem) p) ∨
          (lookupA (deleteRemoteItem env (keysA L1)
              { c with checks := c.checks + 1 } p syncItem).remote.files p = none ∧
           lookupA (deleteRemoteItem env (keysA L1)
              { c with checks := c.checks + 1 } p syncItem).ledger.items p = none ∧
           manifestGet (deleteRemoteItem env (keysA L1)
              { c with checks := c.checks + 1 } p syncItem).manifest p = none ∧
           lookupA L1 p = none ∧
           (∀ q, q ≠ p →
             lookupA (deleteRemoteItem env (keysA L1)
               { c with checks := c.checks + 1 } p syncItem).remote.files q =
                 lookupA c.remote.files q ∧
             manifestGet (deleteRemoteItem env (keysA L1)
               { c with checks := c.checks + 1 } p syncItem).manifest q =
                 manifestGet c.manifest q ∧
             lookupA (deleteRemoteItem env (keysA L1)
               { c with checks := c.checks + 1 } p syncItem).ledger.items q =
                 lookupA c.ledger.items q) ∧
           (deleteRemoteItem env (keysA L1)
             { c with checks := c.checks + 1 } p syncItem).vault = c.vault ∧
           FrameEq c (deleteRemoteItem env (keysA L1)
             { c with checks := c.checks + 1 } p syncItem) ∧
           (deleteRemoteItem env (keysA L1)
             { c with checks := c.checks + 1 } p syncItem).result.errors = c.result.errors ∧
           (deleteRemoteItem env (keysA L1)
             { c with checks := c.checks + 1 } p syncItem).result.success = c.result.success ∧
           (GoodCtx c → GoodCtx (deleteRemoteItem env (keysA L1)
             { c with checks := c.checks + 1 } p syncItem))) := by
        rw [deleteRemoteItem]
        dsimp only
        by_cases hcont : (keysA L1).contains p
        · rw [if_pos hcont]
          refine Or.inl ⟨rfl, ?_⟩
          have hmem : p ∈ keysA L1 := (contains_iff_mem _ _).mp hcont
          obtain ⟨e, he⟩ := lookupA_isSome_of_mem_keys hmem
          rcases hUp with ⟨e2, he2, hcls⟩ | ⟨hnl, _⟩
          · exact Or.inl ⟨e2, he2, hcls⟩
          · rw [hnl] at he
            exact absurd he (by simp)
        · rw [if_neg hcont]
          have hnl : lookupA L1 p = none := by
            cases hl : lookupA L1 p with
            | none => rfl
            | some e =>
                exact absurd ((contains_iff_mem _ _).mpr (mem_keys_of_lookupA_eq_some hl)) hcont
          cases hmg : manifestGet c.manifest p with
          | some h =>
              by_cases hne : (h != syncItem.contentHash) = true
              · dsimp only
                rw [if_pos hne]
                refine Or.inl ⟨rfl, ?_⟩
                rcases hUp with ⟨e2, he2, _⟩ | ⟨hnl2, hcls⟩
                · rw [hnl] at he2
                  exact absurd he2 (by simp)
                · rcases hcls with hu | ⟨hfs, _⟩
                  · refine Or.inr ⟨hnl2, Or.inr (Or.inr ⟨hu, syncItem, h, ?_, ?_, ?_⟩)⟩
                    · exact hu.2.2.2.symm.trans hplive
                    · exact hu.2.2.1.symm.trans hmg
                    · exact bne_iff_ne.mp hne
                  · exfalso
                    obtain ⟨f, it, _, hit, _, _, _, hm, _⟩ := hfs
                    rw [hplive] at hit
                    injection hit with hit
                    rw [hmg] at hm
                    injection hm with hm
                    exact (bne_iff_ne.mp hne) (by rw [hm, hit])
              · dsimp only
                rw [if_neg hne, if_neg (by rw [hdf p]; exact Bool.false_ne_true)]
                refine Or.inr ⟨?_, ?_, ?_, hnl, ?_, rfl, ⟨rfl, rfl, rfl, rfl, rfl, rfl⟩,
                  rfl, rfl, ?_⟩
                · show lookupA (aeraseA c.remote.files p) p = none
                  exact lookupA_aerase_self _ _
                · show lookupA (aeraseA c.ledger.items (normalizePath p)) p = none
                  rw [hpnk]
                  exact lookupA_aerase_self _ _
                · show manifestGet (aeraseA c.manifest p) p = none
                  exact manifestGet_aerase_self _ _
                · intro q hq
                  refine ⟨?_, ?_, ?_⟩
                  · show lookupA (aeraseA c.remote.files p) q = _
                    exact lookupA_aerase_ne _ _ _ hq
                  · show manifestGet (aeraseA c.manifest p) q = _
                    exact manifestGet_aerase_ne _ _ _ hq
                  · show lookupA (aeraseA c.ledger.items (normalizePath p)) q = _
                    rw [hpnk]
                    exact lookupA_aerase_ne _ _ _ hq
                · intro hg
                  obtain ⟨g1, g2, g3, g4, g5, g6⟩ := hg
                  refine ⟨g1, WFA_aerase _ _ g2, ?_, g4, NKkeys_aerase _ _ g5, ?_⟩
                  · show WFA (aeraseA c.ledger.items (normalizePath p))
                    rw [hpnk]
                    exact WFA_aerase _ _ g3
                  · show NKkeys (aeraseA c.ledger.items (normalizePath p))
                    rw [hpnk]
                    exact NKkeys_aerase _ _ g6
          | none =>
              dsimp only
              rw [if_neg Bool.false_ne_true, if_neg (by rw [hdf p]; exact Bool.false_ne_true)]
              refine Or.inr ⟨?_, ?_, ?_, hnl, ?_, rfl, ⟨rfl, rfl, rfl, rfl, rfl, rfl⟩,
                rfl, rfl, ?_⟩
              · show lookupA (aeraseA c.remote.files p) p = none
                exact lookupA_aerase_self _ _
              · show lookupA (aeraseA c.ledger.items (normalizePath p)) p = none
                rw [hpnk]
                exact lookupA_aerase_self _ _
              · show manifestGet (aeraseA c.manifest p) p = none
                exact manifestGet_aerase_self _ _
              · intro q hq
                refine ⟨?_, ?_, ?_⟩
                · show lookupA (aeraseA c.remote.files p) q = _
                  exact lookupA_aerase_ne _ _ _ hq
                · show manifestGet (aeraseA c.manifest p) q = _
                  exact manifestGet_aerase_ne _ _ _ hq
                · show lookupA (aeraseA c.ledger.items (normalizePath p)) q = _
                  rw [hpnk]
                  exact lookupA_aerase_ne _ _ _ hq
              · intro hg
                obtain ⟨g1, g2, g3, g4, g5, g6⟩ := hg
                refine ⟨g1, WFA_aerase _ _ g2, ?_, g4, NKkeys_aerase _ _ g5, ?_⟩
                · show WFA (aeraseA c.ledger.items (normalizePath p))
                  rw [hpnk]
                  exact WFA_aerase _ _ g3
                · show NKkeys (aeraseA c.ledger.items (normalizePath p))
                  rw [hpnk]
                  exact NKkeys_aerase _ _ g6
      -- assemble: both item outcomes give the data the tail induction needs
      rcases hitem with ⟨hceq, hdone⟩ | ⟨hfn, hln, hmn, hnl, hfr, hveq, hfe, herr, hsucc, hgood⟩
      · -- item was a no-op
        rw [hceq] at hdone ⊢
        have hinv2 : ∀ q,
            (q ∈ keysA rest2 → UpDone env L1 vault0 files0 manifest0 items0
              ({ c with checks := c.checks + 1 } : Ctx) q) ∧
            (q ∉ keysA rest2 → DRDone env L1 vault0 files0 manifest0 items0
              ({ c with checks := c.checks + 1 } : Ctx) q) := by
          intro q
          constructor
          · intro hq
            exact (hinv q).1 (by rw [keysA_cons]; exact List.mem_cons_of_mem _ hq)
          · intro hq
            by_cases hqp : q = p
            · rw [hqp]
              exact hdone
            · exact (hinv q).2 (by
                rw [keysA_cons]
                intro hh
                rcases List.mem_cons.mp hh with hh | hh
                · exact hqp hh
                · exact hq hh)
        obtain ⟨ih1, ih2, ih3, ih4, ih5, ih6⟩ := deleteRemoteGo_inv env L1 vault0 files0
          manifest0 items0 hcan hdf rest2 ({ c with checks := c.checks + 1 } : Ctx)
          (fun kv hkv => hlive kv (List.mem_cons_of_mem _ hkv))
          (fun kv hkv => hknk kv (List.mem_cons_of_mem _ hkv)) hnodk.2 hinv2
        exact ⟨ih1, ih2, ih3, ih4, ih5, ih6⟩
      · -- item deleted the remote object and cleared the entry
        have hinv2 : ∀ q,
            (q ∈ keysA rest2 → UpDone env L1 vault0 files0 manifest0 items0
              (deleteRemoteItem env (keysA L1) { c with checks := c.checks + 1 } p syncItem) q) ∧
            (q ∉ keysA rest2 → DRDone env L1 vault0 files0 manifest0 items0
              (deleteRemoteItem env (keysA L1) { c with checks := c.checks + 1 } p syncItem) q) := by
          intro q
          constructor
          · intro hq
            have hqp : q ≠ p := fun hh => hnodk.1 (hh ▸ hq)
            obtain ⟨e1, e2, e3⟩ := hfr q hqp
            have hv : lookupA (deleteRemoteItem env (keysA L1)
                { c with checks := c.checks + 1 } p syncItem).vault q = lookupA c.vault q := by
              rw [hveq]
            exact UpDone_transfer env L1 _ _ _ _ _ _ q hv e1 e2 e3
              ((hinv q).1 (by rw [keysA_cons]; exact List.mem_cons_of_mem _ hq))
          · intro hq
            by_cases hqp : q = p
            · rw [hqp]
              exact Or.inr ⟨hnl, Or.inr (Or.inl ⟨hln, hmn, hfn⟩)⟩
            · obtain ⟨e1, e2, e3⟩ := hfr q hqp
              have hv : lookupA (deleteRemoteItem env (keysA L1)
                  { c with checks := c.checks + 1 } p syncItem).vault q = lookupA c.vault q := by
                rw [hveq]
              exact DRDone_transfer env L1 _ _ _ _ _ _ q hv e1 e2 e3
                ((hinv q).2 (by
                  rw [keysA_cons]
                  intro hh
                  rcases List.mem_cons.mp hh with hh | hh
                  · exact hqp hh
                  · exact hq hh))
        have hlive2 : ∀ kv ∈ rest2, lookupA (deleteRemoteItem env (keysA L1)
            { c with checks := c.checks + 1 } p syncItem).ledger.items kv.1 = some kv.2 := by
          intro kv hkv
          have hqp : kv.1 ≠ p := fun hh => hnodk.1 (hh ▸ List.mem_map.mpr ⟨kv, hkv, rfl⟩)
          rw [(hfr kv.1 hqp).2.2]
          exact hlive kv (List.mem_cons_of_mem _ hkv)
        obtain ⟨ih1, ih2, ih3, ih4, ih5, ih6⟩ := deleteRemoteGo_inv env L1 vault0 files0
          manifest0 items0 hcan hdf rest2 _
          hlive2 (fun kv hkv => hknk kv (List.mem_cons_of_mem _ hkv)) hnodk.2 hinv2
        refine ⟨ih1, FrameEq_trans hfe ih2, fun hg => ih3 (hgood hg), ?_, ?_, ?_⟩
        · rw [ih4, herr]
        · rw [ih5, hsucc]
        · rw [ih6, hveq]

/-! ### Rename detection is a no-op when every scanned path is tracked -/

theorem stepRenameDetect_nop (env : Env) (c : Ctx) (L : List (String × LocalEntry))
    (h : ∀ kv ∈ L, (lookupA c.ledger.items kv.1).isSome = true) :
    stepRenameDetect env c L = c := by
  rw [stepRenameDetect]
  dsimp only
  by_cases hdel : (c.ledger.items.filter
      (fun kv => !(keysA L).contains kv.1)).isEmpty = true
  · rw [if_pos hdel]
  · rw [if_neg hdel]
    have hnew : (L.filter (fun kv => (lookupA c.ledger.items kv.1).isNone)).isEmpty = true := by
      have : L.filter (fun kv => (lookupA c.ledger.items kv.1).isNone) = [] := by
        rw [List.filter_eq_nil_iff]
        intro kv hkv hh
        have hs := h kv hkv
        have hh' : (lookupA c.ledger.items kv.1).isNone = true := hh
        cases hl : lookupA c.ledger.items kv.1 with
        | none => rw [hl] at hs; exact absurd hs (by simp)
        | some v => rw [hl] at hh'; exact absurd hh' (by simp)
      rw [this]
      rfl
    rw [if_pos hnew]

/-! ### The first Delta loop invariant -/

theorem ManifestAgreeAt_transfer (c c' : Ctx) (q : String) (it : SyncItemState)
    (h2 : lookupA c'.remote.files q = lookupA c.remote.files q)
    (h3 : manifestGet c'.manifest q = manifestGet c.manifest q)
    (h : ManifestAgreeAt c q it) : ManifestAgreeAt c' q it := by
  rcases h with h | ⟨hm, hb⟩
  · exact Or.inl (h3.trans h)
  · exact Or.inr ⟨h3.trans hm, fun rf hrf => hb rf (h2.symm.trans hrf)⟩

theorem D1Done_transfer (env : Env) (L1 : List (String × LocalEntry))
    (vault0 : List (String × VFile)) (files0 : List (String × RFile))
    (manifest0 : List (String × String)) (items0 : List (String × SyncItemState))
    (rkeys : List String) (c c' : Ctx) (q : String)
    (h1 : lookupA c'.vault q = lookupA c.vault q)
    (h2 : lookupA c'.remote.files q = lookupA c.remote.files q)
    (h3 : manifestGet c'.manifest q = manifestGet c.manifest q)
    (h4 : lookupA c'.ledger.items q = lookupA c.ledger.items q)
    (h : D1Done env L1 vault0 files0 manifest0 items0 rkeys c q) :
    D1Done env L1 vault0 files0 manifest0 items0 rkeys c' q := by
  rcases h with hfs | ⟨e, he, it, hit, hh, hms, hv, hf, hma⟩ | ⟨hnl, hln, hcls⟩ |
    ⟨hnl, hnr, hu, hent⟩
  · exact Or.inl (FullySynced_transfer env c c' q h1 h2 h3 h4 hfs)
  · exact Or.inr (Or.inl ⟨e, he, it, h4.trans hit, hh, hms, h1.trans hv, h2.trans hf,
      fun hr => ManifestAgreeAt_transfer c c' q it h2 h3 (hma hr)⟩)
  · refine Or.inr (Or.inr (Or.inl ⟨hnl, h4.trans hln, ?_⟩))
    rcases hcls with hc | hc | hc | hc
    · exact Or.inl (h2.trans hc)
    · exact Or.inr (Or.inl hc)
    · exact Or.inr (Or.inr (Or.inl hc))
    · exact Or.inr (Or.inr (Or.inr hc))
  · exact Or.inr (Or.inr (Or.inr ⟨hnl, hnr,
      Untouched_transfer _ _ _ _ c c' q h1 h2 h3 h4 hu, hent⟩))

theorem DRDone_to_D1Done (env : Env) (L1 : List (String × LocalEntry))
    (vault0 : List (String × VFile)) (files0 : List (String × RFile))
    (manifest0 : List (String × String)) (items0 : List (String × SyncItemState))
    (rkeys : List String) (c : Ctx) (q : String)
    (hq : q ∉ rkeys)
    (h : DRDone env L1 vault0 files0 manifest0 items0 c q) :
    D1Done env L1 vault0 files0 manifest0 items0 rkeys c q := by
  rcases h with ⟨e, he, hcls⟩ | ⟨hnl, hcls⟩
  · rcases hcls with ⟨it, hit, hh, hms, hv, hf, hm⟩ | hfs
    · exact Or.inr (Or.inl ⟨e, he, it, hit, hh, hms, hv, hf, fun hr => absurd hr hq⟩)
    · exact Or.inl hfs
  · rcases hcls with ⟨hu, hi0⟩ | ⟨e1, e2, e3⟩ | ⟨hu, hent⟩
    · exact Or.inr (Or.inr (Or.inl ⟨hnl, hu.2.2.2.trans hi0,
        Or.inr (Or.inr (Or.inr hq))⟩))
    · exact Or.inr (Or.inr (Or.inl ⟨hnl, e1, Or.inl e3⟩))
    · exact Or.inr (Or.inr (Or.inr ⟨hnl, hq, hu, by
        obtain ⟨it, hh, hit, _⟩ := hent
        exact ⟨it, hit⟩⟩))

theorem deltaItem1_trans (env : Env) (L1 : List (String × LocalEntry))
    (vault0 : List (String × VFile)) (files0 : List (String × RFile))
    (manifest0 : List (String × String)) (items0 : List (String × SyncItemState))
    (rkeys : List String) (snap : List (String × SyncItemState))
    (c : Ctx) (p : String) (rf : RFile)
    (hp : normalizePath p = p)
    (hhash : ∀ s, env.hash s ≠ "")
    (hfa : env.faults = noFaults)
    (hrfp : lookupA c.remote.files p = some rf)
    (hsi : lookupA snap p = lookupA c.ledger.items p)
    (hcls : DRDone env L1 vault0 files0 manifest0 items0 c p) :
    D1Done env L1 vault0 files0 manifest0 items0 rkeys (deltaItem1 env snap L1 c p rf) p ∧
    (∀ q, q ≠ p →
      lookupA (deltaItem1 env snap L1 c p rf).vault q = lookupA c.vault q ∧
      manifestGet (deltaItem1 env snap L1 c p rf).manifest q = manifestGet c.manifest q ∧
      lookupA (deltaItem1 env snap L1 c p rf).ledger.items q = lookupA c.ledger.items q) ∧
    (deltaItem1 env snap L1 c p rf).remote.files = c.remote.files ∧
    FrameEq c (deltaItem1 env snap L1 c p rf) ∧
    (deltaItem1 env snap L1 c p rf).result.errors = c.result.errors ∧
    (deltaItem1 env snap L1 c p rf).result.success = c.result.success ∧
    (GoodCtx c → GoodCtx (deltaItem1 env snap L1 c p rf)) := by
  have hgf : env.faults.getFail p = false := by rw [hfa]; rfl
  have hwf : (match lookupA c.vault p with
      | some _ => env.faults.modifyLocalFail p
      | none => env.faults.createLocalFail p) = false := by
    cases lookupA c.vault p <;> (rw [hfa]; rfl)
  have hd := doDownload_ok env c p rf hrfp hgf hwf
  obtain ⟨hfs2, hfeq2, hfr2, hfe2, hres2, hgood2⟩ :=
    doDownload_post env c p _ hp hhash hd
  rcases hcls with ⟨e, he, hsub⟩ | ⟨hnl, hsub⟩
  · rcases hsub with ⟨it, hit, hh, hms, hv, hf, hm⟩ | hfs
    · -- tracked, locally agreeing path
      have hsip : lookupA snap p = some it := hsi.trans hit
      rw [deltaItem1]
      dsimp only
      rw [he, hsip]
      dsimp only
      have hlc : (e.hash != it.contentHash) = false := by
        rw [hh]
        simp
      rw [hlc]
      cases hmg : manifestGet c.manifest p with
      | some h =>
          dsimp only
          by_cases hne : (h != it.contentHash) = true
          · rw [if_pos (show ((h != it.contentHash) && !false) = true by rw [hne]; rfl), hd]
            dsimp only
            refine ⟨Or.inl hfs2, fun q hq => hfr2 q hq, hfeq2, ?_, ?_, ?_, hgood2⟩
            · exact ⟨hfe2.1, hfe2.2.1, hfe2.2.2.1, hfe2.2.2.2.1,
                hfe2.2.2.2.2.1, hfe2.2.2.2.2.2⟩
            · exact congrArg SyncResult.errors hres2
            · exact congrArg SyncResult.success hres2
          · have hne' : (h != it.contentHash) = false := by
              cases hb : (h != it.contentHash)
              · rfl
              · exact absurd hb hne
            rw [if_neg (show ¬(((h != it.contentHash) && !false) = true) by
              rw [hne']
              simp)]
            refine ⟨Or.inr (Or.inl ⟨e, he, it, hit, hh, hms, hv, hf, fun _ => Or.inl ?_⟩),
              fun q _ => ⟨rfl, rfl, rfl⟩, rfl, ⟨rfl, rfl, rfl, rfl, rfl, rfl⟩,
              rfl, rfl, fun hg => hg⟩
            rw [hmg]
            have hhe : h = it.contentHash := by
              by_cases hhh : h = it.contentHash
              · exact hhh
              · exact absurd (bne_iff_ne.mpr hhh) (by rw [hne']; simp)
            rw [hhe]
      | none =>
          dsimp only
          by_cases hb : (decide (it.remoteMtime + 1000 < rf.lastModified)) = true
          · rw [if_pos (show ((decide (it.remoteMtime + 1000 < rf.lastModified)) && !false) = true
              by rw [hb]; rfl), hd]
            dsimp only
            refine ⟨Or.inl hfs2, fun q hq => hfr2 q hq, hfeq2, ?_, ?_, ?_, hgood2⟩
            · exact ⟨hfe2.1, hfe2.2.1, hfe2.2.2.1, hfe2.2.2.2.1,
                hfe2.2.2.2.2.1, hfe2.2.2.2.2.2⟩
            · exact congrArg SyncResult.errors hres2
            · exact congrArg SyncResult.success hres2
          · have hb' : (decide (it.remoteMtime + 1000 < rf.lastModified)) = false := by
              cases hbb : (decide (it.remoteMtime + 1000 < rf.lastModified))
              · rfl
              · exact absurd hbb hb
            rw [if_neg (show ¬(((decide (it.remoteMtime + 1000 < rf.lastModified)) && !false) = true)
              by rw [hb']; simp)]
            refine ⟨Or.inr (Or.inl ⟨e, he, it, hit, hh, hms, hv, hf, fun _ => Or.inr ⟨hmg, ?_⟩⟩),
              fun q _ => ⟨rfl, rfl, rfl⟩, rfl, ⟨rfl, rfl, rfl, rfl, rfl, rfl⟩,
              rfl, rfl, fun hg => hg⟩
            intro rf2 hrf2 hlt
            rw [hrfp] at hrf2
            injection hrf2 with hrf2
            rw [← hrf2] at hlt
            rw [decide_eq_true hlt] at hb'
            exact absurd hb' (by simp)
    · -- fully synced path: the recorded digest agrees, nothing to do
      obtain ⟨f, it, hvf, hit, e1, e2, e3, hm, rf2, hrf2, e4⟩ := hfs
      have hsip : lookupA snap p = some it := hsi.trans hit
      rw [deltaItem1]
      dsimp only
      rw [he, hsip]
      dsimp only
      rw [hm]
      dsimp only
      rw [if_neg (show ¬(((it.contentHash != it.contentHash) &&
        !(e.hash != it.contentHash)) = true) by simp)]
      exact ⟨Or.inl ⟨f, it, hvf, hit, e1, e2, e3, hm, rf2, hrf2, e4⟩,
        fun q _ => ⟨rfl, rfl, rfl⟩, rfl, ⟨rfl, rfl, rfl, rfl, rfl, rfl⟩,
        rfl, rfl, fun hg => hg⟩
  · rcases hsub with ⟨hu, hi0⟩ | ⟨e1, e2, e3⟩ | ⟨hu, hent⟩
    · -- untouched path with no ledger entry: brand-new remote file
      have hsip : lookupA snap p = none := hsi.trans (hu.2.2.2.trans hi0)
      rw [deltaItem1]
      dsimp only
      rw [hnl, hsip]
      dsimp only
      rw [hd]
      dsimp only
      refine ⟨Or.inl hfs2, fun q hq => hfr2 q hq, hfeq2, ?_, ?_, ?_, hgood2⟩
      · exact ⟨hfe2.1, hfe2.2.1, hfe2.2.2.1, hfe2.2.2.2.1,
          hfe2.2.2.2.2.1, hfe2.2.2.2.2.2⟩
      · exact congrArg SyncResult.errors hres2
      · exact congrArg SyncResult.success hres2
    · -- cleared path cannot appear in the remote listing
      rw [e3] at hrfp
      exact absurd hrfp (by simp)
    · -- untouched diverged path: the remote moved since the ledger digest
      obtain ⟨it, h, hit0, hm0, hneq⟩ := hent
      have hsip : lookupA snap p = some it := hsi.trans (hu.2.2.2.trans hit0)
      have hmg : manifestGet c.manifest p = some h := hu.2.2.1.trans hm0
      rw [deltaItem1]
      dsimp only
      rw [hnl, hsip]
      dsimp only
      rw [hmg]
      dsimp only
      rw [if_pos (bne_iff_ne.mpr hneq : (h != it.contentHash) = true), hd]
      dsimp only
      refine ⟨Or.inl hfs2, fun q hq => hfr2 q hq, hfeq2, ?_, ?_, ?_, hgood2⟩
      · exact ⟨hfe2.1, hfe2.2.1, hfe2.2.2.1, hfe2.2.2.2.1,
          hfe2.2.2.2.2.1, hfe2.2.2.2.2.2⟩
      · exact congrArg SyncResult.errors hres2
      · exact congrArg SyncResult.success hres2

theorem deltaGo1_inv (env : Env) (L1 : List (String × LocalEntry))
    (vault0 : List (String × VFile)) (files0 : List (String × RFile))
    (manifest0 : List (String × String)) (items0 : List (String × SyncItemState))
    (rkeys : List String) (snap : List (String × SyncItemState))
    (hcan : env.cancelAt = none)
    (hhash : ∀ s, env.hash s ≠ "")
    (hfa : env.faults = noFaults) :
    ∀ (rest : List (String × RFile)) (c : Ctx),
      (∀ kv ∈ rest, lookupA c.remote.files kv.1 = some kv.2) →
      (∀ kv ∈ rest, kv.1 ∈ rkeys) →
      (∀ kv ∈ rest, normalizePath kv.1 = kv.1) →
      (keysA rest).Nodup →
      (∀ q ∈ keysA rest, lookupA snap q = lookupA c.ledger.items q) →
      (∀ q, (q ∈ keysA rest → DRDone env L1 vault0 files0 manifest0 items0 c q) ∧
            (q ∉ keysA rest → D1Done env L1 vault0 files0 manifest0 items0 rkeys c q)) →
      (∀ q, D1Done env L1 vault0 files0 manifest0 items0 rkeys
        (deltaGo1 env snap L1 c rest) q) ∧
      (deltaGo1 env snap L1 c rest).remote.files = c.remote.files ∧
      FrameEq c (deltaGo1 env snap L1 c rest) ∧
      (GoodCtx c → GoodCtx (deltaGo1 env snap L1 c rest)) ∧
      (deltaGo1 env snap L1 c rest).result.errors = c.result.errors ∧
      (deltaGo1 env snap L1 c rest).result.success = c.result.success ∧
      (∀ q, q ∉ keysA rest →
        lookupA (deltaGo1 env snap L1 c rest).vault q = lookupA c.vault q ∧
        manifestGet (deltaGo1 env snap L1 c rest).manifest q = manifestGet c.manifest q ∧
        lookupA (deltaGo1 env snap L1 c rest).ledger.items q = lookupA c.ledger.items q)
  | [], c, _, _, _, _, _, hinv => by
      refine ⟨?_, rfl, ⟨rfl, rfl, rfl, rfl, rfl, rfl⟩, fun hg => hg, rfl, rfl,
        fun q _ => ⟨rfl, rfl, rfl⟩⟩
      intro q
      exact (hinv q).2 (by simp [keysA])
  | (p, rf) :: rest2, c, hrf, hrk, hknk, hnod, hsnap, hinv => by
      have hstep : deltaGo1 env snap L1 c ((p, rf) :: rest2) =
          deltaGo1 env snap L1
            (deltaItem1 env snap L1 { c with checks := c.checks + 1 } p rf) rest2 := by
        rw [deltaGo1, checkCancel_none hcan]
        rfl
      rw [hstep]
      have hpk : p ∈ keysA ((p, rf) :: rest2) := by
        rw [keysA_cons]
        exact List.mem_cons_self _ _
      have hnodk : p ∉ keysA rest2 ∧ (keysA rest2).Nodup := by
        rw [keysA_cons] at hnod
        exact List.nodup_cons.mp hnod
      obtain ⟨hdone, hfr, hfeq, hfe, herr, hsucc, hgood⟩ :=
        deltaItem1_trans env L1 vault0 files0 manifest0 items0 rkeys snap
          { c with checks := c.checks + 1 } p rf
          (hknk (p, rf) (List.mem_cons_self _ _)) hhash hfa
          (hrf (p, rf) (List.mem_cons_self _ _))
          (hsnap p hpk)
          ((hinv p).1 hpk)
      have hrf2 : ∀ kv ∈ rest2, lookupA (deltaItem1 env snap L1
          { c with checks := c.checks + 1 } p rf).remote.files kv.1 = some kv.2 := by
        intro kv hkv
        rw [hfeq]
        exact hrf kv (List.mem_cons_of_mem _ hkv)
      have hsnap2 : ∀ q ∈ keysA rest2, lookupA snap q =
          lookupA (deltaItem1 env snap L1
            { c with checks := c.checks + 1 } p rf).ledger.items q := by
        intro q hq
        have hqp : q ≠ p := fun hh => hnodk.1 (hh ▸ hq)
        rw [(hfr q hqp).2.2]
        exact hsnap q (by rw [keysA_cons]; exact List.mem_cons_of_mem _ hq)
      have hinv2 : ∀ q,
          (q ∈ keysA rest2 → DRDone env L1 vault0 files0 manifest0 items0
            (deltaItem1 env snap L1 { c with checks := c.checks + 1 } p rf) q) ∧
          (q ∉ keysA rest2 → D1Done env L1 vault0 files0 manifest0 items0 rkeys
            (deltaItem1 env snap L1 { c with checks := c.checks + 1 } p rf) q) := by
        intro q
        constructor
        · intro hq
          have hqp : q ≠ p := fun hh => hnodk.1 (hh ▸ hq)
          obtain ⟨e1, e2, e3⟩ := hfr q hqp
          have e2' : lookupA (deltaItem1 env snap L1
              { c with checks := c.checks + 1 } p rf).remote.files q =
              lookupA c.remote.files q := by
            rw [hfeq]
          exact DRDone_transfer env L1 _ _ _ _ _ _ q e1 e2' e2 e3
            ((hinv q).1 (by rw [keysA_cons]; exact List.mem_cons_of_mem _ hq))
        · intro hq
          by_cases hqp : q = p
          · rw [hqp]
            exact hdone
          · obtain ⟨e1, e2, e3⟩ := hfr q hqp
            have e2' : lookupA (deltaItem1 env snap L1
                { c with checks := c.checks + 1 } p rf).remote.files q =
                lookupA c.remote.files q := by
              rw [hfeq]
            exact D1Done_transfer env L1 _ _ _ _ rkeys _ _ q e1 e2' e2 e3
              ((hinv q).2 (by
                rw [keysA_cons]
                intro hh
                rcases List.mem_cons.mp hh with hh | hh
                · exact hqp hh
                · exact hq hh))
      obtain ⟨ih1, ih2, ih3, ih4, ih5, ih6, ih7⟩ := deltaGo1_inv env L1 vault0 files0 manifest0
        items0 rkeys snap hcan hhash hfa rest2 _
        hrf2 (fun kv hkv => hrk kv (List.mem_cons_of_mem _ hkv))
        (fun kv hkv => hknk kv (List.mem_cons_of_mem _ hkv)) hnodk.2 hsnap2 hinv2
      refine ⟨ih1, by rw [ih2, hfeq], FrameEq_trans ?_ ih3, fun hg => ih4 (hgood hg),
        by rw [ih5, herr], by rw [ih6, hsucc], ?_⟩
      · exact ⟨hfe.1, hfe.2.1, hfe.2.2.1, hfe.2.2.2.1, hfe.2.2.2.2.1, hfe.2.2.2.2.2⟩
      · intro q hq
        have hq2 : q ∉ keysA rest2 := by
          intro hh
          exact hq (by rw [keysA_cons]; exact List.mem_cons_of_mem _ hh)
        have hqp : q ≠ p := by
          intro hh
          exact hq (by rw [hh, keysA_cons]; exact List.mem_cons_self _ _)
        obtain ⟨j1, j2, j3⟩ := ih7 q hq2
        obtain ⟨k1, k2, k3⟩ := hfr q hqp
        exact ⟨j1.trans k1, j2.trans k2, j3.trans k3⟩

/-! ### The second Delta loop invariant -/

theorem D2Done_transfer (env : Env) (L1 : List (String × LocalEntry))
    (vault0 : List (String × VFile)) (items0 : List (String × SyncItemState))
    (filesD : List (String × RFile))
    (rkeys : List String) (c c' : Ctx) (q : String)
    (h1 : lookupA c'.vault q = lookupA c.vault q)
    (h2 : lookupA c'.remote.files q = lookupA c.remote.files q)
    (h3 : manifestGet c'.manifest q = manifestGet c.manifest q)
    (h4 : lookupA c'.ledger.items q = lookupA c.ledger.items q)
    (h : D2Done env L1 vault0 items0 filesD rkeys c q) :
    D2Done env L1 vault0 items0 filesD rkeys c' q := by
  rcases h with hfs | ⟨e, it, he, hit, hh, hms, hv, hrf, hma⟩ | ⟨hln, hcls⟩
  · exact Or.inl (FullySynced_transfer env c c' q h1 h2 h3 h4 hfs)
  · refine Or.inr (Or.inl ⟨e, it, he, h4.trans hit, hh, hms, h1.trans hv, ?_, ?_⟩)
    · obtain ⟨rf, hrf'⟩ := hrf
      exact ⟨rf, h2.trans hrf'⟩
    · exact ManifestAgreeAt_transfer c c' q it h2 h3 hma
  · refine Or.inr (Or.inr ⟨h4.trans hln, ?_⟩)
    rcases hcls with hc | hc | hc | ⟨hc1, hc2⟩
    · exact Or.inl (h2.trans hc)
    · exact Or.inr (Or.inl hc)
    · exact Or.inr (Or.inr (Or.inl hc))
    · exact Or.inr (Or.inr (Or.inr ⟨hc1, h2.trans hc2⟩))

theorem D1Done_to_D2Done_noentry (env : Env) (L1 : List (String × LocalEntry))
    (vault0 : List (String × VFile)) (files0 : List (String × RFile))
    (manifest0 : List (String × String)) (items0 : List (String × SyncItemState))
    (filesD : List (String × RFile)) (rkeys : List String) (c : Ctx) (q : String)
    (hfd : lookupA c.remote.files q = lookupA filesD q)
    (hq : q ∉ keysA c.ledger.items)
    (h : D1Done env L1 vault0 files0 manifest0 items0 rkeys c q) :
    D2Done env L1 vault0 items0 filesD rkeys c q := by
  have hnone : lookupA c.ledger.items q = none := lookupA_eq_none_of_not_mem_keys _ _ hq
  rcases h with hfs | ⟨e, he, it, hit, _⟩ | ⟨hnl, hln, hcls⟩ | ⟨hnl, hnr, hu, it, hit⟩
  · obtain ⟨f, it, _, hit, _⟩ := hfs
    rw [hnone] at hit
    exact absurd hit (by simp)
  · rw [hnone] at hit
    exact absurd hit (by simp)
  · refine Or.inr (Or.inr ⟨hln, ?_⟩)
    rcases hcls with hc | hc | hc | hc
    · exact Or.inl hc
    · exact Or.inr (Or.inl hc)
    · exact Or.inr (Or.inr (Or.inl hc))
    · exact Or.inr (Or.inr (Or.inr ⟨hc, hfd⟩))
  · rw [hu.2.2.2.symm.trans hnone] at hit
    exact absurd hit (by simp)

theorem deltaItem2_trans (env : Env) (L1 : List (String × LocalEntry))
    (vault0 : List (String × VFile)) (files0 : List (String × RFile))
    (manifest0 : List (String × String)) (items0 : List (String × SyncItemState))
    (filesD : List (String × RFile)) (rkeys : List String)
    (c : Ctx) (p : String) (it : SyncItemState)
    (hp : normalizePath p = p)
    (hhash : ∀ s, env.hash s ≠ "")
    (hfa : env.faults = noFaults)
    (hlive : p ∉ rkeys → lookupA c.ledger.items p = some it)
    (hfrel : lookupA c.remote.files p = lookupA filesD p)
    (hrksome : p ∈ rkeys → ∃ rf, lookupA filesD p = some rf)
    (hcls : D1Done env L1 vault0 files0 manifest0 items0 rkeys c p) :
    D2Done env L1 vault0 items0 filesD rkeys (deltaItem2 env L1 rkeys c p it) p ∧
    (∀ q, q ≠ p →
      lookupA (deltaItem2 env L1 rkeys c p it).vault q = lookupA c.vault q ∧
      lookupA (deltaItem2 env L1 rkeys c p it).remote.files q = lookupA c.remote.files q ∧
      manifestGet (deltaItem2 env L1 rkeys c p it).manifest q = manifestGet c.manifest q ∧
      lookupA (deltaItem2 env L1 rkeys c p it).ledger.items q = lookupA c.ledger.items q) ∧
    (p ∈ rkeys → deltaItem2 env L1 rkeys c p it = c) ∧
    FrameEq c (deltaItem2 env L1 rkeys c p it) ∧
    (deltaItem2 env L1 rkeys c p it).result.errors = c.result.errors ∧
    (deltaItem2 env L1 rkeys c p it).result.success = c.result.success ∧
    (GoodCtx c → GoodCtx (deltaItem2 env L1 rkeys c p it)) := by
  rw [deltaItem2]
  by_cases hcont : rkeys.contains p
  · rw [if_pos hcont]
    have hpr : p ∈ rkeys := (contains_iff_mem _ _).mp hcont
    refine ⟨?_, fun q _ => ⟨rfl, rfl, rfl, rfl⟩, fun _ => rfl,
      ⟨rfl, rfl, rfl, rfl, rfl, rfl⟩, rfl, rfl, fun hg => hg⟩
    rcases hcls with hfs | ⟨e, he, it2, hit2, hh, hms, hv, hf, hma⟩ | ⟨hnl, hln, hcls⟩ |
      ⟨hnl, hnr, hu, hent⟩
    · exact Or.inl hfs
    · refine Or.inr (Or.inl ⟨e, it2, he, hit2, hh, hms, hv, ?_, hma hpr⟩)
      obtain ⟨rf, hrf⟩ := hrksome hpr
      exact ⟨rf, hfrel.trans hrf⟩
    · refine Or.inr (Or.inr ⟨hln, ?_⟩)
      rcases hcls with hc | hc | hc | hc
      · exact Or.inl hc
      · exact Or.inr (Or.inl hc)
      · exact Or.inr (Or.inr (Or.inl hc))
      · exact absurd hpr hc
    · exact absurd hpr hnr
  · rw [if_neg hcont]
    have hpr : p ∉ rkeys := fun hh => hcont ((contains_iff_mem _ _).mpr hh)
    cases hle : lookupA L1 p with
    | none =>
        dsimp only
        refine ⟨?_, ?_, fun hh => absurd hh hpr, ⟨rfl, rfl, rfl, rfl, rfl, rfl⟩,
          rfl, rfl, ?_⟩
        · refine Or.inr (Or.inr ⟨?_, Or.inr (Or.inr (Or.inr ⟨hpr, hfrel⟩))⟩)
          show lookupA (aeraseA c.ledger.items (normalizePath p)) p = none
          rw [hp]
          exact lookupA_aerase_self _ _
        · intro q hq
          refine ⟨rfl, rfl, ?_, ?_⟩
          · show manifestGet (aeraseA c.manifest p) q = _
            exact manifestGet_aerase_ne _ _ _ hq
          · show lookupA (aeraseA c.ledger.items (normalizePath p)) q = _
            rw [hp]
            exact lookupA_aerase_ne _ _ _ hq
        · intro hg
          obtain ⟨g1, g2, g3, g4, g5, g6⟩ := hg
          refine ⟨g1, g2, ?_, g4, g5, ?_⟩
          · show WFA (aeraseA c.ledger.items (normalizePath p))
            rw [hp]
            exact WFA_aerase _ _ g3
          · show NKkeys (aeraseA c.ledger.items (normalizePath p))
            rw [hp]
            exact NKkeys_aerase _ _ g6
    | some lf =>
        dsimp only
        by_cases hlc : (lf.hash != it.contentHash) = true
        · rw [if_pos hlc]
          -- the local copy moved: only a fully synced path can be here
          have hfs : FullySynced env c p := by
            rcases hcls with hfs | ⟨e, he, it2, hit2, hh, hv, hf, hma⟩ | ⟨hnl, _, _⟩ |
              ⟨hnl, _, _, _⟩
            · exact hfs
            · exfalso
              have hlive' := hlive hpr
              rw [hle] at he
              injection he with he
              rw [hit2] at hlive'
              injection hlive' with hlive'
              rw [← he, hlive'] at hh
              exact (bne_iff_ne.mp hlc) hh
            · rw [hnl] at hle
              exact absurd hle (by simp)
            · rw [hnl] at hle
              exact absurd hle (by simp)
          obtain ⟨f, it2, hvf, hit2, e1, e2, e3, hm, rf2, hrf2, e4⟩ := hfs
          have hrl : env.faults.readLocalFail p = false := by rw [hfa]; rfl
          have hpf : env.faults.putFail p = false := by rw [hfa]; rfl
          have hd := doUpload_ok env c p f hvf hrl hpf
          obtain ⟨hfs2, hveq2, hfr2, hfe2, hres2, hgood2⟩ :=
            doUpload_post env c p _ hp hhash hd
          rw [hd]
          dsimp only
          refine ⟨Or.inl hfs2, ?_, fun hh => absurd hh hpr, ?_, ?_, ?_, hgood2⟩
          · intro q hq
            exact ⟨by rw [hveq2], (hfr2 q hq).1, (hfr2 q hq).2.1, (hfr2 q hq).2.2⟩
          · exact ⟨hfe2.1, hfe2.2.1, hfe2.2.2.1, hfe2.2.2.2.1,
              hfe2.2.2.2.2.1, hfe2.2.2.2.2.2⟩
          · exact congrArg SyncResult.errors hres2
          · exact congrArg SyncResult.success hres2
        · have hlc' : (lf.hash != it.contentHash) = false := by
            cases hb : (lf.hash != it.contentHash)
            · rfl
            · exact absurd hb hlc
          rw [if_neg (by rw [hlc']; exact Bool.false_ne_true)]
          have hdlf : env.faults.deleteLocalFail p = false := by rw [hfa]; rfl
          cases hv : lookupA c.vault p with
          | some f =>
              dsimp only
              rw [if_neg (by rw [hdlf]; exact Bool.false_ne_true)]
              refine ⟨?_, ?_, fun hh => absurd hh hpr, ⟨rfl, rfl, rfl, rfl, rfl, rfl⟩,
                rfl, rfl, ?_⟩
              · refine Or.inr (Or.inr ⟨?_, Or.inr (Or.inr (Or.inr ⟨hpr, hfrel⟩))⟩)
                show lookupA (aeraseA c.ledger.items (normalizePath p)) p = none
                rw [hp]
                exact lookupA_aerase_self _ _
              · intro q hq
                refine ⟨?_, rfl, ?_, ?_⟩
                · show lookupA (aeraseA c.vault p) q = _
                  exact lookupA_aerase_ne _ _ _ hq
                · show manifestGet (aeraseA c.manifest p) q = _
                  exact manifestGet_aerase_ne _ _ _ hq
                · show lookupA (aeraseA c.ledger.items (normalizePath p)) q = _
                  rw [hp]
                  exact lookupA_aerase_ne _ _ _ hq
              · intro hg
                obtain ⟨g1, g2, g3, g4, g5, g6⟩ := hg
                refine ⟨WFA_aerase _ _ g1, g2, ?_, NKkeys_aerase _ _ g4, g5, ?_⟩
                · show WFA (aeraseA c.ledger.items (normalizePath p))
                  rw [hp]
                  exact WFA_aerase _ _ g3
                · show NKkeys (aeraseA c.ledger.items (normalizePath p))
                  rw [hp]
                  exact NKkeys_aerase _ _ g6
          | none =>
              dsimp only
              refine ⟨?_, ?_, fun hh => absurd hh hpr, ⟨rfl, rfl, rfl, rfl, rfl, rfl⟩,
                rfl, rfl, ?_⟩
              · refine Or.inr (Or.inr ⟨?_, Or.inr (Or.inr (Or.inr ⟨hpr, hfrel⟩))⟩)
                show lookupA (aeraseA c.ledger.items (normalizePath p)) p = none
                rw [hp]
                exact lookupA_aerase_self _ _
              · intro q hq
                refine ⟨rfl, rfl, ?_, ?_⟩
                · show manifestGet (aeraseA c.manifest p) q = _
                  exact manifestGet_aerase_ne _ _ _ hq
                · show lookupA (aeraseA c.ledger.items (normalizePath p)) q = _
                  rw [hp]
                  exact lookupA_aerase_ne _ _ _ hq
              · intro hg
                obtain ⟨g1, g2, g3, g4, g5, g6⟩ := hg
                refine ⟨g1, g2, ?_, g4, g5, ?_⟩
                · show WFA (aeraseA c.ledger.items (normalizePath p))
                  rw [hp]
                  exact WFA_aerase _ _ g3
                · show NKkeys (aeraseA c.ledger.items (normalizePath p))
                  rw [hp]
                  exact NKkeys_aerase _ _ g6

theorem deltaGo2_inv (env : Env) (L1 : List (String × LocalEntry))
    (vault0 : List (String × VFile)) (files0 : List (String × RFile))
    (manifest0 : List (String × String)) (items0 : List (String × SyncItemState))
    (filesD : List (String × RFile)) (rkeys : List String)
    (hcan : env.cancelAt = none)
    (hhash : ∀ s, env.hash s ≠ "")
    (hfa : env.faults = noFaults)
    (hrksome : ∀ q ∈ rkeys, ∃ rf, lookupA filesD q = some rf) :
    ∀ (rest : List (String × SyncItemState)) (c : Ctx),
      (∀ kv ∈ rest, kv.1 ∉ rkeys → lookupA c.ledger.items kv.1 = some kv.2) →
      (∀ kv ∈ rest, normalizePath kv.1 = kv.1) →
      (keysA rest).Nodup →
      (∀ kv ∈ rest, lookupA c.remote.files kv.1 = lookupA filesD kv.1) →
      (∀ q, (q ∈ keysA rest → D1Done env L1 vault0 files0 manifest0 items0 rkeys c q) ∧
            (q ∉ keysA rest → D2Done env L1 vault0 items0 filesD rkeys c q)) →
      (∀ q, D2Done env L1 vault0 items0 filesD rkeys (deltaGo2 env L1 rkeys c rest) q) ∧
      FrameEq c (deltaGo2 env L1 rkeys c rest) ∧
      (GoodCtx c → GoodCtx (deltaGo2 env L1 rkeys c rest)) ∧
      (deltaGo2 env L1 rkeys c rest).result.errors = c.result.errors ∧
      (deltaGo2 env L1 rkeys c rest).result.success = c.result.success
  | [], c, _, _, _, _, hinv => by
      refine ⟨?_, ⟨rfl, rfl, rfl, rfl, rfl, rfl⟩, fun hg => hg, rfl, rfl⟩
      intro q
      exact (hinv q).2 (by simp [keysA])
  | (p, it) :: rest2, c, hlive, hknk, hnod, hfrel, hinv => by
      have hstep : deltaGo2 env L1 rkeys c ((p, it) :: rest2) =
          deltaGo2 env L1 rkeys
            (deltaItem2 env L1 rkeys { c with checks := c.checks + 1 } p it) rest2 := by
        rw [deltaGo2, checkCancel_none hcan]
        rfl
      rw [hstep]
      have hpk : p ∈ keysA ((p, it) :: rest2) := by
        rw [keysA_cons]
        exact List.mem_cons_self _ _
      have hnodk : p ∉ keysA rest2 ∧ (keysA rest2).Nodup := by
        rw [keysA_cons] at hnod
        exact List.nodup_cons.mp hnod
      obtain ⟨hdone, hfr, hskip, hfe, herr, hsucc, hgood⟩ :=
        deltaItem2_trans env L1 vault0 files0 manifest0 items0 filesD rkeys
          { c with checks := c.checks + 1 } p it
          (hknk (p, it) (List.mem_cons_self _ _)) hhash hfa
          (fun hh => hlive (p, it) (List.mem_cons_self _ _) hh)
          (hfrel (p, it) (List.mem_cons_self _ _))
          (fun hh => hrksome p hh)
          ((hinv p).1 hpk)
      have hlive2 : ∀ kv ∈ rest2, kv.1 ∉ rkeys → lookupA (deltaItem2 env L1 rkeys
          { c with checks := c.checks + 1 } p it).ledger.items kv.1 = some kv.2 := by
        intro kv hkv hkr
        have hqp : kv.1 ≠ p := fun hh => hnodk.1 (hh ▸ List.mem_map.mpr ⟨kv, hkv, rfl⟩)
        rw [(hfr kv.1 hqp).2.2.2]
        exact hlive kv (List.mem_cons_of_mem _ hkv) hkr
      have hfrel2 : ∀ kv ∈ rest2, lookupA (deltaItem2 env L1 rkeys
          { c with checks := c.checks + 1 } p it).remote.files kv.1 =
          lookupA filesD kv.1 := by
        intro kv hkv
        have hqp : kv.1 ≠ p := fun hh => hnodk.1 (hh ▸ List.mem_map.mpr ⟨kv, hkv, rfl⟩)
        rw [(hfr kv.1 hqp).2.1]
        exact hfrel kv (List.mem_cons_of_mem _ hkv)
      have hinv2 : ∀ q,
          (q ∈ keysA rest2 → D1Done env L1 vault0 files0 manifest0 items0 rkeys
            (deltaItem2 env L1 rkeys { c with checks := c.checks + 1 } p it) q) ∧
          (q ∉ keysA rest2 → D2Done env L1 vault0 items0 filesD rkeys
            (deltaItem2 env L1 rkeys { c with checks := c.checks + 1 } p it) q) := by
        intro q
        constructor
        · intro hq
          have hqp : q ≠ p := fun hh => hnodk.1 (hh ▸ hq)
          obtain ⟨e1, e2, e3, e4⟩ := hfr q hqp
          exact D1Done_transfer env L1 _ _ _ _ rkeys _ _ q e1 e2 e3 e4
            ((hinv q).1 (by rw [keysA_cons]; exact List.mem_cons_of_mem _ hq))
        · intro hq
          by_cases hqp : q = p
          · rw [hqp]
            exact hdone
          · obtain ⟨e1, e2, e3, e4⟩ := hfr q hqp
            exact D2Done_transfer env L1 _ _ _ rkeys _ _ q e1 e2 e3 e4
              ((hinv q).2 (by
                rw [keysA_cons]
                intro hh
                rcases List.mem_cons.mp hh with hh | hh
                · exact hqp hh
                · exact hq hh))
      obtain ⟨ih1, ih2, ih3, ih4, ih5⟩ := deltaGo2_inv env L1 vault0 files0 manifest0
        items0 filesD rkeys hcan hhash hfa hrksome rest2 _
        hlive2 (fun kv hkv => hknk kv (List.mem_cons_of_mem _ hkv)) hnodk.2 hfrel2 hinv2
      refine ⟨ih1, FrameEq_trans ?_ ih2, fun hg => ih3 (hgood hg),
        by rw [ih4, herr], by rw [ih5, hsucc]⟩
      exact ⟨hfe.1, hfe.2.1, hfe.2.2.1, hfe.2.2.2.1, hfe.2.2.2.2.1, hfe.2.2.2.2.2⟩

/-! ### The clean-run equation for a fault-free, uncancelled cycle -/

theorem syncCore_clean (env : Env) (e : EngineState) (w : World)
    (hconn : env.connected = true)
    (hcan : env.cancelAt = none)
    (hfa : env.faults = noFaults)
    (hacq : (acquireSyncLock env (loadSyncState e.stateData w.persistedLedger).deviceId
      w.remote).1 = true) :
    syncCore env e w =
      ⟨(loadSyncState e.stateData w.persistedLedger).deviceId, true,
       { (cleanPipeline env (loadSyncState e.stateData w.persistedLedger)
           w.vault w.remote).ledger with lastSyncTime := env.now },
       (cleanPipeline env (loadSyncState e.stateData w.persistedLedger)
         w.vault w.remote).vault,
       { (cleanPipeline env (loadSyncState e.stateData w.persistedLedger)
           w.vault w.remote).remote with
         manifestFile := some (cleanPipeline env
           (loadSyncState e.stateData w.persistedLedger) w.vault w.remote).manifest },
       some (Except.ok { (cleanPipeline env (loadSyncState e.stateData w.persistedLedger)
           w.vault w.remote).ledger with lastSyncTime := env.now }),
       (cleanPipeline env (loadSyncState e.stateData w.persistedLedger)
         w.vault w.remote).result⟩ := by
  have hm : env.faults.mkdirFail = false := by rw [hfa]; rfl
  have hr : env.faults.reloadFail = false := by rw [hfa]; rfl
  have hl : env.faults.listFail = false := by rw [hfa]; rfl
  have hmp : env.faults.manifestPutFail = false := by rw [hfa]; rfl
  have hss : env.faults.saveStateFail = false := by rw [hfa]; rfl
  unfold syncCore
  rw [if_neg (by simp [hconn])]
  dsimp only
  rw [if_neg (by simp [hm]), if_neg (by simp [hr]), checkCancel_none hcan]
  dsimp only
  rw [if_neg (by simp : ¬ (false = true)), if_neg (by simp [hacq]), checkCancel_none hcan]
  dsimp only
  rw [if_neg (by simp : ¬ (false = true)), checkCancel_none hcan]
  dsimp only
  rw [if_neg (by simp : ¬ (false = true)), checkCancel_none hcan]
  dsimp only
  rw [if_neg (by simp : ¬ (false = true)), checkCancel_none hcan]
  dsimp only
  rw [if_neg (by simp : ¬ (false = true)), checkCancel_none hcan]
  dsimp only
  rw [if_neg (by simp : ¬ (false = true)), if_neg (by simp [hl])]
  rw [if_neg (show ¬(env.faults.manifestPutFail = true) by simp [hmp]),
    if_neg (show ¬(env.faults.saveStateFail = true) by simp [hss])]
  rfl

/-! ### Assembling the per-path guarantees of one clean cycle -/

theorem acquireWriteLock_frame (env : Env) (d : String) (r : Remote) :
    (acquireWriteLock env d r).2.files = r.files ∧
    (acquireWriteLock env d r).2.manifestFile = r.manifestFile ∧
    (acquireWriteLock env d r).2.exclusiveLock = r.exclusiveLock := by
  rw [acquireWriteLock]
  by_cases h1 : env.faults.lockMkdirFail
  · rw [if_pos h1]; exact ⟨rfl, rfl, rfl⟩
  · rw [if_neg h1]
    by_cases h2 : env.faults.lockPutFail
    · rw [if_pos h2]; exact ⟨rfl, rfl, rfl⟩
    · rw [if_neg h2]; exact ⟨rfl, rfl, rfl⟩

theorem acquireSyncLock_frame (env : Env) (d : String) (r : Remote) :
    (acquireSyncLock env d r).2.files = r.files ∧
    (acquireSyncLock env d r).2.manifestFile = r.manifestFile ∧
    (acquireSyncLock env d r).2.exclusiveLock = r.exclusiveLock := by
  rw [acquireSyncLock]
  by_cases h1 : env.faults.lockGetFail
  · rw [if_pos h1]; exact ⟨rfl, rfl, rfl⟩
  · rw [if_neg h1]
    cases hx : r.exclusiveLock with
    | none =>
        dsimp only
        obtain ⟨f1, f2, f3⟩ := acquireWriteLock_frame env d r
        exact ⟨f1, f2, f3.trans hx⟩
    | some el =>
        cases el with
        | error u =>
            dsimp only
            exact ⟨rfl, rfl, hx⟩
        | ok lock =>
            dsimp only
            by_cases h2 : env.now < lock.expiresAt
            · rw [if_pos h2]
              exact ⟨rfl, rfl, hx⟩
            · rw [if_neg h2]
              obtain ⟨f1, f2, f3⟩ := acquireWriteLock_frame env d r
              exact ⟨f1, f2, f3.trans hx⟩

theorem D2Done_to_CycleDone (env : Env) (L1 : List (String × LocalEntry))
    (vault0 : List (String × VFile)) (items0 : List (String × SyncItemState))
    (filesD : List (String × RFile))
    (c : Ctx) (q : String)
    (h : D2Done env L1 vault0 items0 filesD (keysA (scanRemoteFiles filesD)) c q) :
    CycleDone env L1 vault0 items0 c q := by
  rcases h with hfs | h2 | ⟨hln, hcls⟩
  · exact Or.inl hfs
  · exact Or.inr (Or.inl h2)
  · refine Or.inr (Or.inr ⟨hln, ?_⟩)
    rcases hcls with hc | hc | hc | ⟨hnr, hfd⟩
    · exact Or.inl hc
    · exact Or.inr (Or.inl hc)
    · exact Or.inr (Or.inr hc)
    · cases hval : lookupA filesD q with
      | none => exact Or.inl (hfd.trans hval)
      | some rf =>
          by_cases hint : isInternalFile q = true
          · exact Or.inr (Or.inl hint)
          · by_cases hqe : q = ""
            · exact Or.inr (Or.inr hqe)
            · exfalso
              apply hnr
              refine scanRemoteFiles_mem_keys filesD q
                (mem_keys_of_lookupA_eq_some hval) ?_ hqe
              cases hb : isInternalFile q
              · rfl
              · exact absurd hb hint

theorem cleanPipeline_spec (env : Env) (st1 : SyncStateData)
    (vault0 : List (String × VFile)) (remote0 : Remote)
    (hcan : env.cancelAt = none)
    (hhash : ∀ s, env.hash s ≠ "")
    (hfa : env.faults = noFaults)
    (hWFv : WFA vault0) (hNKv : NKkeys vault0)
    (hWFf : WFA remote0.files) (hNKf : NKkeys remote0.files)
    (hWFi : WFA st1.items) (hNKi : NKkeys st1.items)
    (herr : (cleanPipeline env st1 vault0 remote0).result.errors = []) :
    (∀ q, CycleDone env (scanLocalFiles env st1 vault0) vault0 st1.items
      (cleanPipeline env st1 vault0 remote0) q) ∧
    GoodCtx (cleanPipeline env st1 vault0 remote0) ∧
    (cleanPipeline env st1 vault0 remote0).ledger.version = st1.version ∧
    (cleanPipeline env st1 vault0 remote0).ledger.deviceId = st1.deviceId ∧
    (cleanPipeline env st1 vault0 remote0).remote.exclusiveLock = remote0.exclusiveLock ∧
    (cleanPipeline env st1 vault0 remote0).result.success = true ∧
    (cleanPipeline env st1 vault0 remote0).result.errors = [] := by
  obtain ⟨af1, af2, af3⟩ := acquireSyncLock_frame env st1.deviceId remote0
  set acq := acquireSyncLock env st1.deviceId remote0 with hacqdef
  set m0 := (if env.faults.manifestGetFail then [] else acq.2.manifestFile.getD [])
    with hm0def
  set c5 : Ctx := ⟨vault0, acq.2, st1, m0, emptyResult, [], 3⟩ with hc5def
  set L1 := scanLocalFiles env st1 vault0 with hL1def
  set c6 := stepUpload env c5 L1 with hc6def
  set c7 : Ctx := { c6 with checks := c6.checks + 1 } with hc7def
  set c8 := stepRenameDetect env c7 L1 with hc8def
  set c9 : Ctx := { c8 with checks := c8.checks + 1 } with hc9def
  set c10 := stepDeleteRemote env c9 L1 with hc10def
  set c11 : Ctx := { c10 with checks := c10.checks + 1 } with hc11def
  set R := scanRemoteFiles c11.remote.files with hRdef
  have hcf : cleanPipeline env st1 vault0 remote0 = stepDelta env c11 L1 R := rfl
  rw [hcf] at herr ⊢
  -- error budget: every phase keeps the error list empty
  obtain ⟨hs4, δ4, he4⟩ := stepDelta_mono env c11 L1 R
  have h11e : c11.result.errors = [] ∧ δ4 = [] := by
    apply List.append_eq_nil.mp
    rw [← he4]
    exact herr
  obtain ⟨hs3, δ3, he3⟩ := stepDeleteRemote_mono env c9 L1
  have h9e : c9.result.errors = [] ∧ δ3 = [] := by
    apply List.append_eq_nil.mp
    rw [← he3]
    exact h11e.1
  obtain ⟨hs2r, he2⟩ := stepRenameDetect_result env c7 L1
  have h7e : c7.result.errors = [] := by
    rw [← he2]
    exact h9e.1
  have herrUp : (stepUpload env c5 L1).result.errors = c5.result.errors := by
    rw [← hc6def]
    exact h7e
  -- the Upload phase invariant
  have hrest1 : ∀ kv ∈ L1, lookupA L1 kv.1 = some kv.2 := by
    intro kv hkv
    exact lookupA_of_mem_WFA L1 (scanLocalFiles_WFA env st1 vault0) kv.1 kv.2
      (by rw [← Prod.mk.eta (p := kv)] at hkv; exact hkv)
  have hvnk : ∀ kv ∈ vault0, normalizePath kv.1 = kv.1 := by
    intro kv hkv
    exact hNKv kv.1 (List.mem_map.mpr ⟨kv, hkv, rfl⟩)
  have hL1sub : ∀ q ∈ keysA L1, q ∈ keysA vault0 := by
    intro q hq
    exact scanLocalFiles_keys_sub env st1 vault0 hvnk q hq
  have hL1nk : ∀ q ∈ keysA L1, normalizePath q = q :=
    scanLocalFiles_keys_normalized env st1 vault0
  have hinv1 : ∀ q, (q ∈ keysA L1 → Untouched vault0 acq.2.files m0 st1.items c5 q) ∧
      (q ∉ keysA L1 → UpDone env L1 vault0 acq.2.files m0 st1.items c5 q) := by
    intro q
    constructor
    · intro _
      exact ⟨rfl, rfl, rfl, rfl⟩
    · intro hq
      exact Or.inr ⟨lookupA_eq_none_of_not_mem_keys _ _ hq, Or.inl ⟨rfl, rfl, rfl, rfl⟩⟩
  obtain ⟨hU, hfe56, hgood56⟩ := stepUploadGo_inv env L1 vault0 acq.2.files m0 st1.items
    hcan hhash hL1sub hL1nk L1 c5 hrest1 (scanLocalFiles_WFA env st1 vault0) hinv1 herrUp
  have hgood5 : GoodCtx c5 := by
    refine ⟨hWFv, ?_, hWFi, hNKv, ?_, hNKi⟩
    · show WFA acq.2.files
      rw [af1]
      exact hWFf
    · show NKkeys acq.2.files
      rw [af1]
      exact hNKf
  have hgood6 : GoodCtx c6 := hgood56 hgood5
  -- rename detection is a no-op
  have hc8nop : c8 = c7 := by
    rw [hc8def]
    apply stepRenameDetect_nop
    intro kv hkv
    rcases hU kv.1 with ⟨e, he, hcls⟩ | ⟨hnl, _⟩
    · rcases hcls with ⟨it, hit, _⟩ | ⟨f, it, _, hit, _⟩
      · show (lookupA (stepUploadGo env st1.items c5 L1).ledger.items kv.1).isSome = true
        rw [hit]
        rfl
      · show (lookupA (stepUploadGo env st1.items c5 L1).ledger.items kv.1).isSome = true
        rw [hit]
        rfl
    · rw [hrest1 kv hkv] at hnl
      exact absurd hnl (by simp)
  -- the Delete-Remote phase invariant
  have hdf : ∀ x, env.faults.deleteFail x = false := by
    intro x
    rw [hfa]
    rfl
  have hlive9 : ∀ kv ∈ c9.ledger.items, lookupA c9.ledger.items kv.1 = some kv.2 := by
    intro kv hkv
    rw [hc9def, hc8nop]
    rw [hc9def, hc8nop] at hkv
    exact lookupA_of_mem_WFA _ hgood6.2.2.1 kv.1 kv.2
      (by rw [← Prod.mk.eta (p := kv)] at hkv; exact hkv)
  have hknk9 : ∀ kv ∈ c9.ledger.items, normalizePath kv.1 = kv.1 := by
    intro kv hkv
    rw [hc9def, hc8nop] at hkv
    exact hgood6.2.2.2.2.2 kv.1 (List.mem_map.mpr ⟨kv, hkv, rfl⟩)
  have hnod9 : (keysA c9.ledger.items).Nodup := by
    rw [hc9def, hc8nop]
    exact hgood6.2.2.1
  have hinv9 : ∀ q, (q ∈ keysA c9.ledger.items →
      UpDone env L1 vault0 acq.2.files m0 st1.items c9 q) ∧
      (q ∉ keysA c9.ledger.items →
      DRDone env L1 vault0 acq.2.files m0 st1.items c9 q) := by
    intro q
    have hU9 : UpDone env L1 vault0 acq.2.files m0 st1.items c9 q := by
      rw [hc9def, hc8nop]
      exact hU q
    constructor
    · intro _
      exact hU9
    · intro hq
      apply UpDone_to_DRDone
      · exact hq
      · exact hU9
  obtain ⟨hDR, hfe910, hgood910, herr910, hsucc910, hv910⟩ :=
    deleteRemoteGo_inv env L1 vault0 acq.2.files m0 st1.items hcan hdf
      c9.ledger.items c9 hlive9 hknk9 hnod9 hinv9
  have hc10eq : c10 = deleteRemoteGo env (keysA L1) c9 c9.ledger.items := by
    rw [hc10def]
    rfl
  have hgood9 : GoodCtx c9 := by
    rw [hc9def, hc8nop]
    exact hgood6
  have hgood10 : GoodCtx c10 := by
    rw [hc10eq]
    exact hgood910 hgood9
  -- the Delta phase: first loop
  have hrfR : ∀ kv ∈ R, lookupA c11.remote.files kv.1 = some kv.2 := by
    intro kv hkv
    have := scanRemoteFiles_mem_spec c11.remote.files
      (by show WFA c10.remote.files; exact hgood10.2.1) kv.1 kv.2
      (by rw [← Prod.mk.eta (p := kv)] at hkv; rw [hRdef] at hkv; exact hkv)
    exact this.1
  have hrkR : ∀ kv ∈ R, kv.1 ∈ keysA R := by
    intro kv hkv
    exact List.mem_map.mpr ⟨kv, hkv, rfl⟩
  have hknkR : ∀ kv ∈ R, normalizePath kv.1 = kv.1 := by
    intro kv hkv
    have hmem : kv.1 ∈ keysA c11.remote.files :=
      mem_keys_of_lookupA_eq_some (hrfR kv hkv)
    show normalizePath kv.1 = kv.1
    exact hgood10.2.2.2.2.1 kv.1 hmem
  have hinvR : ∀ q, (q ∈ keysA R →
      DRDone env L1 vault0 acq.2.files m0 st1.items c11 q) ∧
      (q ∉ keysA R →
      D1Done env L1 vault0 acq.2.files m0 st1.items (keysA R) c11 q) := by
    intro q
    have hDR11 : DRDone env L1 vault0 acq.2.files m0 st1.items c11 q := by
      rw [hc11def, hc10eq]
      exact hDR q
    constructor
    · intro _
      exact hDR11
    · intro hq
      exact DRDone_to_D1Done env L1 vault0 acq.2.files m0 st1.items (keysA R) c11 q hq hDR11
  obtain ⟨hD1, hfqR, hfeR, hgoodR, herrR, hsuccR, hoffR⟩ :=
    deltaGo1_inv env L1 vault0 acq.2.files m0 st1.items (keysA R) c11.ledger.items
      hcan hhash hfa R c11 hrfR hrkR hknkR
      (by rw [hRdef]; exact scanRemoteFiles_WFA c11.remote.files)
      (fun q _ => rfl) hinvR
  have hgood11 : GoodCtx c11 := by
    rw [hc11def, hc10eq]
    exact hgood910 hgood9
  set g1 := deltaGo1 env c11.ledger.items L1 c11 R with hg1def
  -- the Delta phase: second loop
  have hrksome : ∀ q ∈ keysA R, ∃ rf, lookupA c11.remote.files q = some rf := by
    intro q hq
    obtain ⟨kv, hkv, hkq⟩ := List.mem_map.mp hq
    exact ⟨kv.2, hkq ▸ hrfR kv hkv⟩
  have hlive2 : ∀ kv ∈ c11.ledger.items, kv.1 ∉ keysA R →
      lookupA g1.ledger.items kv.1 = some kv.2 := by
    intro kv hkv hkr
    rw [(hoffR kv.1 hkr).2.2]
    exact lookupA_of_mem_WFA _ hgood11.2.2.1 kv.1 kv.2
      (by rw [← Prod.mk.eta (p := kv)] at hkv; exact hkv)
  have hknk2 : ∀ kv ∈ c11.ledger.items, normalizePath kv.1 = kv.1 := by
    intro kv hkv
    exact hgood11.2.2.2.2.2 kv.1 (List.mem_map.mpr ⟨kv, hkv, rfl⟩)
  have hfrel2 : ∀ kv ∈ c11.ledger.items,
      lookupA g1.remote.files kv.1 = lookupA c11.remote.files kv.1 := by
    intro kv hkv
    rw [hfqR]
  have hinv2 : ∀ q, (q ∈ keysA c11.ledger.items →
      D1Done env L1 vault0 acq.2.files m0 st1.items (keysA R) g1 q) ∧
      (q ∉ keysA c11.ledger.items →
      D2Done env L1 vault0 st1.items c11.remote.files (keysA R) g1 q) := by
    intro q
    constructor
    · intro _
      exact hD1 q
    · intro hq
      have hnone : lookupA c11.ledger.items q = none :=
        lookupA_eq_none_of_not_mem_keys _ _ hq
      rcases hD1 q with hfs | ⟨e, he, it, hit, hh, hms, hv, hf, hma⟩ | ⟨hnl, hln, hcls⟩ |
        ⟨hnl, hnr, hu, it, hit⟩
      · exact Or.inl hfs
      · by_cases hqR : q ∈ keysA R
        · refine Or.inr (Or.inl ⟨e, it, he, hit, hh, hms, hv, ?_, hma hqR⟩)
          obtain ⟨rf, hrf⟩ := hrksome q hqR
          refine ⟨rf, ?_⟩
          rw [hfqR]
          exact hrf
        · exfalso
          rw [(hoffR q hqR).2.2, hnone] at hit
          exact absurd hit (by simp)
      · refine Or.inr (Or.inr ⟨hln, ?_⟩)
        rcases hcls with hc | hc | hc | hc
        · exact Or.inl hc
        · exact Or.inr (Or.inl hc)
        · exact Or.inr (Or.inr (Or.inl hc))
        · exact Or.inr (Or.inr (Or.inr ⟨hc, by rw [hfqR]⟩))
      · exfalso
        have h1 : lookupA g1.ledger.items q = some it := hu.2.2.2.trans hit
        rw [(hoffR q hnr).2.2, hnone] at h1
        exact absurd h1 (by simp)
  obtain ⟨hD2, hfe2X, hgood2X, herr2X, hsucc2X⟩ :=
    deltaGo2_inv env L1 vault0 acq.2.files m0 st1.items c11.remote.files (keysA R)
      hcan hhash hfa hrksome c11.ledger.items g1 hlive2 hknk2 hgood11.2.2.1 hfrel2 hinv2
  have hfinal : stepDelta env c11 L1 R = deltaGo2 env L1 (keysA R) g1 c11.ledger.items :=
    rfl
  rw [hfinal]
  -- frame chain from the phase entry
  have hfe78 : FrameEq c7 c8 := by
    rw [hc8nop]
    exact ⟨rfl, rfl, rfl, rfl, rfl, rfl⟩
  have hfe5X : FrameEq c5 (deltaGo2 env L1 (keysA R) g1 c11.ledger.items) := by
    apply FrameEq_trans (b := g1)
    · apply FrameEq_trans (b := c11)
      · apply FrameEq_trans (b := c9)
        · apply FrameEq_trans (b := c7)
          · exact hfe56
          · exact hfe78
        · rw [hc10eq] at hc11def
          rw [hc11def]
          exact ⟨hfe910.1, hfe910.2.1, hfe910.2.2.1, hfe910.2.2.2.1,
            hfe910.2.2.2.2.1, hfe910.2.2.2.2.2⟩
      · exact hfeR
    · exact hfe2X
  refine ⟨?_, ?_, ?_, ?_, ?_, ?_, ?_⟩
  · intro q
    apply D2Done_to_CycleDone env L1 vault0 st1.items c11.remote.files
    rw [← hRdef]
    exact hD2 q
  · exact hgood2X (hgoodR hgood11)
  · exact hfe5X.1
  · exact hfe5X.2.1
  · rw [hfe5X.2.2.2.1]
    show acq.2.exclusiveLock = remote0.exclusiveLock
    exact af3
  · rw [hsucc2X, hsuccR]
    show c10.result.success = true
    rw [hc10eq, hsucc910]
    show c8.result.success = true
    rw [hc8nop]
    show (stepUpload env c5 L1).result.success = true
    rw [(stepUpload_mono env c5 L1).1]
    rfl
  · rw [herr2X, herrR]
    show c10.result.errors = []
    rw [hc10eq, herr910]
    exact h9e.1

/-! ### Quiescence of a cycle over an already reconciled world -/

theorem stepUploadGo_skip (env : Env) (snapshot : List (String × SyncItemState))
    (hcan : env.cancelAt = none) :
    ∀ (l : List (String × LocalEntry)) (c : Ctx),
      (∀ kv ∈ l, ∃ it, lookupA snapshot kv.1 = some it ∧ kv.2.hash = it.contentHash) →
      ∃ n, stepUploadGo env snapshot c l = { c with checks := n }
  | [], c, _ => ⟨c.checks, rfl⟩
  | (p, lf) :: rest, c, h => by
      obtain ⟨it, hit, hh⟩ := h (p, lf) (List.mem_cons_self _ _)
      have hstep : stepUploadGo env snapshot c ((p, lf) :: rest) =
          stepUploadGo env snapshot
            (uploadItem env snapshot { c with checks := c.checks + 1 } p lf) rest := by
        rw [stepUploadGo, checkCancel_none hcan]
        rfl
      have hskip : uploadItem env snapshot { c with checks := c.checks + 1 } p lf =
          { c with checks := c.checks + 1 } := by
        rw [uploadItem]
        show (match lookupA snapshot p with
          | none => _
          | some syncItem => _) = _
        rw [hit]
        dsimp only
        rw [if_pos hh]
      obtain ⟨n, hn⟩ := stepUploadGo_skip env snapshot hcan rest
        { c with checks := c.checks + 1 }
        (fun kv hkv => h kv (List.mem_cons_of_mem _ hkv))
      refine ⟨n, ?_⟩
      rw [hstep, hskip, hn]

theorem deleteRemoteGo_skip (env : Env) (localKeys : List String)
    (hcan : env.cancelAt = none) :
    ∀ (l : List (String × SyncItemState)) (c : Ctx),
      (∀ kv ∈ l, localKeys.contains kv.1 = true) →
      ∃ n, deleteRemoteGo env localKeys c l = { c with checks := n }
  | [], c, _ => ⟨c.checks, rfl⟩
  | (p, si) :: rest, c, h => by
      have hstep : deleteRemoteGo env localKeys c ((p, si) :: rest) =
          deleteRemoteGo env localKeys
            (deleteRemoteItem env localKeys { c with checks := c.checks + 1 } p si) rest := by
        rw [deleteRemoteGo, checkCancel_none hcan]
        rfl
      have hskip : deleteRemoteItem env localKeys { c with checks := c.checks + 1 } p si =
          { c with checks := c.checks + 1 } := by
        rw [deleteRemoteItem, if_pos (h (p, si) (List.mem_cons_self _ _))]
      obtain ⟨n, hn⟩ := deleteRemoteGo_skip env localKeys hcan rest
        { c with checks := c.checks + 1 }
        (fun kv hkv => h kv (List.mem_cons_of_mem _ hkv))
      refine ⟨n, ?_⟩
      rw [hstep, hskip, hn]

theorem deltaItem1_skip (env : Env) (snapshot : List (String × SyncItemState))
    (localFiles : List (String × LocalEntry)) (c : Ctx) (p : String) (rf : RFile)
    (it : SyncItemState) (lf : LocalEntry)
    (hit : lookupA snapshot p = some it)
    (hlf : lookupA localFiles p = some lf)
    (hma : manifestGet c.manifest p = some it.contentHash ∨
      (manifestGet c.manifest p = none ∧ ¬(it.remoteMtime + 1000 < rf.lastModified))) :
    deltaItem1 env snapshot localFiles c p rf = c := by
  rw [deltaItem1]
  dsimp only
  rw [hlf, hit]
  dsimp only
  rcases hma with hm | ⟨hm, hslack⟩
  · rw [hm]
    dsimp only
    rw [if_neg (show ¬(((it.contentHash != it.contentHash) &&
      !(lf.hash != it.contentHash)) = true) by simp)]
  · rw [hm]
    dsimp only
    rw [if_neg (show ¬((decide (it.remoteMtime + 1000 < rf.lastModified) &&
      !(lf.hash != it.contentHash)) = true) by
        rw [decide_eq_false hslack]
        simp)]

theorem deltaGo1_skip (env : Env) (snapshot : List (String × SyncItemState))
    (localFiles : List (String × LocalEntry))
    (hcan : env.cancelAt = none) :
    ∀ (l : List (String × RFile)) (c : Ctx),
      (∀ kv ∈ l, ∃ it lf, lookupA snapshot kv.1 = some it ∧
        lookupA localFiles kv.1 = some lf ∧
        (manifestGet c.manifest kv.1 = some it.contentHash ∨
          (manifestGet c.manifest kv.1 = none ∧
           ¬(it.remoteMtime + 1000 < kv.2.lastModified)))) →
      ∃ n, deltaGo1 env snapshot localFiles c l = { c with checks := n }
  | [], c, _ => ⟨c.checks, rfl⟩
  | (p, rf) :: rest, c, h => by
      obtain ⟨it, lf, hit, hlf, hma⟩ := h (p, rf) (List.mem_cons_self _ _)
      have hstep : deltaGo1 env snapshot localFiles c ((p, rf) :: rest) =
          deltaGo1 env snapshot localFiles
            (deltaItem1 env snapshot localFiles { c with checks := c.checks + 1 } p rf)
            rest := by
        rw [deltaGo1, checkCancel_none hcan]
        rfl
      have hskip : deltaItem1 env snapshot localFiles { c with checks := c.checks + 1 } p rf =
          { c with checks := c.checks + 1 } :=
        deltaItem1_skip env snapshot localFiles _ p rf it lf hit hlf hma
      obtain ⟨n, hn⟩ := deltaGo1_skip env snapshot localFiles hcan rest
        { c with checks := c.checks + 1 }
        (fun kv hkv => h kv (List.mem_cons_of_mem _ hkv))
      refine ⟨n, ?_⟩
      rw [hstep, hskip, hn]

theorem deltaGo2_skip (env : Env) (localFiles : List (String × LocalEntry))
    (remoteKeys : List String) (hcan : env.cancelAt = none) :
    ∀ (l : List (String × SyncItemState)) (c : Ctx),
      (∀ kv ∈ l, remoteKeys.contains kv.1 = true) →
      ∃ n, deltaGo2 env localFiles remoteKeys c l = { c with checks := n }
  | [], c, _ => ⟨c.checks, rfl⟩
  | (p, si) :: rest, c, h => by
      have hstep : deltaGo2 env localFiles remoteKeys c ((p, si) :: rest) =
          deltaGo2 env localFiles remoteKeys
            (deltaItem2 env localFiles remoteKeys { c with checks := c.checks + 1 } p si)
            rest := by
        rw [deltaGo2, checkCancel_none hcan]
        rfl
      have hskip : deltaItem2 env localFiles remoteKeys { c with checks := c.checks + 1 } p si =
          { c with checks := c.checks + 1 } := by
        rw [deltaItem2, if_pos (h (p, si) (List.mem_cons_self _ _))]
      obtain ⟨n, hn⟩ := deltaGo2_skip env localFiles remoteKeys hcan rest
        { c with checks := c.checks + 1 }
        (fun kv hkv => h kv (List.mem_cons_of_mem _ hkv))
      refine ⟨n, ?_⟩
      rw [hstep, hskip, hn]

theorem cleanPipeline_quiescent (env : Env) (st2 : SyncStateData)
    (vault2 : List (String × VFile)) (remote2 : Remote) (M : List (String × String))
    (hcan : env.cancelAt = none)
    (hfa : env.faults = noFaults)
    (hman : remote2.manifestFile = some M)
    (hWFf : WFA remote2.files)
    (hSA : ∀ kv ∈ scanLocalFiles env st2 vault2,
      ∃ it, lookupA st2.items kv.1 = some it ∧ kv.2.hash = it.contentHash)
    (hcov : ∀ q ∈ keysA st2.items, q ∈ keysA (scanLocalFiles env st2 vault2))
    (hMA : ∀ p it, lookupA st2.items p = some it →
      manifestGet M p = some it.contentHash ∨
      (manifestGet M p = none ∧ ∀ rf, lookupA remote2.files p = some rf →
        ¬(it.remoteMtime + 1000 < rf.lastModified)))
    (hrsome : ∀ p it, lookupA st2.items p = some it →
      ∃ rf, lookupA remote2.files p = some rf)
    (htrk : ∀ p rf, lookupA remote2.files p = some rf →
      isInternalFile p = false → p ≠ "" → p ∈ keysA st2.items)
    (hint : ∀ q ∈ keysA st2.items, isInternalFile q = false ∧ q ≠ "") :
    (cleanPipeline env st2 vault2 remote2).result = emptyResult := by
  obtain ⟨af1, af2, af3⟩ := acquireSyncLock_frame env st2.deviceId remote2
  set acq := acquireSyncLock env st2.deviceId remote2 with hacqdef
  set m0 := (if env.faults.manifestGetFail then [] else acq.2.manifestFile.getD [])
    with hm0def
  have hm0 : m0 = M := by
    rw [hm0def, hfa]
    show acq.2.manifestFile.getD [] = M
    rw [af2, hman]
    rfl
  set c5 : Ctx := ⟨vault2, acq.2, st2, m0, emptyResult, [], 3⟩ with hc5def
  set L := scanLocalFiles env st2 vault2 with hLdef
  set c6 := stepUpload env c5 L with hc6def
  set c7 : Ctx := { c6 with checks := c6.checks + 1 } with hc7def
  set c8 := stepRenameDetect env c7 L with hc8def
  set c9 : Ctx := { c8 with checks := c8.checks + 1 } with hc9def
  set c10 := stepDeleteRemote env c9 L with hc10def
  set c11 : Ctx := { c10 with checks := c10.checks + 1 } with hc11def
  set R := scanRemoteFiles c11.remote.files with hRdef
  have hcf : cleanPipeline env st2 vault2 remote2 = stepDelta env c11 L R := rfl
  -- the Upload phase only bumps the cancellation counter
  obtain ⟨n1, hn1⟩ := stepUploadGo_skip env st2.items hcan L c5 hSA
  have hc6eq : c6 = { c5 with checks := n1 } := by
    rw [hc6def]
    show stepUploadGo env c5.ledger.items c5 L = _
    exact hn1
  -- rename detection is a no-op: every scanned path is tracked
  have hc8eq : c8 = c7 := by
    rw [hc8def]
    apply stepRenameDetect_nop
    intro kv hkv
    obtain ⟨it, hit, _⟩ := hSA kv hkv
    have h7it : lookupA c7.ledger.items kv.1 = some it := by
      rw [hc7def, hc6eq]
      exact hit
    rw [h7it]
    rfl
  -- the Delete-Remote phase only bumps the counter: every tracked path is local
  obtain ⟨n2, hn2⟩ := deleteRemoteGo_skip env (keysA L) hcan st2.items c9 (by
    intro kv hkv
    exact (contains_iff_mem _ _).mpr (hcov kv.1 (List.mem_map.mpr ⟨kv, hkv, rfl⟩)))
  have hc10eq : c10 = { c9 with checks := n2 } := by
    rw [hc10def]
    show deleteRemoteGo env (keysA L) c9 c9.ledger.items = _
    have h9l : c9.ledger.items = st2.items := by
      rw [hc9def, hc8eq, hc7def, hc6eq]
    rw [h9l]
    exact hn2
  have hc11eq : c11 = { c5 with checks := n2 + 1 } := by
    rw [hc11def, hc10eq, hc9def, hc8eq, hc7def, hc6eq]
  have h11l : c11.ledger.items = st2.items := by rw [hc11eq]
  have h11m : c11.manifest = M := by
    rw [hc11eq]
    exact hm0
  have hRfiles : R = scanRemoteFiles remote2.files := by
    rw [hRdef, hc11eq]
    show scanRemoteFiles acq.2.files = _
    rw [af1]
  -- first Delta loop: every remote-listed path is tracked, local, and agreed
  obtain ⟨n3, hn3⟩ := deltaGo1_skip env st2.items L hcan R c11 (by
    intro kv hkv
    have hkv2 : (kv.1, kv.2) ∈ scanRemoteFiles remote2.files := by
      rw [← hRfiles, Prod.mk.eta]
      exact hkv
    obtain ⟨hlook, hnint, hne⟩ := scanRemoteFiles_mem_spec remote2.files hWFf kv.1 kv.2 hkv2
    have hmem : kv.1 ∈ keysA st2.items := htrk kv.1 kv.2 hlook hnint hne
    obtain ⟨it, hit⟩ := lookupA_isSome_of_mem_keys hmem
    obtain ⟨lf, hlf⟩ := lookupA_isSome_of_mem_keys (hcov kv.1 hmem)
    refine ⟨it, lf, hit, hlf, ?_⟩
    rw [h11m]
    rcases hMA kv.1 it hit with hmm | ⟨hmm, hsl⟩
    · exact Or.inl hmm
    · exact Or.inr ⟨hmm, hsl kv.2 hlook⟩)
  -- second Delta loop: every tracked path survives in the remote listing
  obtain ⟨n4, hn4⟩ := deltaGo2_skip env L (keysA R) hcan st2.items
    (deltaGo1 env st2.items L c11 R) (by
      intro kv hkv
      have hmem : kv.1 ∈ keysA st2.items := List.mem_map.mpr ⟨kv, hkv, rfl⟩
      obtain ⟨hnint, hne⟩ := hint kv.1 hmem
      obtain ⟨it, hit⟩ := lookupA_isSome_of_mem_keys hmem
      obtain ⟨rf, hrf⟩ := hrsome kv.1 it hit
      have hkmem : kv.1 ∈ keysA (scanRemoteFiles remote2.files) :=
        scanRemoteFiles_mem_keys remote2.files kv.1 (mem_keys_of_lookupA_eq_some hrf)
          hnint hne
      rw [hRfiles]
      exact (contains_iff_mem _ _).mpr hkmem)
  have hsd : stepDelta env c11 L R =
      deltaGo2 env L (keysA R) (deltaGo1 env st2.items L c11 R) st2.items := by
    rw [stepDelta]
    dsimp only
    rw [h11l]
  rw [hcf, hsd, hn4, hn3, hc11eq]

theorem loadSyncState_version (cur : SyncStateData)
    (persisted : Option (Except Unit SyncStateData))
    (hver : cur.version = CURRENT_VERSION) :
    (loadSyncState cur persisted).version = CURRENT_VERSION := by
  rw [loadSyncState.eq_def]
  cases persisted with
  | none => exact hver
  | some x =>
      cases x with
      | error u => exact hver
      | ok parsed =>
          dsimp only
          by_cases hp : parsed.version = CURRENT_VERSION
          · rw [if_pos hp]
            exact hp
          · rw [if_neg hp]
            exact hver

theorem loadSyncState_ok (cur st : SyncStateData) (hv : st.version = CURRENT_VERSION) :
    loadSyncState cur (some (Except.ok st)) = st := by
  rw [loadSyncState.eq_def]
  dsimp only
  rw [if_pos hv]

theorem acquireSyncLock_ok_later (env1 env2 : Env) (d1 d2 : String) (r1 r2 : Remote)
    (hfa1 : env1.faults = noFaults)
    (hfa2 : env2.faults = noFaults)
    (hx : r2.exclusiveLock = r1.exclusiveLock)
    (hnow : env1.now ≤ env2.now)
    (h1 : (acquireSyncLock env1 d1 r1).1 = true) :
    (acquireSyncLock env2 d2 r2).1 = true := by
  rw [acquireSyncLock] at h1 ⊢
  rw [if_neg (show ¬(env1.faults.lockGetFail = true) by rw [hfa1]; exact (by simp : ¬(false = true)))] at h1
  rw [if_neg (show ¬(env2.faults.lockGetFail = true) by rw [hfa2]; exact (by simp : ¬(false = true)))]
  rw [hx]
  cases hel : r1.exclusiveLock with
  | none => exact acquireWriteLock_fst env2 d2 r2
  | some ex =>
      cases ex with
      | error u => rfl
      | ok lock =>
          rw [hel] at h1
          dsimp only at h1 ⊢
          by_cases hlt : env1.now < lock.expiresAt
          · rw [if_pos hlt] at h1
            exact absurd h1 (by simp)
          · rw [if_neg (show ¬(env2.now < lock.expiresAt) from
              fun hh => hlt (lt_of_le_of_lt hnow hh))]
            exact acquireWriteLock_fst env2 d2 r2

theorem syncCore_acquired (env : Env) (e : EngineState) (w : World)
    (hconn : env.connected = true)
    (hcan : env.cancelAt = none)
    (hfa : env.faults = noFaults)
    (hsucc : (syncCore env e w).result.success = true) :
    (acquireSyncLock env (loadSyncState e.stateData w.persistedLedger).deviceId
      w.remote).1 = true := by
  by_cases hacq : (acquireSyncLock env
      (loadSyncState e.stateData w.persistedLedger).deviceId w.remote).1 = true
  · exact hacq
  · exfalso
    have hb : (acquireSyncLock env
        (loadSyncState e.stateData w.persistedLedger).deviceId w.remote).1 = false := by
      cases hv : (acquireSyncLock env
          (loadSyncState e.stateData w.persistedLedger).deviceId w.remote).1
      · rfl
      · exact absurd hv hacq
    have hm : env.faults.mkdirFail = false := by rw [hfa]; rfl
    have hr : env.faults.reloadFail = false := by rw [hfa]; rfl
    unfold syncCore at hsucc
    rw [if_neg (by simp [hconn])] at hsucc
    dsimp only at hsucc
    rw [if_neg (by simp [hm]), if_neg (by simp [hr]), checkCancel_none hcan] at hsucc
    dsimp only at hsucc
    rw [if_neg (by simp : ¬ (false = true)),
      if_pos (show (!(acquireSyncLock env
          (loadSyncState e.stateData w.persistedLedger).deviceId
          { w.remote with }).1) = true by rw [hb]; rfl)] at hsucc
    exact absurd hsucc (by simp [fatalResult])

theorem sync_clean (env : Env) (e : EngineState) (w : World)
    (hbusy : e.isSyncing = false)
    (hconn : env.connected = true)
    (hcan : env.cancelAt = none)
    (hfa : env.faults = noFaults)
    (hacq : (acquireSyncLock env (loadSyncState e.stateData w.persistedLedger).deviceId
      w.remote).1 = true) :
    sync env e w =
      (⟨false, false,
        { (cleanPipeline env (loadSyncState e.stateData w.persistedLedger)
            w.vault w.remote).ledger with lastSyncTime := env.now }⟩,
       ⟨(cleanPipeline env (loadSyncState e.stateData w.persistedLedger)
           w.vault w.remote).vault,
        { (cleanPipeline env (loadSyncState e.stateData w.persistedLedger)
             w.vault w.remote).remote with
          manifestFile := some (cleanPipeline env
            (loadSyncState e.stateData w.persistedLedger) w.vault w.remote).manifest,
          syncLocks := JSync.aeraseA (cleanPipeline env
            (loadSyncState e.stateData w.persistedLedger) w.vault w.remote).remote.syncLocks
            (lockFileName (loadSyncState e.stateData w.persistedLedger).deviceId) },
        some (Except.ok { (cleanPipeline env (loadSyncState e.stateData w.persistedLedger)
            w.vault w.remote).ledger with lastSyncTime := env.now })⟩,
       { (cleanPipeline env (loadSyncState e.stateData w.persistedLedger)
           w.vault w.remote).result with duration := 0 }) := by
  rw [sync, if_neg (show ¬(e.isSyncing = true) by rw [hbusy]; simp)]
  rw [syncCore_clean env e w hconn hcan hfa hacq]
  rw [finishCycle]
  dsimp only
  rw [if_pos (show (true && !env.faults.lockDeleteFail) = true by rw [hfa]; rfl)]

/-- C2 amended: immediately re-running a cycle after a successful,
error-free, fault-free cycle over a well-formed world with normalized
paths is a no-op — all counters zero, no errors, success — provided
every path tracked by the post-cycle ledger is seen by the second local
scan and conversely, and no tracked path is an internal control path or
empty. -/
theorem C2_idempotence_amended (env1 env2 : Env) (e : EngineState) (w : World)
    (hbusy : e.isSyncing = false)
    (hconn1 : env1.connected = true) (hconn2 : env2.connected = true)
    (hfa1 : env1.faults = noFaults) (hfa2 : env2.faults = noFaults)
    (hcan1 : env1.cancelAt = none) (hcan2 : env2.cancelAt = none)
    (hhash1 : ∀ s, env1.hash s ≠ "") (hhash12 : env1.hash = env2.hash)
    (hnow : env1.now ≤ env2.now)
    (hver : e.stateData.version = CURRENT_VERSION)
    (hWFv : WFA w.vault) (hNKv : NKkeys w.vault)
    (hWFf : WFA w.remote.files) (hNKf : NKkeys w.remote.files)
    (hWFi : WFA (loadSyncState e.stateData w.persistedLedger).items)
    (hNKi : NKkeys (loadSyncState e.stateData w.persistedLedger).items)
    (hsucc : ((sync env1 e w).2.2).success = true)
    (herr : ((sync env1 e w).2.2).errors = [])
    (htrk1 : ∀ q ∈ keysA (scanLocalFiles env2 (sync env1 e w).1.stateData
        (sync env1 e w).2.1.vault), q ∈ keysA (sync env1 e w).1.stateData.items)
    (htrk2 : ∀ q ∈ keysA (sync env1 e w).1.stateData.items,
        q ∈ keysA (scanLocalFiles env2 (sync env1 e w).1.stateData
          (sync env1 e w).2.1.vault))
    (hint : ∀ q ∈ keysA (sync env1 e w).1.stateData.items,
        isInternalFile q = false ∧ q ≠ "") :
    (sync env2 (sync env1 e w).1 (sync env1 e w).2.1).2.2 = emptyResult := by
  -- the first cycle acquired the lock, so it is a clean pipeline run
  have hsync1 : sync env1 e w = finishCycle env1 (syncCore env1 e w) := by
    rw [sync, if_neg (show ¬(e.isSyncing = true) by rw [hbusy]; simp)]
  have hsucc0 : (syncCore env1 e w).result.success = true := by
    rw [hsync1] at hsucc
    exact hsucc
  have hacq1 := syncCore_acquired env1 e w hconn1 hcan1 hfa1 hsucc0
  have hrun := sync_clean env1 e w hbusy hconn1 hcan1 hfa1 hacq1
  rw [hrun] at herr htrk1 htrk2 hint ⊢
  set st1 := loadSyncState e.stateData w.persistedLedger with hst1def
  set P := cleanPipeline env1 st1 w.vault w.remote with hPdef
  set stF : SyncStateData := { P.ledger with lastSyncTime := env1.now } with hstFdef
  dsimp only at herr htrk1 htrk2 hint ⊢
  -- the per-path guarantees of the first cycle
  have herr1 : P.result.errors = [] := herr
  obtain ⟨hCD, hgood, hver1, hdev, hexcl, hsuccP, herrP⟩ :=
    cleanPipeline_spec env1 st1 w.vault w.remote hcan1 hhash1 hfa1
      hWFv hNKv hWFf hNKf hWFi hNKi herr1
  have hverSt1 : st1.version = CURRENT_VERSION :=
    loadSyncState_version e.stateData w.persistedLedger hver
  have hvF : stF.version = CURRENT_VERSION := hver1.trans hverSt1
  have hld : loadSyncState stF (some (Except.ok stF)) = stF := loadSyncState_ok stF stF hvF
  -- the second cycle entry state and world
  set E1 : EngineState := ⟨false, false, stF⟩ with hE1def
  set W1 : World := ⟨P.vault,
    { P.remote with
      manifestFile := some P.manifest,
      syncLocks := JSync.aeraseA P.remote.syncLocks (lockFileName st1.deviceId) },
    some (Except.ok stF)⟩ with hW1def
  have hacq2 : (acquireSyncLock env2 (loadSyncState E1.stateData W1.persistedLedger).deviceId
      W1.remote).1 = true := by
    have hld2 : loadSyncState E1.stateData W1.persistedLedger = stF := hld
    rw [hld2]
    exact acquireSyncLock_ok_later env1 env2 st1.deviceId stF.deviceId w.remote W1.remote
      hfa1 hfa2 hexcl hnow hacq1
  have h2 := sync_clean env2 E1 W1 rfl hconn2 hcan2 hfa2 hacq2
  have h3 : (sync env2 E1 W1).2.2 =
      { (cleanPipeline env2 (loadSyncState E1.stateData W1.persistedLedger)
          W1.vault W1.remote).result with duration := 0 } := by
    rw [h2]
  have hld3 : loadSyncState E1.stateData W1.persistedLedger = stF := hld
  rw [hld3] at h3
  rw [h3]
  -- scanned paths of the second cycle agree with the ledger digests
  have hvnk2 : ∀ kv ∈ P.vault, normalizePath kv.1 = kv.1 :=
    fun kv h => hgood.2.2.2.1 kv.1 (List.mem_map.mpr ⟨kv, h, rfl⟩)
  have hvnk1 : ∀ kv ∈ w.vault, normalizePath kv.1 = kv.1 :=
    fun kv h => hNKv kv.1 (List.mem_map.mpr ⟨kv, h, rfl⟩)
  have hSA : ∀ kv ∈ scanLocalFiles env2 stF W1.vault,
      ∃ it, lookupA stF.items kv.1 = some it ∧ kv.2.hash = it.contentHash := by
    intro kv hkv
    have hkv2 : (kv.1, kv.2) ∈ scanLocalFiles env2 stF P.vault := by
      rw [Prod.mk.eta]
      exact hkv
    obtain ⟨f, hf, hmt, hsz, hdisj⟩ :=
      scanLocalFiles_mem_spec env2 stF P.vault hvnk2 hgood.1 kv.1 kv.2 hkv2
    rcases hdisj with ⟨it, hit, hm, hs, hh⟩ | ⟨hneg, hh⟩
    · exact ⟨it, hit, hh⟩
    · have hmemI : kv.1 ∈ keysA stF.items :=
        htrk1 kv.1 (List.mem_map.mpr ⟨kv, hkv, rfl⟩)
      obtain ⟨it, hit⟩ := lookupA_isSome_of_mem_keys hmemI
      refine ⟨it, hit, ?_⟩
      rcases hCD kv.1 with ⟨f2, it2, hf2, hit2, hch, hmt2, hsz2, hman2, _⟩ |
        ⟨e1e, it2, he1, hit2, hh1, hms, hv1, hrfex, hma1⟩ | ⟨hnone, _⟩
      · -- fully synced: the second scan would have reused the digest
        exfalso
        have hfeq : f2 = f := Option.some.inj (hf2.symm.trans hf)
        have hiteq : it2 = it := Option.some.inj (hit2.symm.trans hit)
        apply hneg it hit
        rw [← hfeq, ← hiteq]
        exact ⟨hmt2.symm, hsz2.symm⟩
      · have hiteq : it2 = it := Option.some.inj (hit2.symm.trans hit)
        have hwf : lookupA w.vault kv.1 = some f := hv1.symm.trans hf
        obtain ⟨f0, hf0, hmt0, hsz0, hdisj0⟩ :=
          scanLocalFiles_mem_spec env1 st1 w.vault hvnk1 hWFv kv.1 e1e
            (mem_of_lookupA_eq_some _ _ _ he1)
        have hf0eq : f0 = f := Option.some.inj (hf0.symm.trans hwf)
        rcases hms with ⟨hl1, hl2⟩ | hsnap
        · exfalso
          apply hneg it hit
          rw [hiteq] at hl1 hl2
          constructor
          · rw [hl1, hmt0, hf0eq]
          · rw [hl2, hsz0, hf0eq]
        · rcases hdisj0 with ⟨it1, hit1, hm1, hs1, _⟩ | ⟨_, hh0⟩
          · exfalso
            have hit1eq : it1 = it := by
              rw [hiteq] at hsnap
              exact Option.some.inj (hit1.symm.trans hsnap)
            apply hneg it hit
            rw [← hit1eq, ← hf0eq]
            exact ⟨hm1, hs1⟩
          · rw [hh, ← hhash12, ← hf0eq, ← hh0, hh1, hiteq]
      · exact absurd (hit.symm.trans hnone) (by simp)
  -- tracked paths keep their manifest digests and remote copies
  have hMA : ∀ p it, lookupA stF.items p = some it →
      manifestGet P.manifest p = some it.contentHash ∨
      (manifestGet P.manifest p = none ∧ ∀ rf, lookupA W1.remote.files p = some rf →
        ¬(it.remoteMtime + 1000 < rf.lastModified)) := by
    intro p it hit
    rcases hCD p with ⟨f2, it2, _, hit2, _, _, _, hman2, _⟩ |
      ⟨e1e, it2, _, hit2, _, _, _, _, hma1⟩ | ⟨hnone, _⟩
    · have hiteq : it2 = it := Option.some.inj (hit2.symm.trans hit)
      rw [← hiteq]
      exact Or.inl hman2
    · have hiteq : it2 = it := Option.some.inj (hit2.symm.trans hit)
      rw [← hiteq]
      rcases hma1 with hmm | ⟨hmm, hsl⟩
      · exact Or.inl hmm
      · exact Or.inr ⟨hmm, hsl⟩
    · exact absurd (hit.symm.trans hnone) (by simp)
  have hrsome : ∀ p it, lookupA stF.items p = some it →
      ∃ rf, lookupA W1.remote.files p = some rf := by
    intro p it hit
    rcases hCD p with ⟨f2, it2, _, _, _, _, _, _, rf, hrf, _⟩ |
      ⟨e1e, it2, _, _, _, _, _, hrfex, _⟩ | ⟨hnone, _⟩
    · exact ⟨rf, hrf⟩
    · exact hrfex
    · exact absurd (hit.symm.trans hnone) (by simp)
  have htrkRem : ∀ p rf, lookupA W1.remote.files p = some rf →
      isInternalFile p = false → p ≠ "" → p ∈ keysA stF.items := by
    intro p rf hlook hnint hne
    rcases hCD p with ⟨f2, it2, _, hit2, _⟩ |
      ⟨e1e, it2, _, hit2, _⟩ | ⟨hnone, hdis⟩
    · exact mem_keys_of_lookupA_eq_some hit2
    · exact mem_keys_of_lookupA_eq_some hit2
    · exfalso
      rcases hdis with hd | hd | hd
      · exact absurd (hlook.symm.trans hd) (by simp)
      · rw [hnint] at hd
        exact absurd hd (by simp)
      · exact hne hd
  have hquiet : (cleanPipeline env2 stF W1.vault W1.remote).result = emptyResult :=
    cleanPipeline_quiescent env2 stF W1.vault W1.remote P.manifest hcan2 hfa2 rfl
      hgood.2.1 hSA htrk2 hMA hrsome htrkRem hint
  rw [hquiet]
  rfl

/-- C2 amended, witness at concrete inputs: over the one-file world the
second cycle run right after the first returns the pristine empty
result — all counters zero, success, no errors. -/
theorem C2_idempotence_amended_witness :
    (sync tEnv2 (sync tEnv tEngine simpleWorld).1 (sync tEnv tEngine simpleWorld).2.1).2.2 =
      emptyResult :=
  C2_idempotence_amended tEnv tEnv2 tEngine simpleWorld rfl rfl rfl rfl rfl rfl rfl
    (fun s h => Nat.succ_ne_zero s.length (congrArg String.length h)) rfl (by decide) rfl
    (by unfold WFA; decide) (by unfold NKkeys; decide)
    (by unfold WFA; decide) (by unfold NKkeys; decide)
    (by unfold WFA; decide) (by unfold NKkeys; decide)
    (by decide) (by decide) (by decide) (by decide) (by decide)
